import Mathlib

/-! Load generators of `raibid-labs/mop`: statistics, outcome recording, load patterns,
the pacer, reports and `float64` arithmetic; the example services.

A shallow embedding of the per-protocol load generators under `load-generators/`,
of the rate patterns in `internal/patterns/patterns.go`, and of the order events,
the retrying consumer and the in-memory store under `examples/`, with the
properties proved about them.

Conventions of the embedding

* `time.Duration`, `int64` and `int` values are integers (`Int`) kept in the signed
  64-bit range by `wrap64` wherever the Go code does arithmetic on them.
* A slice `[]time.Duration` is a `List Int`; `a[i]` is `a.getD i 0` and an
  assignment `a[i] = v` is `a.set i v`.  Slice lengths and loop indices are natural
  numbers: a slice of 8-byte values cannot reach a length at which `len*99`
  leaves the 64-bit range.
* A Go `map[K]int64` is an association list read with `Tally.get` (a missing key
  reads as `0`, as in Go) and updated with `Tally.incr` (the statement `m[k]++`).
* A `for` loop is a recursive function that carries the loop variables and tests
  the loop guard at every iteration; the extra first argument bounds the number
  of iterations and is always given a value the guard reaches first
  (`retryLoop` takes the bound from its caller, returns `none` when it is used
  up, and is shown to end within `maxRetries + 2` tests of its guard).
* A finite `float64` value is the rational number it stands for, and every
  `float64` operation rounds its exact result to the nearest `float64`, ties to
  even (namespace `F64`).
* A goroutine that blocks in `select` statements is a state machine stepped by
  the choices of those statements (`pacerStep`).
* Workers that share a `Results` are an interleaving of the atomic updates of
  their calls, chosen by a schedule (`runWorkers`).
* An `error` result is an `Option` (`none` for `nil`); a run-time panic is a
  constructor of the result type.
* A report is the list of its keys or labels with the value each verb displays
  (namespace `Report`).
-/

namespace Mop

/-- Two's-complement wrap-around of an integer into the signed 64-bit range. -/
def wrap64 (x : Int) : Int := (x + 9223372036854775808) % 18446744073709551616 - 9223372036854775808

/-- One millisecond as a `time.Duration` (nanoseconds). -/
def Millisecond : Int := 1000000

/-- One second as a `time.Duration` (nanoseconds). -/
def Second : Int := 1000000000

/-- A Go `map[K]int64`. -/
abbrev Tally (κ : Type) := List (κ × Int)

/-- Reading `m[k]`: the stored count, or zero for a key that is absent. -/
def Tally.get {κ : Type} [DecidableEq κ] (m : Tally κ) (k : κ) : Int :=
  match m with
  | [] => 0
  | (k', v) :: rest => if k' = k then v else Tally.get rest k

/-- The statement `m[k]++`. -/
def Tally.incr {κ : Type} [DecidableEq κ] (m : Tally κ) (k : κ) : Tally κ :=
  match m with
  | [] => [(k, 1)]
  | (k', v) :: rest => if k' = k then (k', wrap64 (v + 1)) :: rest else (k', v) :: Tally.incr rest k

/-- The tally `m'` is the tally `m` with exactly the entry of key `k` incremented
by one: every other key reads as before. -/
def Tally.IncrementedAt {κ : Type} [DecidableEq κ] (m m' : Tally κ) (k : κ) : Prop :=
  ∀ k', Tally.get m' k' = if k' = k then wrap64 (Tally.get m k' + 1) else Tally.get m k'

namespace Http

/-- The `Results` struct of `01-http/internal/generator/generator.go`. -/
structure Results where
  TotalRequests : Int
  SuccessRequests : Int
  FailedRequests : Int
  TotalDuration : Int
  MinLatency : Int
  MaxLatency : Int
  AvgLatency : Int
  P50Latency : Int
  P95Latency : Int
  P99Latency : Int
  Latencies : List Int
  StatusCodes : Tally Int
  Errors : Tally String
  deriving DecidableEq, Repr

/-- The value `Run` creates before starting the workers: empty maps, an empty
latency slice and every other field at its zero value. -/
def newResults : Results :=
  { TotalRequests := 0, SuccessRequests := 0, FailedRequests := 0, TotalDuration := 0,
    MinLatency := 0, MaxLatency := 0, AvgLatency := 0,
    P50Latency := 0, P95Latency := 0, P99Latency := 0,
    Latencies := [], StatusCodes := [], Errors := [] }

/-- The tuple assignment `latencies[i], latencies[j] = latencies[j], latencies[i]`. -/
def swapAt (a : List Int) (i j : Nat) : List Int :=
  (a.set i (a.getD j 0)).set j (a.getD i 0)

/-- The inner loop `for j := ...; j < len(latencies); j++` of `calculateStatistics`,
entered with the current value of `j`. -/
def innerLoop (i : Nat) : Nat → Nat → List Int → List Int
  | 0, _, a => a
  | fuel + 1, j, a =>
    if j < a.length then
      innerLoop i fuel (j + 1) (if a.getD i 0 > a.getD j 0 then swapAt a i j else a)
    else a

/-- The outer loop `for i := ...; i < len(latencies); i++` of `calculateStatistics`,
entered with the current value of `i`. -/
def outerLoop : Nat → Nat → List Int → List Int
  | 0, _, a => a
  | fuel + 1, i, a =>
    if i < a.length then outerLoop fuel (i + 1) (innerLoop i a.length (i + 1) a) else a

/-- The sorting phase of `calculateStatistics` (both loops, from `i = 0`). -/
def sortLatencies (a : List Int) : List Int := outerLoop a.length 0 a

/-- The loop `for _, l := range latencies { sum += l }` on an `int64` accumulator. -/
def sumLoop (sum : Int) : List Int → Int
  | [] => sum
  | l :: rest => sumLoop (wrap64 (sum + l)) rest

/-- The method `calculateStatistics`. -/
def calculateStatistics (results : Results) : Results :=
  if results.Latencies.length = 0 then results
  else
    let latencies := sortLatencies results.Latencies
    let sum := sumLoop 0 latencies
    { results with
      Latencies := latencies
      MinLatency := latencies.getD 0 0
      MaxLatency := latencies.getD (latencies.length - 1) 0
      AvgLatency := Int.tdiv sum (latencies.length : Int)
      P50Latency := latencies.getD (latencies.length * 50 / 100) 0
      P95Latency := latencies.getD (latencies.length * 95 / 100) 0
      P99Latency := latencies.getD (latencies.length * 99 / 100) 0 }

/-- The inner loop seen on the part of the slice it works on: `x` is the value at
index `i`, `mid` the values already compared, and the third list the values
still to be compared. -/
def selectMin (x : Int) (mid : List Int) : List Int → List Int
  | [] => x :: mid
  | y :: s => if x > y then selectMin y (mid ++ [x]) s else selectMin x (mid ++ [y]) s

/-- The six derived latency fields of a `Results`, in the order
min, max, avg, p50, p95, p99. -/
def Results.stats (r : Results) : List Int :=
  [r.MinLatency, r.MaxLatency, r.AvgLatency, r.P50Latency, r.P95Latency, r.P99Latency]

/-- A `Results` as `Run` hands it to `calculateStatistics` when the workers
recorded the latencies `l`: fresh but for the latency slice. -/
def withLatencies (l : List Int) : Results := { newResults with Latencies := l }

/-- What the collaborators of one `makeRequest` call returned: either
`http.NewRequestWithContext` failed, or `client.Do` failed after the measured
latency, or `client.Do` returned a response with a status code. -/
inductive Call where
  | buildFailed (err : String)
  | doFailed (latency : Int) (err : String)
  | responded (latency : Int) (statusCode : Int)
  deriving DecidableEq, Repr

/-- The method `makeRequest`, as the sequence of its updates of `results`
(the Prometheus metrics are not part of `Results`). -/
def makeRequest (results : Results) (c : Call) : Results :=
  let results := { results with TotalRequests := wrap64 (results.TotalRequests + 1) }
  match c with
  | .buildFailed err =>
    { results with
      FailedRequests := wrap64 (results.FailedRequests + 1)
      Errors := results.Errors.incr err }
  | .doFailed latency err =>
    let results := { results with Latencies := results.Latencies ++ [latency] }
    { results with
      FailedRequests := wrap64 (results.FailedRequests + 1)
      Errors := results.Errors.incr err }
  | .responded latency statusCode =>
    let results := { results with Latencies := results.Latencies ++ [latency] }
    let results := { results with StatusCodes := results.StatusCodes.incr statusCode }
    if statusCode ≥ 200 ∧ statusCode < 300 then
      { results with SuccessRequests := wrap64 (results.SuccessRequests + 1) }
    else
      { results with FailedRequests := wrap64 (results.FailedRequests + 1) }

/-- A fresh `Results` after the given calls of `makeRequest` have completed,
one after the other. -/
def afterCalls (calls : List Call) : Results := calls.foldl makeRequest newResults

/-- Whether `http.NewRequestWithContext` failed in this call. -/
def Call.notIssued : Call → Bool
  | .buildFailed _ => true
  | _ => false

end Http

namespace Grpc

/-- The `Results` struct of `02-grpc/internal/generator/generator.go`;
a `codes.Code` is its number. -/
structure Results where
  TotalRequests : Int
  SuccessRequests : Int
  FailedRequests : Int
  TotalDuration : Int
  MinLatency : Int
  MaxLatency : Int
  AvgLatency : Int
  P50Latency : Int
  P95Latency : Int
  P99Latency : Int
  Latencies : List Int
  StatusCodes : Tally Nat
  Errors : Tally String
  deriving DecidableEq, Repr

/-- The value `Run` creates before starting the workers. -/
def newResults : Results :=
  { TotalRequests := 0, SuccessRequests := 0, FailedRequests := 0, TotalDuration := 0,
    MinLatency := 0, MaxLatency := 0, AvgLatency := 0,
    P50Latency := 0, P95Latency := 0, P99Latency := 0,
    Latencies := [], StatusCodes := [], Errors := [] }

/-- The constant `codes.OK`. -/
def codesOK : Nat := 0

/-- What the collaborators of one `makeRequest` call returned: `json.Unmarshal`
failed on the request data, or `conn.Invoke` failed after the measured latency
(`status` is the code `status.FromError` extracts, when it reports `ok`), or
`conn.Invoke` succeeded. -/
inductive Call where
  | parseFailed (err : String)
  | invokeFailed (latency : Int) (err : String) (status : Option Nat)
  | invoked (latency : Int)
  deriving DecidableEq, Repr

/-- The method `makeRequest`, as the sequence of its updates of `results`. -/
def makeRequest (results : Results) (c : Call) : Results :=
  let results := { results with TotalRequests := wrap64 (results.TotalRequests + 1) }
  match c with
  | .parseFailed err =>
    { results with
      FailedRequests := wrap64 (results.FailedRequests + 1)
      Errors := results.Errors.incr err }
  | .invokeFailed latency err status =>
    let results := { results with Latencies := results.Latencies ++ [latency] }
    let results := { results with FailedRequests := wrap64 (results.FailedRequests + 1) }
    match status with
    | some code => { results with StatusCodes := results.StatusCodes.incr code }
    | none => { results with Errors := results.Errors.incr err }
  | .invoked latency =>
    let results := { results with Latencies := results.Latencies ++ [latency] }
    let results := { results with SuccessRequests := wrap64 (results.SuccessRequests + 1) }
    { results with StatusCodes := results.StatusCodes.incr codesOK }

/-- A fresh `Results` after the given calls of `makeRequest` have completed. -/
def afterCalls (calls : List Call) : Results := calls.foldl makeRequest newResults

/-- Whether `json.Unmarshal` failed in this call. -/
def Call.notIssued : Call → Bool
  | .parseFailed _ => true
  | _ => false

end Grpc

namespace Sql

/-- The `Results` struct of `03-sql/internal/generator/generator.go`. -/
structure Results where
  TotalTransactions : Int
  SuccessTransactions : Int
  FailedTransactions : Int
  TotalDuration : Int
  MinLatency : Int
  MaxLatency : Int
  AvgLatency : Int
  P50Latency : Int
  P95Latency : Int
  P99Latency : Int
  Latencies : List Int
  Errors : Tally String
  deriving DecidableEq, Repr

/-- The value `Run` creates before starting the workers. -/
def newResults : Results :=
  { TotalTransactions := 0, SuccessTransactions := 0, FailedTransactions := 0,
    TotalDuration := 0, MinLatency := 0, MaxLatency := 0, AvgLatency := 0,
    P50Latency := 0, P95Latency := 0, P99Latency := 0, Latencies := [], Errors := [] }

/-- What one `executeTransaction` call observed: the measured latency and the
error of `executeRead` or `executeWrite` (`none` for `nil`, also when the query
type is neither `read` nor `write` and no statement runs). -/
structure Call where
  latency : Int
  err : Option String
  deriving DecidableEq, Repr

/-- The method `executeTransaction`, as the sequence of its updates of `results`. -/
def executeTransaction (results : Results) (c : Call) : Results :=
  let results := { results with TotalTransactions := wrap64 (results.TotalTransactions + 1) }
  let results := { results with Latencies := results.Latencies ++ [c.latency] }
  match c.err with
  | some err =>
    { results with
      FailedTransactions := wrap64 (results.FailedTransactions + 1)
      Errors := results.Errors.incr err }
  | none => { results with SuccessTransactions := wrap64 (results.SuccessTransactions + 1) }

/-- A fresh `Results` after the given calls of `executeTransaction` have completed. -/
def afterCalls (calls : List Call) : Results := calls.foldl executeTransaction newResults

end Sql

namespace Redis

/-- The `Results` struct of `04-redis/internal/generator/generator.go`. -/
structure Results where
  TotalOperations : Int
  SuccessOperations : Int
  FailedOperations : Int
  TotalDuration : Int
  MinLatency : Int
  MaxLatency : Int
  AvgLatency : Int
  P50Latency : Int
  P95Latency : Int
  P99Latency : Int
  Latencies : List Int
  Errors : Tally String
  deriving DecidableEq, Repr

/-- The value `Run` creates before starting the workers. -/
def newResults : Results :=
  { TotalOperations := 0, SuccessOperations := 0, FailedOperations := 0,
    TotalDuration := 0, MinLatency := 0, MaxLatency := 0, AvgLatency := 0,
    P50Latency := 0, P95Latency := 0, P99Latency := 0, Latencies := [], Errors := [] }

/-- The operation type after the `mixed` draw has been resolved. -/
inductive OpType where
  | get
  | set
  | other
  deriving DecidableEq, Repr

/-- The error a Redis command returned: `nil`, the sentinel `redis.Nil`, or any
other error with its text. -/
inductive CmdError where
  | none
  | redisNil
  | failure (msg : String)
  deriving DecidableEq, Repr

/-- What one `executeOperation` call observed. -/
structure Call where
  opType : OpType
  latency : Int
  cmdErr : CmdError
  deriving DecidableEq, Repr

/-- The value of `err` after the `switch opType` statement: no command runs for
an operation type other than `get` and `set`, and a `get` that misses the key
(`redis.Nil`) counts as no error. -/
def Call.err (c : Call) : Option String :=
  match c.opType, c.cmdErr with
  | .other, _ => none
  | _, .none => none
  | .get, .redisNil => none
  | .set, .redisNil => some "redis: nil"
  | _, .failure msg => some msg

/-- The method `executeOperation`, as the sequence of its updates of `results`. -/
def executeOperation (results : Results) (c : Call) : Results :=
  let results := { results with TotalOperations := wrap64 (results.TotalOperations + 1) }
  let results := { results with Latencies := results.Latencies ++ [c.latency] }
  match c.err with
  | some err =>
    { results with
      FailedOperations := wrap64 (results.FailedOperations + 1)
      Errors := results.Errors.incr err }
  | none => { results with SuccessOperations := wrap64 (results.SuccessOperations + 1) }

/-- A fresh `Results` after the given calls of `executeOperation` have completed. -/
def afterCalls (calls : List Call) : Results := calls.foldl executeOperation newResults

end Redis

namespace Kafka

/-- The `Results` struct of `05-kafka/internal/generator/generator.go`. -/
structure Results where
  TotalMessages : Int
  SuccessMessages : Int
  FailedMessages : Int
  TotalBytes : Int
  TotalDuration : Int
  MinLatency : Int
  MaxLatency : Int
  AvgLatency : Int
  P50Latency : Int
  P95Latency : Int
  P99Latency : Int
  Latencies : List Int
  Errors : Tally String
  deriving DecidableEq, Repr

/-- The value `Run` creates before starting the workers. -/
def newResults : Results :=
  { TotalMessages := 0, SuccessMessages := 0, FailedMessages := 0, TotalBytes := 0,
    TotalDuration := 0, MinLatency := 0, MaxLatency := 0, AvgLatency := 0,
    P50Latency := 0, P95Latency := 0, P99Latency := 0, Latencies := [], Errors := [] }

/-- What one `sendMessage` call observed: the measured latency and the error of
`writer.WriteMessages`. -/
structure Call where
  latency : Int
  err : Option String
  deriving DecidableEq, Repr

/-- The method `sendMessage` for a generator configured with `messageSize`, as
the sequence of its updates of `results`. -/
def sendMessage (messageSize : Int) (results : Results) (c : Call) : Results :=
  let results := { results with TotalMessages := wrap64 (results.TotalMessages + 1) }
  let results := { results with Latencies := results.Latencies ++ [c.latency] }
  match c.err with
  | some err =>
    { results with
      FailedMessages := wrap64 (results.FailedMessages + 1)
      Errors := results.Errors.incr err }
  | none =>
    let results := { results with SuccessMessages := wrap64 (results.SuccessMessages + 1) }
    { results with TotalBytes := wrap64 (results.TotalBytes + messageSize) }

/-- A fresh `Results` after the given calls of `sendMessage` have completed. -/
def afterCalls (messageSize : Int) (calls : List Call) : Results :=
  calls.foldl (sendMessage messageSize) newResults

end Kafka

/-- The invariant `total = succeeded + failed` on three `int64` counters after
`calls` completed calls: the Go comparison `total == succeeded + failed` holds,
and as long as fewer than `2^63` calls were made no counter has wrapped around
and the equality is one of integers. -/
def Balanced (calls : Nat) (total succeeded failed : Int) : Prop :=
  total = wrap64 (succeeded + failed) ∧
    (calls < 9223372036854775808 → total = succeeded + failed)

/-- The state of three `int64` counters after `n` calls, each of which added one
to the total and one to either the success or the failed counter: `a` successes
and `b` failures with `a + b = n`, every counter wrapped into 64 bits. -/
def CounterInv (n : Nat) (total succeeded failed : Int) : Prop :=
  ∃ a b : Nat, a + b = n ∧ total = wrap64 n ∧ succeeded = wrap64 a ∧ failed = wrap64 b

/-! The arithmetic of `float64`.

A finite `float64` value is the rational number it stands for.  Every operation
returns the `float64` nearest to the exact result (ties to even): this is
IEEE 754 arithmetic with one rounding per operation, as the Go compiler emits
it when it does not fuse a multiplication with an addition.  Infinities and
NaN are not represented: the values computed here are below `2^1024` in
magnitude, and every division has a divisor the code has checked to be
non-zero.
-/

namespace F64

/-- Rounding of a rational to the nearest integer, ties going to the even one. -/
def roundHalfEven (y : ℚ) : Int :=
  if y - ⌊y⌋ < 1 / 2 then ⌊y⌋
  else if 1 / 2 < y - ⌊y⌋ then ⌊y⌋ + 1
  else if ⌊y⌋ % 2 = 0 then ⌊y⌋ else ⌊y⌋ + 1

/-- The binary exponent of a non-zero rational `q`: the `e` with
`2^e ≤ |q| < 2^(e+1)`. -/
def exponent (q : ℚ) : Int := Int.log 2 |q|

/-- The spacing of the `float64` values around `q`: `2^(e-52)` for the exponent
`e` of `q`, and `2^(-1074)` in the subnormal range. -/
def ulp (q : ℚ) : ℚ := (2 : ℚ) ^ (max (exponent q) (-1022) - 52)

/-- The `float64` nearest to the rational `q`, ties to even. -/
def nearest (q : ℚ) : ℚ := (roundHalfEven (q / ulp q) : ℚ) * ulp q

/-- The conversion `float64(n)` of an integer. -/
def ofInt (n : Int) : ℚ := nearest (n : ℚ)

/-- The `float64` sum `a + b`. -/
def add (a b : ℚ) : ℚ := nearest (a + b)

/-- The `float64` product `a * b`. -/
def mul (a b : ℚ) : ℚ := nearest (a * b)

/-- The `float64` quotient `a / b`, for `b ≠ 0`. -/
def div (a b : ℚ) : ℚ := nearest (a / b)

/-- The function `math.Round`: the nearest integer, halves going away from zero. -/
def Round (x : ℚ) : ℚ := if 0 ≤ x then (⌊x + 1 / 2⌋ : ℚ) else -(⌊-x + 1 / 2⌋ : ℚ)

/-- The conversion `int(x)` of a `float64`: the fraction is discarded.  For a
value outside the `int` range the Go specification leaves the result to the
implementation; the value given here is the one of amd64. -/
def toInt (x : ℚ) : Int :=
  let t : Int := if 0 ≤ x then ⌊x⌋ else -⌊-x⌋
  if -9223372036854775808 ≤ t ∧ t < 9223372036854775808 then t else -9223372036854775808

/-- The function `math.Sin`: `Sin(0) = 0` by its documentation; for the other
arguments `sin` stands for the approximation the library computes. -/
def Sin (sin : ℚ → ℚ) (x : ℚ) : ℚ := if x = 0 then 0 else sin x

/-- The constant `2 * math.Pi` as a `float64`: `884279719003555 / 2^47`. -/
def twoPi : ℚ := 884279719003555 / 140737488355328

end F64

namespace Patterns

/-- The method `time.Duration.Seconds`:
`float64(d / Second) + float64(d % Second) / 1e9`. -/
def Seconds (d : Int) : ℚ :=
  F64.add (F64.ofInt (Int.tdiv d Second)) (F64.div (F64.ofInt (Int.tmod d Second)) 1000000000)

/-- The conversion `int(d.Seconds())` of a `time.Duration`: the `float64` number
of seconds with its fraction discarded.  A `time.Duration` is an `int64`; on an
integer outside that range, which is no `Duration`, the definition continues
with the truncated quotient `d / Second`, the value the conversion has on every
whole number of seconds (`secondsInt_whole`). -/
def secondsInt (d : Int) : Int :=
  if -9223372036854775808 ≤ d ∧ d < 9223372036854775808 then F64.toInt (Seconds d)
  else Int.tdiv d 1000000000

/-- The struct `ConstantLoad`. -/
structure ConstantLoad where
  rps : Int
  deriving DecidableEq, Repr

/-- The constructor `NewConstantLoad`. -/
def NewConstantLoad (rps : Int) : ConstantLoad := { rps := rps }

/-- The method `(*ConstantLoad).RPS`. -/
def ConstantLoad.RPS (c : ConstantLoad) (_second : Int) : Int := c.rps

/-- The struct `SpikeLoad`; `spikeEvery` is a `time.Duration`. -/
structure SpikeLoad where
  baseRPS : Int
  spikeRPS : Int
  spikeEvery : Int
  deriving DecidableEq, Repr

/-- The constructor `NewSpikeLoad`. -/
def NewSpikeLoad (baseRPS spikeRPS spikeEvery : Int) : SpikeLoad :=
  { baseRPS := baseRPS, spikeRPS := spikeRPS, spikeEvery := spikeEvery }

/-- The method `(*SpikeLoad).RPS`; `%` is Go's truncated remainder. -/
def SpikeLoad.RPS (s : SpikeLoad) (second : Int) : Int :=
  let spikeDuration := secondsInt s.spikeEvery
  let spikeDuration := if spikeDuration = 0 then 10 else spikeDuration
  if Int.tmod second spikeDuration < 3 then s.spikeRPS else s.baseRPS

/-- The struct `StepLoad`; `stepEvery` is a `time.Duration`. -/
structure StepLoad where
  startRPS : Int
  stepRPS : Int
  stepEvery : Int
  deriving DecidableEq, Repr

/-- The constructor `NewStepLoad`. -/
def NewStepLoad (startRPS stepRPS stepEvery : Int) : StepLoad :=
  { startRPS := startRPS, stepRPS := stepRPS, stepEvery := stepEvery }

/-- The method `(*StepLoad).RPS`; `/` is Go's truncated division and the
arithmetic is that of a 64-bit `int`. -/
def StepLoad.RPS (s : StepLoad) (second : Int) : Int :=
  let stepDuration := secondsInt s.stepEvery
  let stepDuration := if stepDuration = 0 then 10 else stepDuration
  let step := wrap64 (Int.tdiv second stepDuration)
  wrap64 (s.startRPS + wrap64 (step * s.stepRPS))

end Patterns

namespace Http

/-- The struct `Config` of `01-http/internal/generator/generator.go`. -/
structure Config where
  TargetURL : String
  Method : String
  Body : String
  Headers : List (String × String)
  Concurrency : Int
  Timeout : Int
  MetricsPort : Int
  deriving DecidableEq, Repr

/-- What a `select` statement of the pacer goroutine of `Run` chose: the ticker
fired, the send `reqChan <- struct{}{}` went through, or `ctx.Done()` fired. -/
inductive PacerEvent where
  | tick
  | accepted
  | cancelled
  deriving DecidableEq, Repr

/-- Where the pacer goroutine stands: blocked in the outer `select`, blocked in
the inner `select` with the loop variables `i` and `rps`, or returned. -/
inductive PacerMode where
  | waiting
  | admitting (i rps : Int)
  | returned
  deriving DecidableEq, Repr

/-- The pacer goroutine of `Run` together with what it has done so far: the
arguments of its calls of `pattern.RPS` (oldest first), the number of tokens it
has put on `reqChan`, and the number of times `close(reqChan)` has run. -/
structure PacerState where
  currentSecond : Int
  mode : PacerMode
  queried : List Int
  admitted : Nat
  closes : Nat
  deriving DecidableEq, Repr

/-- The pacer goroutine when it reaches the outer `select` for the first time. -/
def pacerStart : PacerState :=
  { currentSecond := 0, mode := .waiting, queried := [], admitted := 0, closes := 0 }

/-- The head of the inner loop `for i := ...; i < rps; i++`: either the goroutine
blocks in the inner `select`, or the loop is over, `currentSecond++` runs and
the goroutine is back at the outer `select`.  (`i < rps`, so `i++` cannot
overflow; `currentSecond++` is 64-bit arithmetic.) -/
def innerLoopHead (st : PacerState) (i rps : Int) : PacerState :=
  if i < rps then { st with mode := .admitting i rps }
  else { st with currentSecond := wrap64 (st.currentSecond + 1), mode := .waiting }

/-- One `select` of the pacer goroutine and the code that runs until the next
one.  An event that the current `select` does not offer leaves the state as it
is. -/
def pacerStep (pattern : Int → Int) (st : PacerState) (ev : PacerEvent) : PacerState :=
  match st.mode, ev with
  | .waiting, .tick =>
    let rps := pattern st.currentSecond
    innerLoopHead { st with queried := st.queried ++ [st.currentSecond] } 0 rps
  | .waiting, .cancelled => { st with mode := .returned, closes := st.closes + 1 }
  | .admitting i rps, .accepted =>
    innerLoopHead { st with admitted := st.admitted + 1 } (i + 1) rps
  | .admitting _ _, .cancelled => { st with mode := .returned, closes := st.closes + 1 }
  | _, _ => st

/-- The pacer goroutine after the given choices of its `select` statements. -/
def pacerRun (pattern : Int → Int) (events : List PacerEvent) : PacerState :=
  events.foldl (pacerStep pattern) pacerStart

/-- The number of tokens a pattern asks for in the seconds `0, ..., k - 1`, a
negative rate counting as none. -/
def requestedTokens (pattern : Int → Int) (k : Nat) : Nat :=
  ((List.range k).map (fun j => (pattern (j : Int)).toNat)).sum

/-- The choices of `k` ticks processed without cancellation: each tick is
followed by as many accepted sends as the inner loop makes. -/
def ticksProcessed (pattern : Int → Int) (k : Nat) : List PacerEvent :=
  (List.range k).flatMap
    (fun j => PacerEvent.tick :: List.replicate (pattern (j : Int)).toNat PacerEvent.accepted)

/-- What holds of the pacer goroutine as long as it has not been cancelled. -/
def PacerInv (pattern : Int → Int) (st : PacerState) : Prop :=
  st.closes = 0 ∧ st.queried = (List.range st.queried.length).map Int.ofNat ∧
  match st.mode with
  | .waiting =>
    st.currentSecond = (st.queried.length : Int) ∧
      st.admitted = requestedTokens pattern st.queried.length
  | .admitting i rps =>
    rps = pattern st.currentSecond ∧ 0 ≤ i ∧ i < rps ∧ 0 ≤ st.currentSecond ∧
      (st.queried.length : Int) = st.currentSecond + 1 ∧
      (st.admitted : Int) = (requestedTokens pattern (st.queried.length - 1) : Int) + i
  | .returned => False

/-- How a call of `Run` ends: the statement `make(chan struct{}, n)` panics for a
negative `n`; otherwise `Run` returns its `Results`. -/
inductive RunResult where
  | panicked
  | returned (results : Results)
  deriving DecidableEq, Repr

/-- The number of worker goroutines the loop
`for i := 0; i < g.config.Concurrency; i++` starts. -/
def workersStarted (config : Config) : Nat := config.Concurrency.toNat

/-- The method `Run`, seen from its caller.  `elapsed` is the value of
`time.Since(startTime)` after `wg.Wait()`, and `calls` are the `makeRequest`
calls the workers completed before they stopped, in the order in which they
took effect; only a worker calls `makeRequest`, so a run without workers
records nothing and `wg.Wait()` returns at once. -/
def Run (config : Config) (elapsed : Int) (calls : List Call) : RunResult :=
  if wrap64 (config.Concurrency * 10) < 0 then .panicked
  else
    let results := if workersStarted config = 0 then newResults else afterCalls calls
    .returned (calculateStatistics { results with TotalDuration := elapsed })

end Http

namespace Patterns

/-- The struct `RampLoad`; `duration` is a `time.Duration`. -/
structure RampLoad where
  minRPS : Int
  maxRPS : Int
  duration : Int
  deriving DecidableEq, Repr

/-- The constructor `NewRampLoad`. -/
def NewRampLoad (minRPS maxRPS duration : Int) : RampLoad :=
  { minRPS := minRPS, maxRPS := maxRPS, duration := duration }

/-- The method `(*RampLoad).RPS`. -/
def RampLoad.RPS (r : RampLoad) (second : Int) : Int :=
  let totalSeconds := secondsInt r.duration
  let totalSeconds := if totalSeconds = 0 then 60 else totalSeconds
  if second ≥ totalSeconds then r.maxRPS
  else
    let progress := F64.div (F64.ofInt second) (F64.ofInt totalSeconds)
    let rps := F64.add (F64.ofInt r.minRPS)
      (F64.mul (F64.ofInt (wrap64 (r.maxRPS - r.minRPS))) progress)
    F64.toInt (F64.Round rps)

/-- The struct `WaveLoad`; `period` is a `time.Duration`. -/
structure WaveLoad where
  minRPS : Int
  maxRPS : Int
  period : Int
  deriving DecidableEq, Repr

/-- The constructor `NewWaveLoad`. -/
def NewWaveLoad (minRPS maxRPS period : Int) : WaveLoad :=
  { minRPS := minRPS, maxRPS := maxRPS, period := period }

/-- The method `(*WaveLoad).RPS`, for the sine approximation `sin` of the
library. -/
def WaveLoad.RPS (sin : ℚ → ℚ) (w : WaveLoad) (second : Int) : Int :=
  let periodSeconds := Seconds w.period
  let periodSeconds := if periodSeconds = 0 then 60 else periodSeconds
  let position := F64.div (F64.mul F64.twoPi (F64.ofInt second)) periodSeconds
  let amplitude := F64.div (F64.ofInt (wrap64 (w.maxRPS - w.minRPS))) 2
  let midpoint := F64.div (F64.ofInt (wrap64 (w.minRPS + w.maxRPS))) 2
  let rps := F64.add midpoint (F64.mul amplitude (F64.Sin sin position))
  F64.toInt (F64.Round rps)

end Patterns

namespace Http

/-- The method `(*Results).FailureRate`. -/
def Results.FailureRate (r : Results) : ℚ :=
  if r.TotalRequests = 0 then 0
  else F64.div (F64.ofInt r.FailedRequests) (F64.ofInt r.TotalRequests)

/-- The configuration `main` builds from the default values of its flags, with
the given concurrency. -/
def flagDefaults (concurrency : Int) : Config :=
  { TargetURL := "http://localhost:8080", Method := "GET", Body := "", Headers := [],
    Concurrency := concurrency, Timeout := 30 * Second, MetricsPort := 9090 }

end Http

/-! ## Order events of the Kafka streaming example

`examples/05-kafka-streaming/internal/events`. An `error` result is an
`Option`: `none` is Go's `nil`. -/

namespace Events

/-- The struct `OrderItem`. -/
structure OrderItem where
  ProductID : String
  Name : String
  Quantity : Int
  Price : ℚ
  deriving DecidableEq

/-- The struct `OrderEvent`; `Type_` is the field `Type` (a reserved word
here), it and `Status` are the string types `OrderEventType` and `OrderStatus`,
`Timestamp` is in nanoseconds, `Metadata` is the map as a list of entries. -/
structure OrderEvent where
  ID : String
  Type_ : String
  OrderID : String
  CustomerID : String
  Status : String
  Total : ℚ
  Items : List OrderItem
  Timestamp : Int
  Version : Int
  Metadata : List (String × String)
  deriving DecidableEq

/-- The error values of `errors.go` that `Validate` returns. -/
inductive EventError where
  | ErrMissingEventID
  | ErrMissingOrderID
  | ErrMissingCustomerID
  | ErrMissingEventType
  | ErrInvalidVersion
  deriving DecidableEq, Repr

/-- The message each error value was made with (`errors.New`). -/
def EventError.Error : EventError → String
  | .ErrMissingEventID => "event ID is required"
  | .ErrMissingOrderID => "order ID is required"
  | .ErrMissingCustomerID => "customer ID is required"
  | .ErrMissingEventType => "event type is required"
  | .ErrInvalidVersion => "event version must be >= 1"

/-- The method `(*OrderEvent).Validate`. -/
def OrderEvent.Validate (e : OrderEvent) : Option EventError :=
  if e.ID = "" then some .ErrMissingEventID
  else if e.OrderID = "" then some .ErrMissingOrderID
  else if e.CustomerID = "" then some .ErrMissingCustomerID
  else if e.Type_ = "" then some .ErrMissingEventType
  else if e.Version < 1 then some .ErrInvalidVersion
  else none

end Events

/-! ## The statistics routines of the other four generators

Each generator has its own copy of `calculateStatistics`; each copy is
translated from its own file. -/

namespace Grpc

/-- The tuple assignment `latencies[i], latencies[j] = latencies[j], latencies[i]`
of `02-grpc/internal/generator/generator.go`. -/
def swapAt (a : List Int) (i j : Nat) : List Int :=
  (a.set i (a.getD j 0)).set j (a.getD i 0)

/-- The inner loop `for j := ...; j < len(latencies); j++` of this generator's
`calculateStatistics`, entered with the current value of `j`. -/
def innerLoop (i : Nat) : Nat → Nat → List Int → List Int
  | 0, _, a => a
  | fuel + 1, j, a =>
    if j < a.length then
      innerLoop i fuel (j + 1) (if a.getD i 0 > a.getD j 0 then swapAt a i j else a)
    else a

/-- The outer loop `for i := ...; i < len(latencies); i++` of this generator's
`calculateStatistics`, entered with the current value of `i`. -/
def outerLoop : Nat → Nat → List Int → List Int
  | 0, _, a => a
  | fuel + 1, i, a =>
    if i < a.length then outerLoop fuel (i + 1) (innerLoop i a.length (i + 1) a) else a

/-- The sorting phase of this generator's `calculateStatistics`. -/
def sortLatencies (a : List Int) : List Int := outerLoop a.length 0 a

/-- The loop `for _, l := range latencies { sum += l }` on an `int64` accumulator. -/
def sumLoop (sum : Int) : List Int → Int
  | [] => sum
  | l :: rest => sumLoop (wrap64 (sum + l)) rest

/-- The method `calculateStatistics` of `02-grpc/internal/generator/generator.go`. -/
def calculateStatistics (results : Results) : Results :=
  if results.Latencies.length = 0 then results
  else
    let latencies := sortLatencies results.Latencies
    let sum := sumLoop 0 latencies
    { results with
      Latencies := latencies
      MinLatency := latencies.getD 0 0
      MaxLatency := latencies.getD (latencies.length - 1) 0
      AvgLatency := Int.tdiv sum (latencies.length : Int)
      P50Latency := latencies.getD (latencies.length * 50 / 100) 0
      P95Latency := latencies.getD (latencies.length * 95 / 100) 0
      P99Latency := latencies.getD (latencies.length * 99 / 100) 0 }

/-- The six derived latency fields of a `Results`, in the order
min, max, avg, p50, p95, p99. -/
def Results.stats (r : Results) : List Int :=
  [r.MinLatency, r.MaxLatency, r.AvgLatency, r.P50Latency, r.P95Latency, r.P99Latency]

/-- A `Results` as `Run` hands it to `calculateStatistics` when the workers
recorded the latencies `l`: fresh but for the latency slice. -/
def withLatencies (l : List Int) : Results := { newResults with Latencies := l }

end Grpc

namespace Sql

/-- The tuple assignment `latencies[i], latencies[j] = latencies[j], latencies[i]`
of `03-sql/internal/generator/generator.go`. -/
def swapAt (a : List Int) (i j : Nat) : List Int :=
  (a.set i (a.getD j 0)).set j (a.getD i 0)

/-- The inner loop `for j := ...; j < len(latencies); j++` of this generator's
`calculateStatistics`, entered with the current value of `j`. -/
def innerLoop (i : Nat) : Nat → Nat → List Int → List Int
  | 0, _, a => a
  | fuel + 1, j, a =>
    if j < a.length then
      innerLoop i fuel (j + 1) (if a.getD i 0 > a.getD j 0 then swapAt a i j else a)
    else a

/-- The outer loop `for i := ...; i < len(latencies); i++` of this generator's
`calculateStatistics`, entered with the current value of `i`. -/
def outerLoop : Nat → Nat → List Int → List Int
  | 0, _, a => a
  | fuel + 1, i, a =>
    if i < a.length then outerLoop fuel (i + 1) (innerLoop i a.length (i + 1) a) else a

/-- The sorting phase of this generator's `calculateStatistics`. -/
def sortLatencies (a : List Int) : List Int := outerLoop a.length 0 a

/-- The loop `for _, l := range latencies { sum += l }` on an `int64` accumulator. -/
def sumLoop (sum : Int) : List Int → Int
  | [] => sum
  | l :: rest => sumLoop (wrap64 (sum + l)) rest

/-- The method `calculateStatistics` of `03-sql/internal/generator/generator.go`. -/
def calculateStatistics (results : Results) : Results :=
  if results.Latencies.length = 0 then results
  else
    let latencies := sortLatencies results.Latencies
    let sum := sumLoop 0 latencies
    { results with
      Latencies := latencies
      MinLatency := latencies.getD 0 0
      MaxLatency := latencies.getD (latencies.length - 1) 0
      AvgLatency := Int.tdiv sum (latencies.length : Int)
      P50Latency := latencies.getD (latencies.length * 50 / 100) 0
      P95Latency := latencies.getD (latencies.length * 95 / 100) 0
      P99Latency := latencies.getD (latencies.length * 99 / 100) 0 }

/-- The six derived latency fields of a `Results`, in the order
min, max, avg, p50, p95, p99. -/
def Results.stats (r : Results) : List Int :=
  [r.MinLatency, r.MaxLatency, r.AvgLatency, r.P50Latency, r.P95Latency, r.P99Latency]

/-- A `Results` as `Run` hands it to `calculateStatistics` when the workers
recorded the latencies `l`: fresh but for the latency slice. -/
def withLatencies (l : List Int) : Results := { newResults with Latencies := l }

end Sql

namespace Redis

/-- The tuple assignment `latencies[i], latencies[j] = latencies[j], latencies[i]`
of `04-redis/internal/generator/generator.go`. -/
def swapAt (a : List Int) (i j : Nat) : List Int :=
  (a.set i (a.getD j 0)).set j (a.getD i 0)

/-- The inner loop `for j := ...; j < len(latencies); j++` of this generator's
`calculateStatistics`, entered with the current value of `j`. -/
def innerLoop (i : Nat) : Nat → Nat → List Int → List Int
  | 0, _, a => a
  | fuel + 1, j, a =>
    if j < a.length then
      innerLoop i fuel (j + 1) (if a.getD i 0 > a.getD j 0 then swapAt a i j else a)
    else a

/-- The outer loop `for i := ...; i < len(latencies); i++` of this generator's
`calculateStatistics`, entered with the current value of `i`. -/
def outerLoop : Nat → Nat → List Int → List Int
  | 0, _, a => a
  | fuel + 1, i, a =>
    if i < a.length then outerLoop fuel (i + 1) (innerLoop i a.length (i + 1) a) else a

/-- The sorting phase of this generator's `calculateStatistics`. -/
def sortLatencies (a : List Int) : List Int := outerLoop a.length 0 a

/-- The loop `for _, l := range latencies { sum += l }` on an `int64` accumulator. -/
def sumLoop (sum : Int) : List Int → Int
  | [] => sum
  | l :: rest => sumLoop (wrap64 (sum + l)) rest

/-- The method `calculateStatistics` of `04-redis/internal/generator/generator.go`. -/
def calculateStatistics (results : Results) : Results :=
  if results.Latencies.length = 0 then results
  else
    let latencies := sortLatencies results.Latencies
    let sum := sumLoop 0 latencies
    { results with
      Latencies := latencies
      MinLatency := latencies.getD 0 0
      MaxLatency := latencies.getD (latencies.length - 1) 0
      AvgLatency := Int.tdiv sum (latencies.length : Int)
      P50Latency := latencies.getD (latencies.length * 50 / 100) 0
      P95Latency := latencies.getD (latencies.length * 95 / 100) 0
      P99Latency := latencies.getD (latencies.length * 99 / 100) 0 }

/-- The six derived latency fields of a `Results`, in the order
min, max, avg, p50, p95, p99. -/
def Results.stats (r : Results) : List Int :=
  [r.MinLatency, r.MaxLatency, r.AvgLatency, r.P50Latency, r.P95Latency, r.P99Latency]

/-- A `Results` as `Run` hands it to `calculateStatistics` when the workers
recorded the latencies `l`: fresh but for the latency slice. -/
def withLatencies (l : List Int) : Results := { newResults with Latencies := l }

end Redis

namespace Kafka

/-- The tuple assignment `latencies[i], latencies[j] = latencies[j], latencies[i]`
of `05-kafka/internal/generator/generator.go`. -/
def swapAt (a : List Int) (i j : Nat) : List Int :=
  (a.set i (a.getD j 0)).set j (a.getD i 0)

/-- The inner loop `for j := ...; j < len(latencies); j++` of this generator's
`calculateStatistics`, entered with the current value of `j`. -/
def innerLoop (i : Nat) : Nat → Nat → List Int → List Int
  | 0, _, a => a
  | fuel + 1, j, a =>
    if j < a.length then
      innerLoop i fuel (j + 1) (if a.getD i 0 > a.getD j 0 then swapAt a i j else a)
    else a

/-- The outer loop `for i := ...; i < len(latencies); i++` of this generator's
`calculateStatistics`, entered with the current value of `i`. -/
def outerLoop : Nat → Nat → List Int → List Int
  | 0, _, a => a
  | fuel + 1, i, a =>
    if i < a.length then outerLoop fuel (i + 1) (innerLoop i a.length (i + 1) a) else a

/-- The sorting phase of this generator's `calculateStatistics`. -/
def sortLatencies (a : List Int) : List Int := outerLoop a.length 0 a

/-- The loop `for _, l := range latencies { sum += l }` on an `int64` accumulator. -/
def sumLoop (sum : Int) : List Int → Int
  | [] => sum
  | l :: rest => sumLoop (wrap64 (sum + l)) rest

/-- The method `calculateStatistics` of `05-kafka/internal/generator/generator.go`. -/
def calculateStatistics (results : Results) : Results :=
  if results.Latencies.length = 0 then results
  else
    let latencies := sortLatencies results.Latencies
    let sum := sumLoop 0 latencies
    { results with
      Latencies := latencies
      MinLatency := latencies.getD 0 0
      MaxLatency := latencies.getD (latencies.length - 1) 0
      AvgLatency := Int.tdiv sum (latencies.length : Int)
      P50Latency := latencies.getD (latencies.length * 50 / 100) 0
      P95Latency := latencies.getD (latencies.length * 95 / 100) 0
      P99Latency := latencies.getD (latencies.length * 99 / 100) 0 }

/-- The six derived latency fields of a `Results`, in the order
min, max, avg, p50, p95, p99. -/
def Results.stats (r : Results) : List Int :=
  [r.MinLatency, r.MaxLatency, r.AvgLatency, r.P50Latency, r.P95Latency, r.P99Latency]

/-- A `Results` as `Run` hands it to `calculateStatistics` when the workers
recorded the latencies `l`: fresh but for the latency slice. -/
def withLatencies (l : List Int) : Results := { newResults with Latencies := l }

end Kafka

namespace Http

/-- The latency one `makeRequest` call appends to `results.Latencies`: none when
`http.NewRequestWithContext` failed. -/
def Call.appended : Call → List Int
  | .buildFailed _ => []
  | .doFailed latency _ => [latency]
  | .responded latency _ => [latency]

end Http

/-! ## The consumer of the Kafka streaming example

`examples/05-kafka-streaming/internal/handlers/consumer.go`.  The handler is a
Go function value and may keep state, so it is given by the result of each of
its invocations: `handler k` is what the invocation number `k` (from 0) returns,
`none` for `nil` and `some e` for an error with the message `e`.  Log lines and
the back-off sleeps between attempts are not part of the result. -/

namespace Handlers

/-- The error `fmt.Errorf` returns: its message, and the error `errors.Unwrap`
finds in it. -/
structure WrappedError where
  text : String
  wrapped : Option String
  deriving DecidableEq, Repr

/-- The call `fmt.Errorf("failed after %d retries: %w", maxRetries, lastErr)`;
for a nil operand the verb `%w` prints `%!w(<nil>)` and nothing is wrapped. -/
def failedAfter (maxRetries : Int) (lastErr : Option String) : WrappedError :=
  match lastErr with
  | some e => { text := "failed after " ++ toString maxRetries ++ " retries: " ++ e,
                wrapped := some e }
  | none => { text := "failed after " ++ toString maxRetries ++ " retries: %!w(<nil>)",
              wrapped := none }

/-- What a call of `processMessageWithRetry` did: how often it invoked the
handler, and the error it returned (`none` for `nil`). -/
structure Outcome where
  calls : Nat
  err : Option WrappedError
  deriving DecidableEq, Repr

/-- The loop `for attempt := ...; attempt <= c.maxRetries; attempt++` of
`processMessageWithRetry` with the statement after it, entered with the current
values of `attempt` and `lastErr` after `calls` invocations of the handler.
The result is `none` when the loop is still running after `fuel` tests of its
condition. -/
def retryLoop (handler : Nat → Option String) (maxRetries : Int) :
    Nat → Int → Nat → Option String → Option Outcome
  | 0, _, _, _ => none
  | fuel + 1, attempt, calls, lastErr =>
    if attempt ≤ maxRetries then
      match handler calls with
      | none => some { calls := calls + 1, err := none }
      | some e => retryLoop handler maxRetries fuel (wrap64 (attempt + 1)) (calls + 1) (some e)
    else some { calls := calls, err := some (failedAfter maxRetries lastErr) }

/-- The method `(*Consumer).processMessageWithRetry` of a consumer with the
given handler and `maxRetries`. -/
def processMessageWithRetry (handler : Nat → Option String) (maxRetries : Int)
    (fuel : Nat) : Option Outcome :=
  retryLoop handler maxRetries fuel 0 0 none

end Handlers

/-! ## The in-memory store of the HTTP API example

`examples/01-http-api/internal/store/memory.go`.  A map is the list of its
entries in the order in which the `range` statement of the call at hand visits
them (Go leaves that order open).  A `make` with a capacity panics when the
capacity is negative or exceeds what the runtime can allocate; `maxCap` stands
for the largest capacity `make([]models.Product, 0, cap)` accepts. -/

namespace Store

/-- The struct `models.Product`; the times are in nanoseconds. -/
structure Product where
  ID : String
  Name : String
  Description : String
  Price : ℚ
  Stock : Int
  CreatedAt : Int
  UpdatedAt : Int
  deriving DecidableEq

/-- The struct `MemoryStore`: the map `products` (the mutex is taken and
released by each method and does not show in its result). -/
structure MemoryStore where
  products : List (String × Product)

/-- How a call of `(*MemoryStore).List` ends: with a run-time panic, or with the
three results `products`, `total` and the error (`none` for `nil`). -/
inductive ListResult where
  | panicked
  | returned (products : List Product) (total : Int) (err : Option String)
  deriving DecidableEq

/-- The slice expression `a[lo:hi]` on a slice whose capacity is its length:
it panics (`none`) unless `0 ≤ lo ≤ hi ≤ len(a)`. -/
def sliceExpr (a : List Product) (lo hi : Int) : Option (List Product) :=
  if 0 ≤ lo ∧ lo ≤ hi ∧ hi ≤ (a.length : Int) then
    some ((a.drop lo.toNat).take (hi - lo).toNat)
  else none

/-- The products of the map in the order of the `range` loop that fills
`allProducts`. -/
def MemoryStore.allProducts (s : MemoryStore) : List Product := s.products.map Prod.snd

/-- The method `(*MemoryStore).List`. -/
def MemoryStore.List (s : MemoryStore) (maxCap limit offset : Int) : ListResult :=
  let total : Int := (s.products.length : Int)
  if limit < 0 ∨ limit > maxCap then .panicked
  else if total > maxCap then .panicked
  else
    let allProducts := s.allProducts
    let start := offset
    let start := if start > (allProducts.length : Int) then (allProducts.length : Int) else start
    let end_ := wrap64 (start + limit)
    let end_ := if end_ > (allProducts.length : Int) then (allProducts.length : Int) else end_
    match sliceExpr allProducts start end_ with
    | none => .panicked
    | some products => .returned products total none

/-- A product with the given name and every other field at its zero value. -/
def Product.named (name : String) : Product :=
  { ID := "", Name := name, Description := "", Price := 0, Stock := 0,
    CreatedAt := 0, UpdatedAt := 0 }

end Store

/-! ## Concurrent workers

Several workers run `makeRequest` on the same `Results`.  Every access to the
shared `Results` inside `makeRequest` is either one `atomic.AddInt64` or one
section between `mu.Lock()` and `mu.Unlock()`, so a run of the workers is an
interleaving of these atomic updates: each worker performs the updates of its
calls in program order, and a schedule says which worker performs the next
one. -/

namespace Http

/-- One atomic update of the shared `Results` in `makeRequest`. -/
inductive Step where
  | addTotal
  | addSuccess
  | addFailed
  | appendLatency (latency : Int)
  | tallyError (err : String)
  | tallyStatus (statusCode : Int)
  deriving DecidableEq, Repr

/-- The effect of one atomic update on the shared `Results`. -/
def applyStep (results : Results) : Step → Results
  | .addTotal => { results with TotalRequests := wrap64 (results.TotalRequests + 1) }
  | .addSuccess => { results with SuccessRequests := wrap64 (results.SuccessRequests + 1) }
  | .addFailed => { results with FailedRequests := wrap64 (results.FailedRequests + 1) }
  | .appendLatency latency => { results with Latencies := results.Latencies ++ [latency] }
  | .tallyError err => { results with Errors := results.Errors.incr err }
  | .tallyStatus statusCode =>
    { results with StatusCodes := results.StatusCodes.incr statusCode }

/-- The atomic updates one `makeRequest` call performs, in program order. -/
def Call.steps : Call → List Step
  | .buildFailed err => [.addTotal, .addFailed, .tallyError err]
  | .doFailed latency err => [.addTotal, .appendLatency latency, .addFailed, .tallyError err]
  | .responded latency statusCode =>
    [.addTotal, .appendLatency latency, .tallyStatus statusCode,
      if statusCode ≥ 200 ∧ statusCode < 300 then .addSuccess else .addFailed]

/-- Whether an update appends to `results.Latencies`. -/
def Step.isAppend : Step → Bool
  | .appendLatency _ => true
  | _ => false

/-- The atomic updates a worker performs for the calls it makes one after the
other. -/
def workerSteps (calls : List Call) : List Step := calls.flatMap Call.steps

/-- The workers (the updates each still has to perform) and the shared
`Results`. -/
structure Shared where
  pending : List (List Step)
  results : Results

/-- The worker number `i` performs its next update; a worker that has none left
(or does not exist) does nothing. -/
def Shared.step (st : Shared) (i : Nat) : Shared :=
  match st.pending.getD i [] with
  | [] => st
  | s :: rest => { pending := st.pending.set i rest, results := applyStep st.results s }

/-- The workers start on a fresh `Results`, each with the calls it is going to
make, and perform their updates in the order the schedule gives. -/
def runWorkers (workers : List (List Call)) (schedule : List Nat) : Shared :=
  schedule.foldl Shared.step { pending := workers.map workerSteps, results := newResults }

/-- Whether every worker has performed all its updates. -/
def Shared.finished (st : Shared) : Bool := st.pending.all List.isEmpty

/-- The number of `makeRequest` calls the workers make. -/
def totalCalls (workers : List (List Call)) : Nat := workers.flatten.length

end Http

/-! ## Reports

`ToString` and `ToJSON` build a string with `fmt.Sprintf`.  A report is kept as
what it prints: the keys (labels) in the order of the format string, each with
the value its verb displays.  `%d` displays an integer, `%s` a `time.Duration`
exactly (`Duration.String` loses no digit), and `%.2f` a `float64` rounded to
two decimals (ties to even on its exact value), or `+Inf`, `-Inf`, `NaN`. -/

namespace F64

/-- A `float64` that may be infinite or not a number. -/
inductive Ext where
  | finite (x : ℚ)
  | posInf
  | negInf
  | nan
  deriving DecidableEq

/-- The `float64` quotient `a / b` of finite values, for a divisor `b` that may
be zero.  The zero divisors of the reports are conversions of the integer 0 and
`Seconds` of the zero duration, both `+0`. -/
def quot (a b : ℚ) : Ext :=
  if b = 0 then (if a = 0 then .nan else if 0 < a then .posInf else .negInf)
  else .finite (div a b)

/-- The `float64` product `x * c` with a finite `c > 0`. -/
def Ext.scale (x : Ext) (c : ℚ) : Ext :=
  match x with
  | .finite a => .finite (mul a c)
  | other => other

end F64

namespace Report

/-- A value as a report displays it: an integer (`%d`), a number with two
decimals given by its hundredths (`%.2f`), one of the three non-finite texts of
`%.2f`, or a duration in nanoseconds (`%s`). -/
inductive Shown where
  | int (n : Int)
  | fixed2 (hundredths : Int)
  | posInf
  | negInf
  | nan
  | duration (ns : Int)
  deriving DecidableEq, Repr

/-- The verb `%.2f`. -/
def fixed2 : F64.Ext → Shown
  | .finite x => .fixed2 (F64.roundHalfEven (x * 100))
  | .posInf => .posInf
  | .negInf => .negInf
  | .nan => .nan

/-- The method `time.Duration.Microseconds`. -/
def Microseconds (d : Int) : Int := Int.tdiv d 1000

/-- The argument `float64(d.Microseconds())/1000` under the verb `%.2f`. -/
def ms (d : Int) : Shown := fixed2 (.finite (F64.div (F64.ofInt (Microseconds d)) 1000))

/-- The quantity a displayed value stands for, in units of `unit`: a count or a
rate for `unit = 1`; a time in nanoseconds for a duration, and for a number of
seconds (`unit = 10^9`) or of milliseconds (`unit = 10^6`). -/
def Shown.quantity (unit : ℚ) : Shown → Option ℚ
  | .int n => some ((n : ℚ) * unit)
  | .fixed2 h => some ((h : ℚ) / 100 * unit)
  | .duration ns => some (ns : ℚ)
  | _ => none

/-- A value of a structured report: a number, or an object of numbers. -/
inductive JsonValue where
  | number (s : Shown)
  | object (fields : List (String × Shown))
  deriving DecidableEq, Repr

/-- The keys of a structured report in the order of the text, the keys of an
inner object prefixed with the key of the object and a dot. -/
def jsonKeys (j : List (String × JsonValue)) : List String :=
  j.flatMap fun kv =>
    match kv.2 with
    | .number _ => [kv.1]
    | .object fields => kv.1 :: fields.map (fun f => kv.1 ++ "." ++ f.1)

/-- The number under a key of a structured report; `inner` names the key inside
the object under `key`. -/
def jsonShown (j : List (String × JsonValue)) (key : String) (inner : Option String) :
    Option Shown :=
  match j.lookup key, inner with
  | some (.number s), none => some s
  | some (.object fields), some k => fields.lookup k
  | _, _ => none

/-- The first value of the line of a text report that carries the label. -/
def textShown (t : List (String × List Shown)) (label : String) : Option Shown :=
  (t.lookup label).bind List.head?

end Report

namespace Http

/-- The method `(*Results).ToJSON` of `01-http/internal/generator/generator.go`. -/
def Results.ToJSON (r : Results) : List (String × Report.JsonValue) :=
  [("total_requests", .number (.int r.TotalRequests)),
   ("success_requests", .number (.int r.SuccessRequests)),
   ("failed_requests", .number (.int r.FailedRequests)),
   ("duration_seconds", .number (Report.fixed2 (.finite (Patterns.Seconds r.TotalDuration)))),
   ("rps",
      .number (Report.fixed2
        (F64.quot (F64.ofInt r.TotalRequests) (Patterns.Seconds r.TotalDuration)))),
   ("latency", .object
      [("min_ms", Report.ms r.MinLatency), ("max_ms", Report.ms r.MaxLatency),
       ("avg_ms", Report.ms r.AvgLatency), ("p50_ms", Report.ms r.P50Latency),
       ("p95_ms", Report.ms r.P95Latency), ("p99_ms", Report.ms r.P99Latency)])]

/-- The method `(*Results).ToString`: the lines that carry values, each with its
label; the lines of the two maps come in the order in which the call ranges
over them, and the section of the errors is left out when there are none. -/
def Results.ToString (r : Results) : List (String × List Report.Shown) :=
  [("Total Requests", [.int r.TotalRequests]),
   ("Success",
      [.int r.SuccessRequests,
       Report.fixed2
        ((F64.quot (F64.ofInt r.SuccessRequests) (F64.ofInt r.TotalRequests)).scale 100)]),
   ("Failed", [.int r.FailedRequests, Report.fixed2 (.finite (F64.mul r.FailureRate 100))]),
   ("Duration", [.duration r.TotalDuration]),
   ("RPS",
      [Report.fixed2
        (F64.quot (F64.ofInt r.TotalRequests) (Patterns.Seconds r.TotalDuration))]),
   ("Min", [.duration r.MinLatency]),
   ("Max", [.duration r.MaxLatency]),
   ("Avg", [.duration r.AvgLatency]),
   ("P50", [.duration r.P50Latency]),
   ("P95", [.duration r.P95Latency]),
   ("P99", [.duration r.P99Latency])]
  ++ r.StatusCodes.map (fun kv => (toString kv.1, [.int kv.2]))
  ++ (if r.Errors.length > 0 then r.Errors.map (fun kv => (kv.1, [.int kv.2])) else [])

/-- The fields the text report and the structured report share. -/
inductive Field where
  | total | success | failed | duration | rate | min | max | avg | p50 | p95 | p99
  deriving DecidableEq, Repr

/-- The label of a shared field in the text report. -/
def Field.label : Field → String
  | .total => "Total Requests"
  | .success => "Success"
  | .failed => "Failed"
  | .duration => "Duration"
  | .rate => "RPS"
  | .min => "Min"
  | .max => "Max"
  | .avg => "Avg"
  | .p50 => "P50"
  | .p95 => "P95"
  | .p99 => "P99"

/-- The key of a shared field in the structured report, with the key inside the
`latency` object for a latency. -/
def Field.key : Field → String × Option String
  | .total => ("total_requests", none)
  | .success => ("success_requests", none)
  | .failed => ("failed_requests", none)
  | .duration => ("duration_seconds", none)
  | .rate => ("rps", none)
  | .min => ("latency", some "min_ms")
  | .max => ("latency", some "max_ms")
  | .avg => ("latency", some "avg_ms")
  | .p50 => ("latency", some "p50_ms")
  | .p95 => ("latency", some "p95_ms")
  | .p99 => ("latency", some "p99_ms")

/-- The unit of a number of the structured report, in nanoseconds for a time:
`duration_seconds` is in seconds and the latencies are in milliseconds. -/
def Field.unit : Field → ℚ
  | .duration => 1000000000
  | .min | .max | .avg | .p50 | .p95 | .p99 => 1000000
  | _ => 1

/-- What the text report displays for a shared field. -/
def Results.text (r : Results) (f : Field) : Option Report.Shown :=
  Report.textShown r.ToString f.label

/-- What the structured report displays for a shared field. -/
def Results.json (r : Results) (f : Field) : Option Report.Shown :=
  Report.jsonShown r.ToJSON f.key.1 f.key.2

/-- The quantity the text report displays for a shared field (a time in
nanoseconds). -/
def Results.textQuantity (r : Results) (f : Field) : Option ℚ :=
  (r.text f).bind (Report.Shown.quantity 1)

/-- The quantity the structured report displays for a shared field (a time in
nanoseconds). -/
def Results.jsonQuantity (r : Results) (f : Field) : Option ℚ :=
  (r.json f).bind (Report.Shown.quantity f.unit)

end Http

namespace Grpc

/-- The method `(*Results).ToJSON` of `02-grpc/internal/generator/generator.go`. -/
def Results.ToJSON (r : Results) : List (String × Report.JsonValue) :=
  [("total_requests", .number (.int r.TotalRequests)),
   ("success_requests", .number (.int r.SuccessRequests)),
   ("failed_requests", .number (.int r.FailedRequests)),
   ("duration_seconds", .number (Report.fixed2 (.finite (Patterns.Seconds r.TotalDuration)))),
   ("rps",
      .number (Report.fixed2
        (F64.quot (F64.ofInt r.TotalRequests) (Patterns.Seconds r.TotalDuration)))),
   ("latency", .object
      [("min_ms", Report.ms r.MinLatency), ("max_ms", Report.ms r.MaxLatency),
       ("avg_ms", Report.ms r.AvgLatency), ("p50_ms", Report.ms r.P50Latency),
       ("p95_ms", Report.ms r.P95Latency), ("p99_ms", Report.ms r.P99Latency)])]

end Grpc

namespace Sql

/-- The method `(*Results).ToJSON` of `03-sql/internal/generator/generator.go`. -/
def Results.ToJSON (r : Results) : List (String × Report.JsonValue) :=
  [("total_transactions", .number (.int r.TotalTransactions)),
   ("success_transactions", .number (.int r.SuccessTransactions)),
   ("failed_transactions", .number (.int r.FailedTransactions)),
   ("duration_seconds", .number (Report.fixed2 (.finite (Patterns.Seconds r.TotalDuration)))),
   ("tps",
      .number (Report.fixed2
        (F64.quot (F64.ofInt r.TotalTransactions) (Patterns.Seconds r.TotalDuration)))),
   ("latency", .object
      [("min_ms", Report.ms r.MinLatency), ("max_ms", Report.ms r.MaxLatency),
       ("avg_ms", Report.ms r.AvgLatency), ("p50_ms", Report.ms r.P50Latency),
       ("p95_ms", Report.ms r.P95Latency), ("p99_ms", Report.ms r.P99Latency)])]

end Sql

namespace Redis

/-- The method `(*Results).ToJSON` of `04-redis/internal/generator/generator.go`. -/
def Results.ToJSON (r : Results) : List (String × Report.JsonValue) :=
  [("total_operations", .number (.int r.TotalOperations)),
   ("success_operations", .number (.int r.SuccessOperations)),
   ("failed_operations", .number (.int r.FailedOperations)),
   ("duration_seconds", .number (Report.fixed2 (.finite (Patterns.Seconds r.TotalDuration)))),
   ("ops",
      .number (Report.fixed2
        (F64.quot (F64.ofInt r.TotalOperations) (Patterns.Seconds r.TotalDuration)))),
   ("latency", .object
      [("min_ms", Report.ms r.MinLatency), ("max_ms", Report.ms r.MaxLatency),
       ("avg_ms", Report.ms r.AvgLatency), ("p50_ms", Report.ms r.P50Latency),
       ("p95_ms", Report.ms r.P95Latency), ("p99_ms", Report.ms r.P99Latency)])]

end Redis

namespace Kafka

/-- The method `(*Results).ToJSON` of `05-kafka/internal/generator/generator.go`. -/
def Results.ToJSON (r : Results) : List (String × Report.JsonValue) :=
  [("total_messages", .number (.int r.TotalMessages)),
   ("success_messages", .number (.int r.SuccessMessages)),
   ("failed_messages", .number (.int r.FailedMessages)),
   ("total_bytes", .number (.int r.TotalBytes)),
   ("duration_seconds", .number (Report.fixed2 (.finite (Patterns.Seconds r.TotalDuration)))),
   ("mps",
      .number (Report.fixed2
        (F64.quot (F64.ofInt r.TotalMessages) (Patterns.Seconds r.TotalDuration)))),
   ("throughput_mbps",
      .number (Report.fixed2
        (F64.quot (F64.div (F64.ofInt r.TotalBytes) 1048576)
          (Patterns.Seconds r.TotalDuration)))),
   ("latency", .object
      [("min_ms", Report.ms r.MinLatency), ("max_ms", Report.ms r.MaxLatency),
       ("avg_ms", Report.ms r.AvgLatency), ("p50_ms", Report.ms r.P50Latency),
       ("p95_ms", Report.ms r.P95Latency), ("p99_ms", Report.ms r.P99Latency)])]

end Kafka

/-! ## Theorems -/

theorem wrap64_add_left (a b : Int) : wrap64 (wrap64 a + b) = wrap64 (a + b) := by
  unfold wrap64; omega

theorem wrap64_of_range (a : Int) (h1 : -9223372036854775808 ≤ a)
    (h2 : a < 9223372036854775808) : wrap64 a = a := by
  unfold wrap64; omega

namespace Http

theorem getD_at_split (pre : List Int) (x : Int) (tl : List Int) :
    (pre ++ x :: tl).getD pre.length 0 = x := by
  induction pre with
  | nil => rfl
  | cons p ps ih => simpa using ih

theorem set_at_split (pre : List Int) (x v : Int) (tl : List Int) :
    (pre ++ x :: tl).set pre.length v = pre ++ v :: tl := by
  induction pre with
  | nil => rfl
  | cons p ps ih => simp [ih]

theorem swapAt_split (pre mid suf : List Int) (x y : Int) :
    swapAt (pre ++ x :: (mid ++ y :: suf)) pre.length (pre.length + 1 + mid.length)
      = pre ++ y :: (mid ++ x :: suf) := by
  have e3 : pre.length + 1 + mid.length = (pre ++ x :: mid).length := by
    simp only [List.length_append, List.length_cons]; omega
  have e4 : pre.length + 1 + mid.length = (pre ++ y :: mid).length := by
    simp only [List.length_append, List.length_cons]; omega
  have e2 : ∀ z w : Int, pre ++ z :: (mid ++ w :: suf) = (pre ++ z :: mid) ++ w :: suf := by
    intro z w; simp
  have h1 : (pre ++ x :: (mid ++ y :: suf)).getD pre.length 0 = x := getD_at_split pre x _
  have h2 : (pre ++ x :: (mid ++ y :: suf)).getD (pre.length + 1 + mid.length) 0 = y := by
    rw [e2, e3]; exact getD_at_split _ y suf
  unfold swapAt
  rw [h1, h2, set_at_split, e2 y y, e4, set_at_split, ← e2]

theorem innerLoop_split (pre : List Int) :
    ∀ (suf : List Int) (fuel : Nat) (mid : List Int) (x : Int), suf.length ≤ fuel →
      innerLoop pre.length fuel (pre.length + 1 + mid.length) (pre ++ x :: (mid ++ suf))
        = pre ++ selectMin x mid suf := by
  intro suf
  induction suf with
  | nil =>
    intro fuel mid x _
    cases fuel with
    | zero => simp [innerLoop, selectMin]
    | succ f =>
      have hlen : ¬ (pre.length + 1 + mid.length < (pre ++ x :: (mid ++ [])).length) := by
        simp only [List.length_append, List.length_cons, List.length_nil]; omega
      rw [innerLoop, if_neg hlen]
      simp [selectMin]
  | cons y s ih =>
    intro fuel mid x hf
    cases fuel with
    | zero => simp at hf
    | succ f =>
      have hf2 : s.length ≤ f := by simpa using hf
      have hlen : pre.length + 1 + mid.length < (pre ++ x :: (mid ++ y :: s)).length := by
        simp only [List.length_append, List.length_cons]; omega
      have e3 : pre.length + 1 + mid.length = (pre ++ x :: mid).length := by
        simp only [List.length_append, List.length_cons]; omega
      have h1 : (pre ++ x :: (mid ++ y :: s)).getD pre.length 0 = x := getD_at_split pre x _
      have h2 : (pre ++ x :: (mid ++ y :: s)).getD (pre.length + 1 + mid.length) 0 = y := by
        have e2 : pre ++ x :: (mid ++ y :: s) = (pre ++ x :: mid) ++ y :: s := by simp
        rw [e2, e3]; exact getD_at_split _ y s
      rw [innerLoop, if_pos hlen, h1, h2]
      by_cases hxy : x > y
      · rw [if_pos hxy, swapAt_split]
        have := ih f (mid ++ [x]) y hf2
        simp only [List.length_append, List.length_singleton, List.append_assoc,
          List.singleton_append] at this
        rw [selectMin, if_pos hxy]
        rw [← this]
        congr 1
      · rw [if_neg hxy]
        have := ih f (mid ++ [y]) x hf2
        simp only [List.length_append, List.length_singleton, List.append_assoc,
          List.singleton_append] at this
        rw [selectMin, if_neg hxy]
        rw [← this]
        congr 1

theorem selectMin_perm : ∀ (suf mid : List Int) (x : Int),
    (selectMin x mid suf).Perm (x :: (mid ++ suf)) := by
  intro suf
  induction suf with
  | nil => intro mid x; simp [selectMin]
  | cons y s ih =>
    intro mid x
    rw [selectMin]
    split
    · refine (ih (mid ++ [x]) y).trans ?_
      have h : (y :: (mid ++ [x] ++ s)).Perm (y :: x :: (mid ++ s)) := by
        refine List.Perm.cons y ?_
        simp
      refine h.trans ((List.Perm.swap x y _).trans ?_)
      refine List.Perm.cons x ?_
      exact (@List.perm_middle _ y mid s).symm
    · refine (ih (mid ++ [y]) x).trans ?_
      simp

theorem selectMin_least : ∀ (suf mid : List Int) (x : Int), (∀ z ∈ mid, x ≤ z) →
    ∃ m rest, selectMin x mid suf = m :: rest ∧ (∀ z ∈ rest, m ≤ z) := by
  intro suf
  induction suf with
  | nil => intro mid x h; exact ⟨x, mid, rfl, h⟩
  | cons y s ih =>
    intro mid x h
    rw [selectMin]
    split
    · rename_i hxy
      apply ih
      intro z hz
      rcases List.mem_append.1 hz with hz | hz
      · have := h z hz; omega
      · simp at hz; omega
    · rename_i hxy
      apply ih
      intro z hz
      rcases List.mem_append.1 hz with hz | hz
      · exact h z hz
      · simp at hz; omega

theorem outerLoop_sorts : ∀ (fuel : Nat) (pre rest : List Int), rest.length ≤ fuel →
    List.Sorted (· ≤ ·) pre → (∀ a ∈ pre, ∀ b ∈ rest, a ≤ b) →
    List.Sorted (· ≤ ·) (outerLoop fuel pre.length (pre ++ rest)) ∧
      (outerLoop fuel pre.length (pre ++ rest)).Perm (pre ++ rest) := by
  intro fuel
  induction fuel with
  | zero =>
    intro pre rest hf hs _
    have : rest = [] := List.length_eq_zero.1 (Nat.le_zero.1 hf)
    subst this
    simpa [outerLoop] using hs
  | succ f ih =>
    intro pre rest hf hs hle
    cases rest with
    | nil => simp [outerLoop, hs]
    | cons x suf =>
      have hlen : pre.length < (pre ++ x :: suf).length := by simp
      have hin := innerLoop_split pre suf (pre ++ x :: suf).length [] x (by simp; omega)
      simp only [List.length_nil, Nat.add_zero, List.nil_append] at hin
      rw [outerLoop, if_pos hlen, hin]
      obtain ⟨m, rest', hsel, hmin⟩ := selectMin_least suf [] x (by simp)
      have hperm : (m :: rest').Perm (x :: suf) := by
        have := selectMin_perm suf [] x
        rw [hsel] at this
        simpa using this
      rw [hsel]
      have e : pre ++ m :: rest' = (pre ++ [m]) ++ rest' := by simp
      have el : pre.length + 1 = (pre ++ [m]).length := by simp
      rw [e, el]
      have hl' : rest'.length ≤ f := by
        have := hperm.length_eq
        simp at this hf
        omega
      have hm_mem : m ∈ x :: suf := hperm.subset (List.mem_cons_self _ _)
      have hs' : List.Sorted (· ≤ ·) (pre ++ [m]) := by
        unfold List.Sorted
        rw [List.pairwise_append]
        refine ⟨hs, List.pairwise_singleton _ _, ?_⟩
        intro a ha b hb
        simp at hb
        subst hb
        exact hle a ha b hm_mem
      have hle' : ∀ a ∈ pre ++ [m], ∀ b ∈ rest', a ≤ b := by
        intro a ha b hb
        rcases List.mem_append.1 ha with ha | ha
        · exact hle a ha b (hperm.subset (List.mem_cons_of_mem _ hb))
        · simp at ha; subst ha; exact hmin b hb
      obtain ⟨h1, h2⟩ := ih (pre ++ [m]) rest' hl' hs' hle'
      refine ⟨h1, h2.trans ?_⟩
      rw [← e]
      exact List.Perm.append_left pre hperm

theorem sortLatencies_sorted (a : List Int) : List.Sorted (· ≤ ·) (sortLatencies a) :=
  (outerLoop_sorts a.length [] a (Nat.le_refl _) List.sorted_nil (by simp)).1

theorem sortLatencies_perm (a : List Int) : (sortLatencies a).Perm a :=
  (outerLoop_sorts a.length [] a (Nat.le_refl _) List.sorted_nil (by simp)).2

theorem sortLatencies_eq_insertionSort (a : List Int) :
    sortLatencies a = List.insertionSort (· ≤ ·) a :=
  List.eq_of_perm_of_sorted
    ((sortLatencies_perm a).trans (List.perm_insertionSort (· ≤ ·) a).symm)
    (sortLatencies_sorted a) (List.sorted_insertionSort (· ≤ ·) a)

theorem sortLatencies_congr {a b : List Int} (h : a.Perm b) :
    sortLatencies a = sortLatencies b :=
  List.eq_of_perm_of_sorted
    ((sortLatencies_perm a).trans (h.trans (sortLatencies_perm b).symm))
    (sortLatencies_sorted a) (sortLatencies_sorted b)

theorem sortLatencies_length (a : List Int) : (sortLatencies a).length = a.length :=
  (sortLatencies_perm a).length_eq

/-- Any iteration bound of at least the slice length gives the same result: the
loops end because their guards fail. -/
theorem outerLoop_fuel (a : List Int) (fuel : Nat) (h : a.length ≤ fuel) :
    outerLoop fuel 0 a = sortLatencies a := by
  have h1 := outerLoop_sorts fuel [] a h List.sorted_nil (by simp)
  exact List.eq_of_perm_of_sorted (h1.2.trans (sortLatencies_perm a).symm) h1.1
    (sortLatencies_sorted a)

theorem getD_eq_getElem?_of_lt (s : List Int) (i : Nat) (h : i < s.length) :
    s[i]? = some (s.getD i 0) := by
  rw [List.getD_eq_getElem?_getD, List.getElem?_eq_getElem h]
  rfl

theorem sorted_getD_le (s : List Int) (hs : List.Sorted (· ≤ ·) s) (i j : Nat)
    (hij : i ≤ j) (hj : j < s.length) : s.getD i 0 ≤ s.getD j 0 := by
  have hi : i < s.length := Nat.lt_of_le_of_lt hij hj
  have := @List.Sorted.rel_get_of_le _ _ _ _ hs ⟨i, hi⟩ ⟨j, hj⟩ hij
  simpa [List.getD_eq_getElem?_getD, List.getElem?_eq_getElem hi,
    List.getElem?_eq_getElem hj] using this

theorem getD_mem (s : List Int) (i : Nat) (h : i < s.length) : s.getD i 0 ∈ s := by
  rw [List.getD_eq_getElem?_getD, List.getElem?_eq_getElem h]
  exact List.getElem_mem h

theorem sumLoop_eq : ∀ (l : List Int) (s : Int),
    sumLoop s l = if l = [] then s else wrap64 (s + l.sum) := by
  intro l
  induction l with
  | nil => intro s; simp [sumLoop]
  | cons x rest ih =>
    intro s
    rw [sumLoop, ih]
    by_cases hr : rest = []
    · subst hr; simp
    · simp only [hr, if_false, List.sum_cons, reduceCtorEq]
      rw [wrap64_add_left, Int.add_assoc]

theorem percentile_index_lt (n p : Nat) (hn : 0 < n) (hp : p < 100) : n * p / 100 < n := by
  apply Nat.div_lt_of_lt_mul
  nlinarith

/-- The fields `calculateStatistics` computes on a non-empty latency slice. -/
theorem calculateStatistics_of_ne (r : Results) (h : r.Latencies ≠ []) :
    calculateStatistics r =
      { r with
        Latencies := sortLatencies r.Latencies
        MinLatency := (sortLatencies r.Latencies).getD 0 0
        MaxLatency := (sortLatencies r.Latencies).getD (r.Latencies.length - 1) 0
        AvgLatency := Int.tdiv (wrap64 r.Latencies.sum) (r.Latencies.length : Int)
        P50Latency := (sortLatencies r.Latencies).getD (r.Latencies.length * 50 / 100) 0
        P95Latency := (sortLatencies r.Latencies).getD (r.Latencies.length * 95 / 100) 0
        P99Latency := (sortLatencies r.Latencies).getD (r.Latencies.length * 99 / 100) 0 } := by
  have hl : ¬ r.Latencies.length = 0 := fun h0 => h (List.length_eq_zero.1 h0)
  have hs : sortLatencies r.Latencies ≠ [] := by
    intro h0
    have := sortLatencies_length r.Latencies
    rw [h0] at this
    exact hl this.symm
  unfold calculateStatistics
  rw [if_neg hl]
  simp only [sortLatencies_length, sumLoop_eq, hs, if_false, Int.zero_add,
    (sortLatencies_perm r.Latencies).sum_eq]

theorem calculateStatistics_of_nil (r : Results) (h : r.Latencies = []) :
    calculateStatistics r = r := by
  unfold calculateStatistics
  simp [h]

/-- C1: for every `Results`, after `calculateStatistics` the `Latencies` slice is
sorted in ascending order and is a permutation of the slice it held before the
call, with the same length. -/
theorem calculateStatistics_sorted_perm (r : Results) :
    List.Sorted (· ≤ ·) (calculateStatistics r).Latencies ∧
      (calculateStatistics r).Latencies.Perm r.Latencies ∧
      (calculateStatistics r).Latencies.length = r.Latencies.length := by
  by_cases h : r.Latencies = []
  · rw [calculateStatistics_of_nil r h, h]
    exact ⟨List.sorted_nil, List.Perm.refl _, rfl⟩
  · rw [calculateStatistics_of_ne r h]
    exact ⟨sortLatencies_sorted _, sortLatencies_perm _, sortLatencies_length _⟩

/-- C2: for a non-empty latency slice of length `n` and each `p` of 50, 95, 99 the
index `n * p / 100` is at most `n - 1`, and `calculateStatistics` sets
`P50Latency`, `P95Latency`, `P99Latency` to the element at that index of the
latencies sorted in ascending order. -/
theorem calculateStatistics_percentiles (r : Results) (h : r.Latencies ≠ []) :
    r.Latencies.length * 50 / 100 ≤ r.Latencies.length - 1 ∧
    r.Latencies.length * 95 / 100 ≤ r.Latencies.length - 1 ∧
    r.Latencies.length * 99 / 100 ≤ r.Latencies.length - 1 ∧
    (List.insertionSort (· ≤ ·) r.Latencies)[r.Latencies.length * 50 / 100]?
      = some (calculateStatistics r).P50Latency ∧
    (List.insertionSort (· ≤ ·) r.Latencies)[r.Latencies.length * 95 / 100]?
      = some (calculateStatistics r).P95Latency ∧
    (List.insertionSort (· ≤ ·) r.Latencies)[r.Latencies.length * 99 / 100]?
      = some (calculateStatistics r).P99Latency := by
  have hn : 0 < r.Latencies.length := List.length_pos.2 h
  have h50 := percentile_index_lt r.Latencies.length 50 hn (by decide)
  have h95 := percentile_index_lt r.Latencies.length 95 hn (by decide)
  have h99 := percentile_index_lt r.Latencies.length 99 hn (by decide)
  have hlen := sortLatencies_length r.Latencies
  rw [calculateStatistics_of_ne r h, ← sortLatencies_eq_insertionSort]
  refine ⟨by omega, by omega, by omega, ?_, ?_, ?_⟩
  · exact getD_eq_getElem?_of_lt _ _ (by omega)
  · exact getD_eq_getElem?_of_lt _ _ (by omega)
  · exact getD_eq_getElem?_of_lt _ _ (by omega)

/-- Witness of C2 on the latencies 30, 10, 20. -/
theorem calculateStatistics_percentiles_witness :
    (withLatencies [30, 10, 20]).Latencies ≠ [] ∧
    (List.insertionSort (· ≤ ·) (withLatencies [30, 10, 20]).Latencies)[
        (withLatencies [30, 10, 20]).Latencies.length * 50 / 100]?
      = some (calculateStatistics (withLatencies [30, 10, 20])).P50Latency :=
  ⟨by decide, (calculateStatistics_percentiles (withLatencies [30, 10, 20]) (by decide)).2.2.2.1⟩

theorem sorted_head_le (s : List Int) (hs : List.Sorted (· ≤ ·) s) :
    ∀ x ∈ s, s.getD 0 0 ≤ x := by
  intro x hx
  obtain ⟨j, hj, rfl⟩ := List.getElem_of_mem hx
  have := sorted_getD_le s hs 0 j (Nat.zero_le _) hj
  simpa [List.getD_eq_getElem?_getD, List.getElem?_eq_getElem hj] using this

theorem sorted_le_last (s : List Int) (hs : List.Sorted (· ≤ ·) s) :
    ∀ x ∈ s, x ≤ s.getD (s.length - 1) 0 := by
  intro x hx
  obtain ⟨j, hj, rfl⟩ := List.getElem_of_mem hx
  have := sorted_getD_le s hs j (s.length - 1) (by omega) (by omega)
  simpa [List.getD_eq_getElem?_getD, List.getElem?_eq_getElem hj] using this

/-- Counterexample to C3 as stated: on two latencies of `2^62` ns each the `int64`
sum wraps around, so `AvgLatency` is `-2^62` while the sum of the latencies
divided by their count is `2^62`. -/
theorem calculateStatistics_avg_not_mean :
    (calculateStatistics
        (withLatencies [4611686018427387904, 4611686018427387904])).AvgLatency
      = -4611686018427387904 ∧
    Int.tdiv (List.sum [4611686018427387904, 4611686018427387904])
        (([4611686018427387904, 4611686018427387904] : List Int).length : Int)
      = 4611686018427387904 := by
  decide

/-- C3 (amended): for every non-empty latency slice `calculateStatistics` sets
`MinLatency` to the smallest and `MaxLatency` to the largest recorded latency,
and `AvgLatency` to the `int64` sum of the latencies (the integer sum wrapped
into 64 bits) divided by their count with truncation; when the integer sum lies
in the `int64` range this is the sum of all latencies divided by their count. -/
theorem calculateStatistics_min_max_avg (r : Results) (h : r.Latencies ≠ []) :
    ((calculateStatistics r).MinLatency ∈ r.Latencies ∧
      ∀ x ∈ r.Latencies, (calculateStatistics r).MinLatency ≤ x) ∧
    ((calculateStatistics r).MaxLatency ∈ r.Latencies ∧
      ∀ x ∈ r.Latencies, x ≤ (calculateStatistics r).MaxLatency) ∧
    (calculateStatistics r).AvgLatency
      = Int.tdiv (wrap64 r.Latencies.sum) (r.Latencies.length : Int) ∧
    (-9223372036854775808 ≤ r.Latencies.sum → r.Latencies.sum < 9223372036854775808 →
      (calculateStatistics r).AvgLatency
        = Int.tdiv r.Latencies.sum (r.Latencies.length : Int)) := by
  have hn : 0 < r.Latencies.length := List.length_pos.2 h
  have hlen := sortLatencies_length r.Latencies
  have hs := sortLatencies_sorted r.Latencies
  have hp := sortLatencies_perm r.Latencies
  rw [calculateStatistics_of_ne r h]
  refine ⟨⟨?_, ?_⟩, ⟨?_, ?_⟩, rfl, ?_⟩
  · exact hp.subset (getD_mem _ 0 (by omega))
  · intro x hx
    exact sorted_head_le _ hs x (hp.symm.subset hx)
  · exact hp.subset (getD_mem _ _ (by omega))
  · intro x hx
    have := sorted_le_last _ hs x (hp.symm.subset hx)
    rw [hlen] at this
    exact this
  · intro h1 h2
    show Int.tdiv (wrap64 r.Latencies.sum) _ = _
    rw [wrap64_of_range _ h1 h2]

/-- Witness of C3 (amended) on the latencies 30, 10, 20. -/
theorem calculateStatistics_min_max_avg_witness :
    (withLatencies [30, 10, 20]).Latencies ≠ [] ∧
    (calculateStatistics (withLatencies [30, 10, 20])).AvgLatency
      = Int.tdiv (withLatencies [30, 10, 20]).Latencies.sum
          ((withLatencies [30, 10, 20]).Latencies.length : Int) :=
  ⟨by decide,
   (calculateStatistics_min_max_avg (withLatencies [30, 10, 20]) (by decide)).2.2.2
     (by decide) (by decide)⟩

/-- C4: `calculateStatistics` applied to a `Results` as `Run` creates it, with an
empty latency slice (whatever the counters, the duration and the tallies hold),
leaves `MinLatency`, `MaxLatency`, `AvgLatency`, `P50Latency`, `P95Latency` and
`P99Latency` all equal to zero. -/
theorem calculateStatistics_empty (total success failed duration : Int)
    (codes : Tally Int) (errors : Tally String) :
    (calculateStatistics
        { newResults with
          TotalRequests := total, SuccessRequests := success, FailedRequests := failed,
          TotalDuration := duration, StatusCodes := codes, Errors := errors }).stats
      = [0, 0, 0, 0, 0, 0] ∧
    (calculateStatistics newResults).MinLatency = 0 ∧
    (calculateStatistics newResults).MaxLatency = 0 ∧
    (calculateStatistics newResults).AvgLatency = 0 ∧
    (calculateStatistics newResults).P50Latency = 0 ∧
    (calculateStatistics newResults).P95Latency = 0 ∧
    (calculateStatistics newResults).P99Latency = 0 := by
  refine ⟨?_, rfl, rfl, rfl, rfl, rfl, rfl⟩
  rw [calculateStatistics_of_nil _ rfl]
  rfl

/-- C5: `calculateStatistics` on a `Results` holding exactly the latencies 10ms,
20ms, ..., 100ms, in any arrival order, yields `MinLatency` = 10ms,
`MaxLatency` = 100ms, `AvgLatency` = 55ms and `P50Latency` = 60ms. -/
theorem calculateStatistics_ten_samples (r : Results)
    (h : r.Latencies.Perm
      [10 * Millisecond, 20 * Millisecond, 30 * Millisecond, 40 * Millisecond,
       50 * Millisecond, 60 * Millisecond, 70 * Millisecond, 80 * Millisecond,
       90 * Millisecond, 100 * Millisecond]) :
    (calculateStatistics r).MinLatency = 10 * Millisecond ∧
    (calculateStatistics r).MaxLatency = 100 * Millisecond ∧
    (calculateStatistics r).AvgLatency = 55 * Millisecond ∧
    (calculateStatistics r).P50Latency = 60 * Millisecond := by
  have hne : r.Latencies ≠ [] := by
    intro h0
    rw [h0] at h
    exact List.cons_ne_nil _ _ (List.nil_perm.1 h)
  have hlen : r.Latencies.length = 10 := h.length_eq
  have hsum : r.Latencies.sum = 550 * Millisecond := by
    rw [h.sum_eq]; decide
  have hsort : sortLatencies r.Latencies =
      [10 * Millisecond, 20 * Millisecond, 30 * Millisecond, 40 * Millisecond,
       50 * Millisecond, 60 * Millisecond, 70 * Millisecond, 80 * Millisecond,
       90 * Millisecond, 100 * Millisecond] := by
    rw [sortLatencies_congr h]; decide
  rw [calculateStatistics_of_ne r hne, hsort, hlen, hsum]
  dsimp only
  decide

/-- Witness of C5 on the ten latencies arriving in descending order. -/
theorem calculateStatistics_ten_samples_witness :
    (withLatencies
      [100 * Millisecond, 90 * Millisecond, 80 * Millisecond, 70 * Millisecond,
       60 * Millisecond, 50 * Millisecond, 40 * Millisecond, 30 * Millisecond,
       20 * Millisecond, 10 * Millisecond]).Latencies.Perm
      [10 * Millisecond, 20 * Millisecond, 30 * Millisecond, 40 * Millisecond,
       50 * Millisecond, 60 * Millisecond, 70 * Millisecond, 80 * Millisecond,
       90 * Millisecond, 100 * Millisecond] ∧
    (calculateStatistics (withLatencies
      [100 * Millisecond, 90 * Millisecond, 80 * Millisecond, 70 * Millisecond,
       60 * Millisecond, 50 * Millisecond, 40 * Millisecond, 30 * Millisecond,
       20 * Millisecond, 10 * Millisecond])).P50Latency = 60 * Millisecond :=
  ⟨by decide, (calculateStatistics_ten_samples _ (by decide)).2.2.2⟩

/-- C6: the derived statistics do not depend on arrival order: for two `Results`
whose latency slices are permutations of each other (and whose derived fields
agree before the call, as they do in fresh `Results`), `calculateStatistics`
produces the same `MinLatency`, `MaxLatency`, `AvgLatency`, `P50Latency`,
`P95Latency` and `P99Latency`. -/
theorem calculateStatistics_order_insensitive (r₁ r₂ : Results)
    (hp : r₁.Latencies.Perm r₂.Latencies) (h0 : r₁.stats = r₂.stats) :
    (calculateStatistics r₁).MinLatency = (calculateStatistics r₂).MinLatency ∧
    (calculateStatistics r₁).MaxLatency = (calculateStatistics r₂).MaxLatency ∧
    (calculateStatistics r₁).AvgLatency = (calculateStatistics r₂).AvgLatency ∧
    (calculateStatistics r₁).P50Latency = (calculateStatistics r₂).P50Latency ∧
    (calculateStatistics r₁).P95Latency = (calculateStatistics r₂).P95Latency ∧
    (calculateStatistics r₁).P99Latency = (calculateStatistics r₂).P99Latency := by
  by_cases h : r₁.Latencies = []
  · have h2 : r₂.Latencies = [] := by
      rw [h] at hp
      exact List.nil_perm.1 hp
    rw [calculateStatistics_of_nil r₁ h, calculateStatistics_of_nil r₂ h2]
    simp only [Results.stats, List.cons.injEq, and_true] at h0
    exact h0
  · have h2 : r₂.Latencies ≠ [] := by
      intro h2
      rw [h2] at hp
      exact h (List.perm_nil.1 hp)
    rw [calculateStatistics_of_ne r₁ h, calculateStatistics_of_ne r₂ h2]
    simp only [sortLatencies_congr hp, hp.length_eq, hp.sum_eq, and_self]

/-- Witness of C6 on the latencies 30, 10, 20 against 10, 20, 30. -/
theorem calculateStatistics_order_insensitive_witness :
    (withLatencies [30, 10, 20]).Latencies.Perm (withLatencies [10, 20, 30]).Latencies ∧
    (withLatencies [30, 10, 20]).stats = (withLatencies [10, 20, 30]).stats ∧
    (calculateStatistics (withLatencies [30, 10, 20])).P50Latency
      = (calculateStatistics (withLatencies [10, 20, 30])).P50Latency :=
  ⟨by decide, by decide,
   (calculateStatistics_order_insensitive (withLatencies [30, 10, 20])
      (withLatencies [10, 20, 30]) (by decide) (by decide)).2.2.2.1⟩

end Http

theorem counterInv_zero : CounterInv 0 0 0 0 :=
  ⟨0, 0, rfl, by decide, by decide, by decide⟩

theorem counterInv_success {n : Nat} {t s f : Int} (h : CounterInv n t s f) :
    CounterInv (n + 1) (wrap64 (t + 1)) (wrap64 (s + 1)) f := by
  obtain ⟨a, b, hab, ht, hs, hf⟩ := h
  refine ⟨a + 1, b, by omega, ?_, ?_, hf⟩
  · rw [ht, wrap64_add_left]; push_cast; rfl
  · rw [hs, wrap64_add_left]; push_cast; rfl

theorem counterInv_failed {n : Nat} {t s f : Int} (h : CounterInv n t s f) :
    CounterInv (n + 1) (wrap64 (t + 1)) s (wrap64 (f + 1)) := by
  obtain ⟨a, b, hab, ht, hs, hf⟩ := h
  refine ⟨a, b + 1, by omega, ?_, hs, ?_⟩
  · rw [ht, wrap64_add_left]; push_cast; rfl
  · rw [hf, wrap64_add_left]; push_cast; rfl

theorem wrap64_add_right (a b : Int) : wrap64 (a + wrap64 b) = wrap64 (a + b) := by
  rw [Int.add_comm, wrap64_add_left, Int.add_comm]

theorem counterInv_balanced {n : Nat} {t s f : Int} (h : CounterInv n t s f) :
    Balanced n t s f := by
  obtain ⟨a, b, hab, ht, hs, hf⟩ := h
  have hn : (n : Int) = a + b := by exact_mod_cast hab.symm
  rw [ht, hs, hf, hn]
  constructor
  · rw [wrap64_add_left, wrap64_add_right]
  · intro hlt
    have ha : (a : Int) < 9223372036854775808 := by omega
    have hb : (b : Int) < 9223372036854775808 := by omega
    have hab2 : (a : Int) + b < 9223372036854775808 := by omega
    rw [wrap64_of_range a (by omega) ha, wrap64_of_range b (by omega) hb,
      wrap64_of_range _ (by omega) hab2]

theorem counterInv_total {n : Nat} {t s f : Int} (h : CounterInv n t s f)
    (hn : n < 9223372036854775808) : t = n := by
  obtain ⟨a, b, hab, ht, hs, hf⟩ := h
  rw [ht]
  exact wrap64_of_range _ (by omega) (by omega)

namespace Http

theorem http_makeRequest_counterInv {n : Nat} (r : Results) (c : Call)
    (h : CounterInv n r.TotalRequests r.SuccessRequests r.FailedRequests) :
    CounterInv (n + 1) (makeRequest r c).TotalRequests (makeRequest r c).SuccessRequests
      (makeRequest r c).FailedRequests := by
  cases c with
  | buildFailed err => exact counterInv_failed h
  | doFailed latency err => exact counterInv_failed h
  | responded latency statusCode =>
    unfold makeRequest
    dsimp only
    split
    · exact counterInv_success h
    · exact counterInv_failed h

theorem http_foldl_makeRequest_counterInv (calls : List Call) :
    ∀ (n : Nat) (r : Results),
      CounterInv n r.TotalRequests r.SuccessRequests r.FailedRequests →
      CounterInv (n + calls.length) (calls.foldl makeRequest r).TotalRequests
        (calls.foldl makeRequest r).SuccessRequests (calls.foldl makeRequest r).FailedRequests := by
  induction calls with
  | nil => intro n r h; exact h
  | cons c rest ih =>
    intro n r h
    have := ih (n + 1) (makeRequest r c) (http_makeRequest_counterInv r c h)
    rw [List.length_cons, List.foldl_cons]
    rwa [Nat.add_assoc, Nat.add_comm 1] at this

theorem http_afterCalls_counterInv (calls : List Call) :
    CounterInv calls.length (afterCalls calls).TotalRequests
      (afterCalls calls).SuccessRequests (afterCalls calls).FailedRequests := by
  have := http_foldl_makeRequest_counterInv calls 0 newResults counterInv_zero
  rwa [Nat.zero_add] at this

theorem http_makeRequest_latencies (r : Results) (c : Call) :
    (makeRequest r c).Latencies.length + (if c.notIssued then 1 else 0)
      = r.Latencies.length + 1 := by
  cases c with
  | buildFailed err => simp [makeRequest, Call.notIssued]
  | doFailed latency err => simp [makeRequest, Call.notIssued]
  | responded latency statusCode =>
    unfold makeRequest
    dsimp only
    split <;> simp [Call.notIssued]

theorem http_foldl_makeRequest_latencies (calls : List Call) :
    ∀ (r : Results),
      (calls.foldl makeRequest r).Latencies.length + calls.countP Call.notIssued
        = r.Latencies.length + calls.length := by
  induction calls with
  | nil => intro r; simp
  | cons c rest ih =>
    intro r
    have h1 := ih (makeRequest r c)
    have h2 := http_makeRequest_latencies r c
    rw [List.foldl_cons, List.countP_cons, List.length_cons]
    cases hc : c.notIssued <;> simp [hc] at h2 ⊢ <;> omega

end Http

namespace Grpc

theorem grpc_makeRequest_counterInv {n : Nat} (r : Results) (c : Call)
    (h : CounterInv n r.TotalRequests r.SuccessRequests r.FailedRequests) :
    CounterInv (n + 1) (makeRequest r c).TotalRequests (makeRequest r c).SuccessRequests
      (makeRequest r c).FailedRequests := by
  cases c with
  | parseFailed err => exact counterInv_failed h
  | invokeFailed latency err status =>
    cases status with
    | none => exact counterInv_failed h
    | some code => exact counterInv_failed h
  | invoked latency => exact counterInv_success h

theorem grpc_foldl_makeRequest_counterInv (calls : List Call) :
    ∀ (n : Nat) (r : Results),
      CounterInv n r.TotalRequests r.SuccessRequests r.FailedRequests →
      CounterInv (n + calls.length) (calls.foldl makeRequest r).TotalRequests
        (calls.foldl makeRequest r).SuccessRequests (calls.foldl makeRequest r).FailedRequests := by
  induction calls with
  | nil => intro n r h; exact h
  | cons c rest ih =>
    intro n r h
    have := ih (n + 1) (makeRequest r c) (grpc_makeRequest_counterInv r c h)
    rw [List.length_cons, List.foldl_cons]
    rwa [Nat.add_assoc, Nat.add_comm 1] at this

theorem grpc_afterCalls_counterInv (calls : List Call) :
    CounterInv calls.length (afterCalls calls).TotalRequests
      (afterCalls calls).SuccessRequests (afterCalls calls).FailedRequests := by
  have := grpc_foldl_makeRequest_counterInv calls 0 newResults counterInv_zero
  rwa [Nat.zero_add] at this

theorem grpc_makeRequest_latencies (r : Results) (c : Call) :
    (makeRequest r c).Latencies.length + (if c.notIssued then 1 else 0)
      = r.Latencies.length + 1 := by
  cases c with
  | parseFailed err => simp [makeRequest, Call.notIssued]
  | invokeFailed latency err status =>
    cases status <;> simp [makeRequest, Call.notIssued]
  | invoked latency => simp [makeRequest, Call.notIssued]

theorem grpc_foldl_makeRequest_latencies (calls : List Call) :
    ∀ (r : Results),
      (calls.foldl makeRequest r).Latencies.length + calls.countP Call.notIssued
        = r.Latencies.length + calls.length := by
  induction calls with
  | nil => intro r; simp
  | cons c rest ih =>
    intro r
    have h1 := ih (makeRequest r c)
    have h2 := grpc_makeRequest_latencies r c
    rw [List.foldl_cons, List.countP_cons, List.length_cons]
    cases hc : c.notIssued <;> simp [hc] at h2 ⊢ <;> omega

end Grpc

namespace Sql

theorem executeTransaction_counterInv {n : Nat} (r : Results) (c : Call)
    (h : CounterInv n r.TotalTransactions r.SuccessTransactions r.FailedTransactions) :
    CounterInv (n + 1) (executeTransaction r c).TotalTransactions
      (executeTransaction r c).SuccessTransactions
      (executeTransaction r c).FailedTransactions := by
  unfold executeTransaction
  dsimp only
  split
  · exact counterInv_failed h
  · exact counterInv_success h

theorem sql_afterCalls_counterInv (calls : List Call) :
    CounterInv calls.length (afterCalls calls).TotalTransactions
      (afterCalls calls).SuccessTransactions (afterCalls calls).FailedTransactions := by
  have key : ∀ (cs : List Call) (n : Nat) (r : Results),
      CounterInv n r.TotalTransactions r.SuccessTransactions r.FailedTransactions →
      CounterInv (n + cs.length) (cs.foldl executeTransaction r).TotalTransactions
        (cs.foldl executeTransaction r).SuccessTransactions
        (cs.foldl executeTransaction r).FailedTransactions := by
    intro cs
    induction cs with
    | nil => intro n r h; exact h
    | cons c rest ih =>
      intro n r h
      have := ih (n + 1) (executeTransaction r c) (executeTransaction_counterInv r c h)
      rw [List.length_cons, List.foldl_cons]
      rwa [Nat.add_assoc, Nat.add_comm 1] at this
  have := key calls 0 newResults counterInv_zero
  rwa [Nat.zero_add] at this

end Sql

namespace Redis

theorem executeOperation_counterInv {n : Nat} (r : Results) (c : Call)
    (h : CounterInv n r.TotalOperations r.SuccessOperations r.FailedOperations) :
    CounterInv (n + 1) (executeOperation r c).TotalOperations
      (executeOperation r c).SuccessOperations
      (executeOperation r c).FailedOperations := by
  unfold executeOperation
  dsimp only
  split
  · exact counterInv_failed h
  · exact counterInv_success h

theorem redis_afterCalls_counterInv (calls : List Call) :
    CounterInv calls.length (afterCalls calls).TotalOperations
      (afterCalls calls).SuccessOperations (afterCalls calls).FailedOperations := by
  have key : ∀ (cs : List Call) (n : Nat) (r : Results),
      CounterInv n r.TotalOperations r.SuccessOperations r.FailedOperations →
      CounterInv (n + cs.length) (cs.foldl executeOperation r).TotalOperations
        (cs.foldl executeOperation r).SuccessOperations
        (cs.foldl executeOperation r).FailedOperations := by
    intro cs
    induction cs with
    | nil => intro n r h; exact h
    | cons c rest ih =>
      intro n r h
      have := ih (n + 1) (executeOperation r c) (executeOperation_counterInv r c h)
      rw [List.length_cons, List.foldl_cons]
      rwa [Nat.add_assoc, Nat.add_comm 1] at this
  have := key calls 0 newResults counterInv_zero
  rwa [Nat.zero_add] at this

end Redis

namespace Kafka

theorem sendMessage_counterInv {n : Nat} (size : Int) (r : Results) (c : Call)
    (h : CounterInv n r.TotalMessages r.SuccessMessages r.FailedMessages) :
    CounterInv (n + 1) (sendMessage size r c).TotalMessages
      (sendMessage size r c).SuccessMessages (sendMessage size r c).FailedMessages := by
  unfold sendMessage
  dsimp only
  split
  · exact counterInv_failed h
  · exact counterInv_success h

theorem kafka_afterCalls_counterInv (size : Int) (calls : List Call) :
    CounterInv calls.length (afterCalls size calls).TotalMessages
      (afterCalls size calls).SuccessMessages (afterCalls size calls).FailedMessages := by
  have key : ∀ (cs : List Call) (n : Nat) (r : Results),
      CounterInv n r.TotalMessages r.SuccessMessages r.FailedMessages →
      CounterInv (n + cs.length) (cs.foldl (sendMessage size) r).TotalMessages
        (cs.foldl (sendMessage size) r).SuccessMessages
        (cs.foldl (sendMessage size) r).FailedMessages := by
    intro cs
    induction cs with
    | nil => intro n r h; exact h
    | cons c rest ih =>
      intro n r h
      have := ih (n + 1) (sendMessage size r c) (sendMessage_counterInv size r c h)
      rw [List.length_cons, List.foldl_cons]
      rwa [Nat.add_assoc, Nat.add_comm 1] at this
  have := key calls 0 newResults counterInv_zero
  rwa [Nat.zero_add] at this

end Kafka

/-- C7: `total = succeeded + failed` holds after every completed record operation:
starting from a fresh `Results`, after any sequence of completed `makeRequest`
(HTTP, gRPC), `executeTransaction`, `executeOperation` or `sendMessage` calls,
whatever each call's outcome, the total counter equals the success counter
plus the failed counter. -/
theorem total_eq_succeeded_add_failed (http : List Http.Call) (grpc : List Grpc.Call)
    (sql : List Sql.Call) (redis : List Redis.Call) (size : Int) (kafka : List Kafka.Call) :
    Balanced http.length (Http.afterCalls http).TotalRequests
      (Http.afterCalls http).SuccessRequests (Http.afterCalls http).FailedRequests ∧
    Balanced grpc.length (Grpc.afterCalls grpc).TotalRequests
      (Grpc.afterCalls grpc).SuccessRequests (Grpc.afterCalls grpc).FailedRequests ∧
    Balanced sql.length (Sql.afterCalls sql).TotalTransactions
      (Sql.afterCalls sql).SuccessTransactions (Sql.afterCalls sql).FailedTransactions ∧
    Balanced redis.length (Redis.afterCalls redis).TotalOperations
      (Redis.afterCalls redis).SuccessOperations (Redis.afterCalls redis).FailedOperations ∧
    Balanced kafka.length (Kafka.afterCalls size kafka).TotalMessages
      (Kafka.afterCalls size kafka).SuccessMessages
      (Kafka.afterCalls size kafka).FailedMessages :=
  ⟨counterInv_balanced (Http.http_afterCalls_counterInv http),
   counterInv_balanced (Grpc.grpc_afterCalls_counterInv grpc),
   counterInv_balanced (Sql.sql_afterCalls_counterInv sql),
   counterInv_balanced (Redis.redis_afterCalls_counterInv redis),
   counterInv_balanced (Kafka.kafka_afterCalls_counterInv size kafka)⟩

/-- Witness of C7: an HTTP run of one unconstructible request, one transport error,
one 200 and one 500 response; fewer than `2^63` calls, so the equality is one of
integers. -/
theorem total_eq_succeeded_add_failed_witness :
    (Http.afterCalls [Http.Call.buildFailed "invalid method", Http.Call.doFailed 7 "EOF",
        Http.Call.responded 9 200, Http.Call.responded 8 500]).TotalRequests
      = (Http.afterCalls [Http.Call.buildFailed "invalid method", Http.Call.doFailed 7 "EOF",
          Http.Call.responded 9 200, Http.Call.responded 8 500]).SuccessRequests
        + (Http.afterCalls [Http.Call.buildFailed "invalid method", Http.Call.doFailed 7 "EOF",
          Http.Call.responded 9 200, Http.Call.responded 8 500]).FailedRequests :=
  (total_eq_succeeded_add_failed
    [Http.Call.buildFailed "invalid method", Http.Call.doFailed 7 "EOF",
      Http.Call.responded 9 200, Http.Call.responded 8 500] [] [] [] 0 []).1.2 (by decide)

/-- Counterexample to C8 as stated: one `makeRequest` call whose request cannot be
constructed adds one to the total counter and appends no latency. -/
theorem latencies_length_ne_total :
    (Http.afterCalls [Http.Call.buildFailed "invalid method"]).Latencies.length = 0 ∧
    (Http.afterCalls [Http.Call.buildFailed "invalid method"]).TotalRequests = 1 := by
  decide

/-- C8 (amended): after any sequence of fewer than `2^63` completed `makeRequest`
calls on a fresh `Results` (HTTP and gRPC), the length of `Latencies` plus the
number of calls that ended before a request was issued (request construction
failed, request data did not parse) equals the total counter. -/
theorem latencies_length_add_notIssued (http : List Http.Call) (grpc : List Grpc.Call) :
    (http.length < 9223372036854775808 →
      ((Http.afterCalls http).Latencies.length : Int)
          + (http.countP Http.Call.notIssued : Int)
        = (Http.afterCalls http).TotalRequests) ∧
    (grpc.length < 9223372036854775808 →
      ((Grpc.afterCalls grpc).Latencies.length : Int)
          + (grpc.countP Grpc.Call.notIssued : Int)
        = (Grpc.afterCalls grpc).TotalRequests) := by
  have h1 := Http.http_foldl_makeRequest_latencies http Http.newResults
  have h2 := Grpc.grpc_foldl_makeRequest_latencies grpc Grpc.newResults
  simp only [Http.newResults, Grpc.newResults, List.length_nil, Nat.zero_add] at h1 h2
  constructor
  · intro hh
    rw [counterInv_total (Http.http_afterCalls_counterInv http) hh]
    exact_mod_cast h1
  · intro hg
    rw [counterInv_total (Grpc.grpc_afterCalls_counterInv grpc) hg]
    exact_mod_cast h2

/-- Witness of C8 (amended): an HTTP run of one unconstructible request, one
transport error and one response, and a gRPC run of one parse failure and one
completed call. -/
theorem latencies_length_add_notIssued_witness :
    (((Http.afterCalls [Http.Call.buildFailed "invalid method", Http.Call.doFailed 7 "EOF",
          Http.Call.responded 9 200]).Latencies.length : Int)
        + ([Http.Call.buildFailed "invalid method", Http.Call.doFailed 7 "EOF",
            Http.Call.responded 9 200].countP Http.Call.notIssued : Int)
      = (Http.afterCalls [Http.Call.buildFailed "invalid method", Http.Call.doFailed 7 "EOF",
          Http.Call.responded 9 200]).TotalRequests) ∧
    (((Grpc.afterCalls [Grpc.Call.parseFailed "unexpected end of JSON input",
          Grpc.Call.invoked 4]).Latencies.length : Int)
        + ([Grpc.Call.parseFailed "unexpected end of JSON input",
            Grpc.Call.invoked 4].countP Grpc.Call.notIssued : Int)
      = (Grpc.afterCalls [Grpc.Call.parseFailed "unexpected end of JSON input",
          Grpc.Call.invoked 4]).TotalRequests) :=
  ⟨(latencies_length_add_notIssued
      [Http.Call.buildFailed "invalid method", Http.Call.doFailed 7 "EOF",
        Http.Call.responded 9 200]
      [Grpc.Call.parseFailed "unexpected end of JSON input", Grpc.Call.invoked 4]).1
      (by decide),
   (latencies_length_add_notIssued
      [Http.Call.buildFailed "invalid method", Http.Call.doFailed 7 "EOF",
        Http.Call.responded 9 200]
      [Grpc.Call.parseFailed "unexpected end of JSON input", Grpc.Call.invoked 4]).2
      (by decide)⟩

theorem Tally.incr_incrementedAt {κ : Type} [DecidableEq κ] (m : Tally κ) (k : κ) :
    Tally.IncrementedAt m (Tally.incr m k) k := by
  intro k'
  induction m with
  | nil =>
    by_cases h : k' = k
    · subst h; simp [Tally.incr, Tally.get]; decide
    · have h' : ¬ k = k' := fun e => h e.symm
      simp [Tally.incr, Tally.get, h, h']
  | cons p rest ih =>
    obtain ⟨k0, v⟩ := p
    by_cases h0 : k0 = k
    · subst h0
      by_cases h : k' = k0
      · subst h; simp [Tally.incr, Tally.get]
      · have h' : ¬ k0 = k' := fun e => h e.symm
        simp [Tally.incr, Tally.get, h, h']
    · by_cases h1 : k0 = k'
      · subst h1
        simp [Tally.incr, Tally.get, h0]
      · simp only [Tally.incr, Tally.get, h0, h1, if_false]
        exact ih

theorem wrap64_succ_ne (x : Int) : x ≠ wrap64 (x + 1) := by
  unfold wrap64; omega

/-- Counterexample to C9 as stated: an HTTP response with status 500 adds one to
the failed counter and leaves the `Errors` map as it was (the status is
tallied in `StatusCodes`); a gRPC error carrying the status code 14 does the same. -/
theorem failed_call_without_error_entry :
    (Http.makeRequest Http.newResults (Http.Call.responded 5 500)).FailedRequests = 1 ∧
    (Http.makeRequest Http.newResults (Http.Call.responded 5 500)).Errors
      = Http.newResults.Errors ∧
    (Grpc.makeRequest Grpc.newResults
        (Grpc.Call.invokeFailed 5 "unavailable" (some 14))).FailedRequests = 1 ∧
    (Grpc.makeRequest Grpc.newResults
        (Grpc.Call.invokeFailed 5 "unavailable" (some 14))).Errors
      = Grpc.newResults.Errors := by
  decide

/-- C9 (amended): every `makeRequest` call that increments the failed counter
increments exactly one tally entry by one.  It is the `Errors` entry of the
error text when the call ended with an error that has no status (HTTP request
construction or transport error; gRPC request-data parse failure or an error
from which no status is extracted), `StatusCodes` staying as it was; it is the
`StatusCodes` entry of the status otherwise (an HTTP response outside 2xx, a
gRPC error carrying a status code), `Errors` staying as it was. -/
theorem failed_call_tallied_once (r : Http.Results) (c : Http.Call)
    (g : Grpc.Results) (d : Grpc.Call) :
    ((Http.makeRequest r c).FailedRequests = wrap64 (r.FailedRequests + 1) →
     (∃ err, (c = Http.Call.buildFailed err ∨ ∃ l, c = Http.Call.doFailed l err) ∧
        Tally.IncrementedAt r.Errors (Http.makeRequest r c).Errors err ∧
        (Http.makeRequest r c).StatusCodes = r.StatusCodes) ∨
     (∃ l code, c = Http.Call.responded l code ∧ ¬ (code ≥ 200 ∧ code < 300) ∧
        Tally.IncrementedAt r.StatusCodes (Http.makeRequest r c).StatusCodes code ∧
        (Http.makeRequest r c).Errors = r.Errors)) ∧
    ((Grpc.makeRequest g d).FailedRequests = wrap64 (g.FailedRequests + 1) →
     (∃ err, (d = Grpc.Call.parseFailed err ∨ ∃ l, d = Grpc.Call.invokeFailed l err none) ∧
        Tally.IncrementedAt g.Errors (Grpc.makeRequest g d).Errors err ∧
        (Grpc.makeRequest g d).StatusCodes = g.StatusCodes) ∨
     (∃ l err code, d = Grpc.Call.invokeFailed l err (some code) ∧
        Tally.IncrementedAt g.StatusCodes (Grpc.makeRequest g d).StatusCodes code ∧
        (Grpc.makeRequest g d).Errors = g.Errors)) := by
  constructor
  · intro hc
    cases c with
    | buildFailed err =>
      exact Or.inl ⟨err, Or.inl rfl, Tally.incr_incrementedAt _ _, rfl⟩
    | doFailed latency err =>
      exact Or.inl ⟨err, Or.inr ⟨latency, rfl⟩, Tally.incr_incrementedAt _ _, rfl⟩
    | responded latency code =>
      by_cases h2 : code ≥ 200 ∧ code < 300
      · exfalso
        have : (Http.makeRequest r (Http.Call.responded latency code)).FailedRequests
            = r.FailedRequests := by
          simp [Http.makeRequest, h2]
        rw [this] at hc
        exact wrap64_succ_ne _ hc
      · refine Or.inr ⟨latency, code, rfl, h2, ?_, ?_⟩
        · have : (Http.makeRequest r (Http.Call.responded latency code)).StatusCodes
              = Tally.incr r.StatusCodes code := by
            unfold Http.makeRequest
            dsimp only
            split <;> rfl
          rw [this]
          exact Tally.incr_incrementedAt _ _
        · unfold Http.makeRequest
          dsimp only
          split <;> rfl
  · intro hd
    cases d with
    | parseFailed err =>
      exact Or.inl ⟨err, Or.inl rfl, Tally.incr_incrementedAt _ _, rfl⟩
    | invokeFailed latency err status =>
      cases status with
      | none =>
        exact Or.inl ⟨err, Or.inr ⟨latency, rfl⟩, Tally.incr_incrementedAt _ _, rfl⟩
      | some code =>
        exact Or.inr ⟨latency, err, code, rfl, Tally.incr_incrementedAt _ _, rfl⟩
    | invoked latency =>
      exfalso
      have : (Grpc.makeRequest g (Grpc.Call.invoked latency)).FailedRequests
          = g.FailedRequests := rfl
      rw [this] at hd
      exact wrap64_succ_ne _ hd

/-- Witness of C9 (amended): an HTTP response with status 503 recorded into a
fresh `Results` increments `StatusCodes[503]` and leaves `Errors` as it was. -/
theorem failed_call_tallied_once_witness :
    (∃ err, (Http.Call.responded 5 503 = Http.Call.buildFailed err ∨
          ∃ l, Http.Call.responded 5 503 = Http.Call.doFailed l err) ∧
        Tally.IncrementedAt Http.newResults.Errors
          (Http.makeRequest Http.newResults (Http.Call.responded 5 503)).Errors err ∧
        (Http.makeRequest Http.newResults (Http.Call.responded 5 503)).StatusCodes
          = Http.newResults.StatusCodes) ∨
    (∃ l code, Http.Call.responded 5 503 = Http.Call.responded l code ∧
        ¬ (code ≥ 200 ∧ code < 300) ∧
        Tally.IncrementedAt Http.newResults.StatusCodes
          (Http.makeRequest Http.newResults (Http.Call.responded 5 503)).StatusCodes code ∧
        (Http.makeRequest Http.newResults (Http.Call.responded 5 503)).Errors
          = Http.newResults.Errors) :=
  (failed_call_tallied_once Http.newResults (Http.Call.responded 5 503)
    Grpc.newResults (Grpc.Call.invokeFailed 5 "EOF" none)).1 (by decide)

namespace F64

theorem roundHalfEven_intCast (n : Int) : roundHalfEven (n : ℚ) = n := by
  simp [roundHalfEven]

theorem roundHalfEven_err (y : ℚ) : |(roundHalfEven y : ℚ) - y| ≤ 1 / 2 := by
  have h1 : (⌊y⌋ : ℚ) ≤ y := Int.floor_le y
  have h2 : y < (⌊y⌋ : ℚ) + 1 := Int.lt_floor_add_one y
  unfold roundHalfEven
  rw [abs_le]
  split_ifs with ha hb hc
  · constructor <;> linarith
  · push_cast; constructor <;> linarith
  · constructor <;> linarith
  · push_cast; constructor <;> linarith

theorem exponent_spec (q : ℚ) (hq : q ≠ 0) :
    (2 : ℚ) ^ exponent q ≤ |q| ∧ |q| < (2 : ℚ) ^ (exponent q + 1) := by
  have hpos : 0 < |q| := abs_pos.2 hq
  have h1 := @Int.zpow_log_le_self ℚ _ _ 2 |q| (by decide) hpos
  have h2 := @Int.lt_zpow_succ_log_self ℚ _ _ 2 (by decide) |q|
  exact ⟨by exact_mod_cast h1, by exact_mod_cast h2⟩

theorem exponent_eq (q : ℚ) (e : Int) (h1 : (2 : ℚ) ^ e ≤ |q|) (h2 : |q| < (2 : ℚ) ^ (e + 1)) :
    exponent q = e := by
  have hpos : 0 < |q| := lt_of_lt_of_le (zpow_pos (by norm_num) e) h1
  have a : e ≤ Int.log 2 |q| :=
    (@Int.zpow_le_iff_le_log ℚ _ _ 2 (by decide) e |q| hpos).1 (by exact_mod_cast h1)
  have b : Int.log 2 |q| < e + 1 :=
    (@Int.lt_zpow_iff_log_lt ℚ _ _ 2 (by decide) (e + 1) |q| hpos).1 (by exact_mod_cast h2)
  unfold exponent
  omega

theorem ulp_pos (q : ℚ) : 0 < ulp q := zpow_pos (by norm_num) _

theorem nearest_zero : nearest 0 = 0 := by
  simp [nearest, roundHalfEven]

theorem nearest_of_exponent (q : ℚ) (e : Int) (he : -1022 ≤ e)
    (h1 : (2 : ℚ) ^ e ≤ |q|) (h2 : |q| < (2 : ℚ) ^ (e + 1)) :
    nearest q = (roundHalfEven (q / (2 : ℚ) ^ (e - 52)) : ℚ) * (2 : ℚ) ^ (e - 52) := by
  unfold nearest ulp
  rw [exponent_eq q e h1 h2, max_eq_left he]

theorem two_zpow_ne_zero (z : Int) : (2 : ℚ) ^ z ≠ 0 := zpow_ne_zero z (by norm_num)

/-- A rational `m * 2^j` with `|m| < 2^53` and `j ≥ -1074` is a `float64`:
rounding returns it unchanged. -/
theorem nearest_exact (m j : Int) (hm : |m| < 9007199254740992) (hj : -1074 ≤ j) :
    nearest ((m : ℚ) * (2 : ℚ) ^ j) = (m : ℚ) * (2 : ℚ) ^ j := by
  by_cases h0 : m = 0
  · subst h0; simp [nearest_zero]
  have hq : (m : ℚ) * (2 : ℚ) ^ j ≠ 0 :=
    mul_ne_zero (by exact_mod_cast h0) (two_zpow_ne_zero j)
  obtain ⟨h1, _⟩ := exponent_spec _ hq
  have habs : |(m : ℚ) * (2 : ℚ) ^ j| < (2 : ℚ) ^ (53 + j) := by
    rw [abs_mul, abs_of_pos (zpow_pos (by norm_num : (0 : ℚ) < 2) j), zpow_add₀ (by norm_num)]
    have : |(m : ℚ)| < (2 : ℚ) ^ (53 : Int) := by
      have : ((|m| : Int) : ℚ) < 9007199254740992 := by exact_mod_cast hm
      rw [Int.cast_abs] at this
      norm_num
      exact this
    exact mul_lt_mul_of_pos_right this (zpow_pos (by norm_num) j)
  have he : exponent ((m : ℚ) * (2 : ℚ) ^ j) < 53 + j :=
    (zpow_lt_zpow_iff_right₀ (by norm_num : (1 : ℚ) < 2)).1 (lt_of_le_of_lt h1 habs)
  have ht : max (exponent ((m : ℚ) * (2 : ℚ) ^ j)) (-1022) - 52 ≤ j := by
    rcases max_cases (exponent ((m : ℚ) * (2 : ℚ) ^ j)) (-1022) with ⟨h, _⟩ | ⟨h, _⟩ <;>
      rw [h] <;> omega
  unfold nearest ulp
  generalize max (exponent ((m : ℚ) * (2 : ℚ) ^ j)) (-1022) - 52 = t at ht
  obtain ⟨d, hd⟩ : ∃ d : Nat, j = t + d := ⟨(j - t).toNat, by omega⟩
  have hdiv : (m : ℚ) * (2 : ℚ) ^ j / (2 : ℚ) ^ t = ((m * 2 ^ d : Int) : ℚ) := by
    rw [hd, zpow_add₀ (by norm_num), zpow_natCast, div_eq_iff (two_zpow_ne_zero t)]
    push_cast
    ring
  rw [hdiv, roundHalfEven_intCast, hd, zpow_add₀ (by norm_num), zpow_natCast]
  push_cast
  ring

theorem nearest_intCast (n : Int) (h : |n| ≤ 9007199254740992) : nearest (n : ℚ) = n := by
  rcases lt_or_eq_of_le h with h | h
  · have := nearest_exact n 0 h (by decide)
    simpa using this
  · rcases abs_eq (by decide : (0 : Int) ≤ 9007199254740992) |>.1 h with h | h
    · subst h
      have := nearest_exact 1 53 (by decide) (by decide)
      norm_num at this ⊢
      exact this
    · subst h
      have := nearest_exact (-1) 53 (by decide) (by decide)
      norm_num at this ⊢
      exact this

theorem ofInt_eq (n : Int) (h : |n| ≤ 9007199254740992) : ofInt n = n := nearest_intCast n h

/-- Rounding to `float64` moves a value by at most half a unit in the last place:
by `2^-53` of its magnitude, or by `2^-1075` in the subnormal range. -/
theorem nearest_err (q : ℚ) :
    |nearest q - q| ≤ |q| / 9007199254740992 + (2 : ℚ) ^ (-1075 : Int) := by
  by_cases hq : q = 0
  · subst hq
    rw [nearest_zero]
    simp
    positivity
  have hu := ulp_pos q
  have hr := roundHalfEven_err (q / ulp q)
  have e1 : nearest q - q = ((roundHalfEven (q / ulp q) : ℚ) - q / ulp q) * ulp q := by
    unfold nearest
    field_simp
  have hle : |nearest q - q| ≤ ulp q / 2 := by
    rw [e1, abs_mul, abs_of_pos hu]
    calc |(roundHalfEven (q / ulp q) : ℚ) - q / ulp q| * ulp q ≤ 1 / 2 * ulp q :=
          mul_le_mul_of_nonneg_right hr (le_of_lt hu)
      _ = ulp q / 2 := by ring
  obtain ⟨h1, _⟩ := exponent_spec q hq
  have hulp : ulp q / 2 ≤ |q| / 9007199254740992 + (2 : ℚ) ^ (-1075 : Int) := by
    unfold ulp
    rcases max_cases (exponent q) (-1022) with ⟨h, _⟩ | ⟨h, _⟩
    · rw [h]
      have : (2 : ℚ) ^ (exponent q - 52) / 2 = (2 : ℚ) ^ exponent q / 9007199254740992 := by
        rw [zpow_sub₀ (by norm_num)]
        norm_num
        ring
      rw [this]
      have : (2 : ℚ) ^ exponent q / 9007199254740992 ≤ |q| / 9007199254740992 :=
        div_le_div_of_nonneg_right h1 (by norm_num)
      have : (0 : ℚ) < (2 : ℚ) ^ (-1075 : Int) := zpow_pos (by norm_num) _
      linarith
    · rw [h]
      have : (2 : ℚ) ^ ((-1022 : Int) - 52) / 2 = (2 : ℚ) ^ (-1075 : Int) := by
        rw [show ((-1022 : Int) - 52) = (-1075 : Int) + 1 by norm_num,
          zpow_add₀ (by norm_num)]
        norm_num
      rw [this]
      have : (0 : ℚ) ≤ |q| / 9007199254740992 := by positivity
      linarith
  exact le_trans hle hulp

end F64

namespace F64

theorem Round_intCast (n : Int) : Round (n : ℚ) = n := by
  unfold Round
  split
  · have : ⌊(n : ℚ) + 1 / 2⌋ = n := by
      rw [Int.floor_eq_iff]
      constructor <;> norm_num
    rw [this]
  · have : ⌊-(n : ℚ) + 1 / 2⌋ = -n := by
      rw [Int.floor_eq_iff]
      constructor <;> push_cast <;> norm_num
    rw [this]
    push_cast
    ring

theorem toInt_intCast (n : Int) (h1 : -9223372036854775808 ≤ n)
    (h2 : n < 9223372036854775808) : toInt (n : ℚ) = n := by
  unfold toInt
  have : (if (0 : ℚ) ≤ (n : ℚ) then ⌊(n : ℚ)⌋ else -⌊-(n : ℚ)⌋) = n := by
    split
    · exact Int.floor_intCast n
    · rw [← Int.cast_neg, Int.floor_intCast]; omega
  simp only [this]
  rw [if_pos ⟨h1, h2⟩]

/-- Rounding a value to the nearest integer gives an integer at most one half
away. -/
theorem Round_spec (x : ℚ) : ∃ n : Int, Round x = n ∧ |(n : ℚ) - x| ≤ 1 / 2 := by
  unfold Round
  split
  · refine ⟨⌊x + 1 / 2⌋, rfl, ?_⟩
    have h1 := Int.floor_le (x + 1 / 2)
    have h2 := Int.lt_floor_add_one (x + 1 / 2)
    rw [abs_le]
    constructor <;> linarith
  · refine ⟨-⌊-x + 1 / 2⌋, by push_cast; rfl, ?_⟩
    have h1 := Int.floor_le (-x + 1 / 2)
    have h2 := Int.lt_floor_add_one (-x + 1 / 2)
    rw [abs_le]
    push_cast
    constructor <;> linarith

theorem nearest_half (m : Int) (h : |m| ≤ 9007199254740992) :
    nearest ((m : ℚ) / 2) = (m : ℚ) / 2 := by
  rcases lt_or_eq_of_le h with h | h
  · have := nearest_exact m (-1) h (by decide)
    rw [show (2 : ℚ) ^ (-1 : Int) = 1 / 2 by norm_num] at this
    rw [show (m : ℚ) / 2 = (m : ℚ) * (1 / 2) by ring]
    exact this
  · rcases abs_eq (by decide : (0 : Int) ≤ 9007199254740992) |>.1 h with h | h
    · subst h
      have := nearest_exact 1 52 (by decide) (by decide)
      norm_num at this ⊢
      exact this
    · subst h
      have := nearest_exact (-1) 52 (by decide) (by decide)
      norm_num at this ⊢
      exact this

/-- The value of `math.Round` at a half-integer `m / 2`, in integer arithmetic. -/
theorem Round_half (m : Int) :
    Round ((m : ℚ) / 2) = ((if 0 ≤ m then (m + 1) / 2 else -((1 - m) / 2) : Int) : ℚ) := by
  unfold Round
  by_cases hm : 0 ≤ m
  · have h0 : (0 : ℚ) ≤ (m : ℚ) / 2 := by
      have : (0 : ℚ) ≤ (m : ℚ) := by exact_mod_cast hm
      positivity
    rw [if_pos h0, if_pos hm]
    have : (m : ℚ) / 2 + 1 / 2 = ((m + 1 : Int) : ℚ) / ((2 : Nat) : ℚ) := by
      push_cast; ring
    rw [this, Rat.floor_intCast_div_natCast]
    rfl
  · have h0 : ¬ (0 : ℚ) ≤ (m : ℚ) / 2 := by
      have : (m : ℚ) < 0 := by exact_mod_cast (not_le.1 hm)
      intro h
      linarith
    rw [if_neg h0, if_neg hm]
    have : -((m : ℚ) / 2) + 1 / 2 = ((1 - m : Int) : ℚ) / ((2 : Nat) : ℚ) := by
      push_cast; ring
    rw [this, Rat.floor_intCast_div_natCast]
    push_cast
    rfl

end F64

namespace F64

theorem nearest_eval (q : ℚ) (e n : Int) (he : -1022 ≤ e)
    (h1 : (2 : ℚ) ^ e ≤ |q|) (h2 : |q| < (2 : ℚ) ^ (e + 1))
    (hn : roundHalfEven (q / (2 : ℚ) ^ (e - 52)) = n) :
    nearest q = (n : ℚ) * (2 : ℚ) ^ (e - 52) := by
  rw [nearest_of_exponent q e he h1 h2, hn]

theorem roundHalfEven_eval (y : ℚ) (f n : Int) (hf : ⌊y⌋ = f)
    (hn : (if y - f < 1 / 2 then f else if 1 / 2 < y - f then f + 1
      else if f % 2 = 0 then f else f + 1) = n) : roundHalfEven y = n := by
  unfold roundHalfEven
  rw [hf]
  exact hn

theorem ofInt_two_pow_53_add_one : ofInt 9007199254740993 = 9007199254740992 := by
  unfold ofInt
  rw [nearest_eval _ 53 4503599627370496 (by decide) (by norm_num [abs_of_pos])
    (by norm_num [abs_of_pos])]
  · norm_num
  · apply roundHalfEven_eval _ 4503599627370496
    · rw [Int.floor_eq_iff]; norm_num
    · norm_num

theorem nearest_seven_tenths :
    nearest (7 / 10) = 3152519739159347 / 4503599627370496 := by
  rw [nearest_eval _ (-1) 6305039478318694 (by decide) (by norm_num [abs_of_pos])
    (by norm_num [abs_of_pos])]
  · norm_num
  · apply roundHalfEven_eval _ 6305039478318694
    · rw [Int.floor_eq_iff]; norm_num
    · norm_num

theorem nearest_forty_five_times :
    nearest (45 * (3152519739159347 / 4503599627370496))
      = 8866461766385663 / 281474976710656 := by
  rw [nearest_eval _ 4 8866461766385663 (by decide) (by norm_num [abs_of_pos])
    (by norm_num [abs_of_pos])]
  · norm_num
  · apply roundHalfEven_eval _ 8866461766385663
    · rw [Int.floor_eq_iff]; norm_num
    · norm_num

end F64

namespace Patterns

theorem ofInt_zero : F64.ofInt 0 = 0 := by
  unfold F64.ofInt
  rw [Int.cast_zero, F64.nearest_zero]

theorem seconds_zero : Seconds 0 = 0 := by
  have h1 : Int.tdiv 0 Second = 0 := by decide
  have h2 : Int.tmod 0 Second = 0 := by decide
  unfold Seconds F64.add F64.div
  rw [h1, h2, ofInt_zero, zero_div, F64.nearest_zero, add_zero, F64.nearest_zero]

theorem seconds_whole (e : Int) (he : |e| ≤ 9007199254740992) :
    Seconds (e * Second) = e := by
  have h1 : Int.tdiv (e * Second) Second = e := Int.mul_tdiv_cancel e (by decide)
  have h2 : Int.tmod (e * Second) Second = 0 := Int.mul_tmod_left e Second
  unfold Seconds F64.add F64.div
  rw [h1, h2, ofInt_zero, zero_div, F64.nearest_zero, add_zero, F64.ofInt_eq e he,
    F64.nearest_intCast e he]

/-- The conversion `int(d.Seconds())` of a whole number of seconds is that number. -/
theorem toInt_seconds_whole_eq (e : Int) (he : |e| ≤ 9007199254740992) :
    F64.toInt (Seconds (e * Second)) = e := by
  have h := abs_le.1 he
  rw [seconds_whole e he, F64.toInt_intCast e (by omega) (by omega)]

theorem secondsInt_whole (e : Int) : secondsInt (e * Second) = e := by
  unfold secondsInt
  split_ifs with h
  · apply toInt_seconds_whole_eq
    unfold Second at h
    rw [abs_le]
    constructor <;> omega
  · unfold Second
    exact Int.mul_tdiv_cancel e (by decide)

/-- The conversion `int(d.Seconds())` of the `float64` model agrees with
`secondsInt` on a duration of a whole number of seconds. -/
theorem toInt_seconds_whole (e : Int) (he : |e| ≤ 9007199254740992) :
    F64.toInt (Seconds (e * Second)) = secondsInt (e * Second) := by
  rw [toInt_seconds_whole_eq e he, secondsInt_whole]

end Patterns

namespace Patterns

theorem tdiv_bounds (s e : Int) (hs : 0 ≤ s) (he : 0 < e) :
    0 ≤ Int.tdiv s e ∧ Int.tdiv s e ≤ s := by
  rw [Int.tdiv_eq_ediv hs (Int.le_of_lt he)]
  constructor
  · exact Int.ediv_nonneg hs (Int.le_of_lt he)
  · exact Int.ediv_le_self _ hs

end Patterns

namespace Patterns

theorem stepLoad_rps_wrap (a d e s : Int) (he : 0 ≤ e) (hs : 0 ≤ s)
    (hs64 : s < 9223372036854775808) :
    (NewStepLoad a d (e * Second)).RPS s
      = wrap64 (a + s / (if e = 0 then 10 else e) * d) := by
  have hpos : 0 < (if e = 0 then 10 else e) := by
    split
    · decide
    · omega
  have hdiv : Int.tdiv s (if e = 0 then 10 else e) = s / (if e = 0 then 10 else e) :=
    Int.tdiv_eq_ediv hs (Int.le_of_lt hpos)
  obtain ⟨h1, h2⟩ := tdiv_bounds s _ hs hpos
  unfold StepLoad.RPS NewStepLoad
  dsimp only
  rw [secondsInt_whole, wrap64_of_range (Int.tdiv s _) (by omega) (by omega),
    wrap64_add_right, hdiv]

/-- C11: for a spike pattern with base rate `b`, spike rate `k` and a period of
`e > 0` whole seconds, and every second `s ≥ 0`: `RPS(s) = k` when `s mod e` is
0, 1 or 2, and `RPS(s) = b` otherwise. -/
theorem spikeLoad_rps (b k e s : Int) (he : 0 < e) (hs : 0 ≤ s) :
    (NewSpikeLoad b k (e * Second)).RPS s
      = if s % e = 0 ∨ s % e = 1 ∨ s % e = 2 then k else b := by
  have hne : ¬ e = 0 := by omega
  have hmod : Int.tmod s e = s % e := Int.tmod_eq_emod hs (Int.le_of_lt he)
  have hnn : 0 ≤ s % e := Int.emod_nonneg s (by omega)
  unfold SpikeLoad.RPS NewSpikeLoad
  dsimp only
  rw [secondsInt_whole, if_neg hne, hmod]
  generalize s % e = m at hnn
  by_cases h : m < 3
  · rw [if_pos h, if_pos (by omega)]
  · rw [if_neg h, if_neg (by omega)]

/-- Witness of C11: base 10, spike 100, period 10 s, at second 21. -/
theorem spikeLoad_rps_witness :
    (0 : Int) < 10 ∧ (0 : Int) ≤ 21 ∧
    (NewSpikeLoad 10 100 (10 * Second)).RPS 21
      = if (21 : Int) % 10 = 0 ∨ (21 : Int) % 10 = 1 ∨ (21 : Int) % 10 = 2 then 100 else 10 :=
  ⟨by decide, by decide, spikeLoad_rps 10 100 10 21 (by decide) (by decide)⟩

/-- Counterexample to C14 as stated: with start rate and step size `2^62` and an
interval of one second, the `int` addition at second 1 wraps around:
`RPS(1) = -2^63`, while `a + d * floor(s / E)` is `2^63`. -/
theorem stepLoad_rps_wraps :
    (NewStepLoad 4611686018427387904 4611686018427387904 (1 * Second)).RPS 1
      = -9223372036854775808 ∧
    (4611686018427387904 : Int) + 4611686018427387904 * (1 / 1) = 9223372036854775808 := by
  unfold StepLoad.RPS NewStepLoad
  simp only [secondsInt_whole]
  decide

/-- C14 (amended): for a step pattern with start rate `a`, step size `d` and an
interval of `e > 0` whole seconds, and every second `s ≥ 0` of the `int` range,
`RPS(s)` is `a + d * floor(s / e)` computed in 64-bit `int` arithmetic: the
wrap-around of that value, and the value itself whenever it lies in the `int`
range. -/
theorem stepLoad_rps (a d e s : Int) (he : 0 < e) (hs : 0 ≤ s)
    (hs64 : s < 9223372036854775808) :
    (NewStepLoad a d (e * Second)).RPS s = wrap64 (a + d * (s / e)) ∧
    (-9223372036854775808 ≤ a + d * (s / e) → a + d * (s / e) < 9223372036854775808 →
      (NewStepLoad a d (e * Second)).RPS s = a + d * (s / e)) := by
  have hne : ¬ e = 0 := by omega
  have h := stepLoad_rps_wrap a d e s (Int.le_of_lt he) hs hs64
  rw [if_neg hne, Int.mul_comm (s / e) d] at h
  refine ⟨h, fun h1 h2 => ?_⟩
  rw [h, wrap64_of_range _ h1 h2]

/-- Witness of C14 (amended): start 10, step 5, interval 10 s, at second 25. -/
theorem stepLoad_rps_witness :
    (0 : Int) < 10 ∧ (0 : Int) ≤ 25 ∧
    (NewStepLoad 10 5 (10 * Second)).RPS 25 = 10 + 5 * (25 / 10) :=
  ⟨by decide, by decide,
   (stepLoad_rps 10 5 10 25 (by decide) (by decide) (by decide)).2 (by decide) (by decide)⟩

/-- Counterexample to C15 as stated: with step size `2^62 > 0` and an interval of
one second the rate falls from `2^62` at second 1 to `-2^63` at second 2 (the
`int` addition wraps around); and with step size 10 and an interval of minus
one second the rate falls from 100 at second 0 to 90 at second 1. -/
theorem stepLoad_not_monotone :
    (NewStepLoad 0 4611686018427387904 (1 * Second)).RPS 1 = 4611686018427387904 ∧
    (NewStepLoad 0 4611686018427387904 (1 * Second)).RPS 2 = -9223372036854775808 ∧
    (NewStepLoad 100 10 (-1 * Second)).RPS 0 = 100 ∧
    (NewStepLoad 100 10 (-1 * Second)).RPS 1 = 90 := by
  unfold StepLoad.RPS NewStepLoad
  simp only [secondsInt_whole]
  decide

/-- C15 (amended): a step pattern with a step size `d > 0` and an interval of
`e ≥ 0` whole seconds (`0` standing for 10) is non-decreasing as long as the
rate stays in the `int` range: for seconds `0 ≤ s1 ≤ s2` with the start rate
at least `-2^63` and `a + floor(s2 / e) * d` below `2^63`,
`RPS(s1) ≤ RPS(s2)`. -/
theorem stepLoad_monotone (a d e s1 s2 : Int) (hd : 0 < d) (he : 0 ≤ e)
    (h1 : 0 ≤ s1) (h12 : s1 ≤ s2) (hs64 : s2 < 9223372036854775808)
    (ha : -9223372036854775808 ≤ a)
    (hfit : a + s2 / (if e = 0 then 10 else e) * d < 9223372036854775808) :
    (NewStepLoad a d (e * Second)).RPS s1 ≤ (NewStepLoad a d (e * Second)).RPS s2 := by
  have hpos : 0 < (if e = 0 then 10 else e) := by
    split
    · decide
    · omega
  have hq1 : 0 ≤ s1 / (if e = 0 then 10 else e) := Int.ediv_nonneg h1 (Int.le_of_lt hpos)
  have hq : s1 / (if e = 0 then 10 else e) ≤ s2 / (if e = 0 then 10 else e) :=
    Int.ediv_le_ediv hpos h12
  have hm : s1 / (if e = 0 then 10 else e) * d ≤ s2 / (if e = 0 then 10 else e) * d :=
    Int.mul_le_mul_of_nonneg_right hq (Int.le_of_lt hd)
  have hm0 : 0 ≤ s1 / (if e = 0 then 10 else e) * d := Int.mul_nonneg hq1 (Int.le_of_lt hd)
  rw [stepLoad_rps_wrap a d e s1 he h1 (by omega),
    stepLoad_rps_wrap a d e s2 he (by omega) hs64,
    wrap64_of_range _ (by omega) (by omega), wrap64_of_range _ (by omega) (by omega)]
  omega

/-- Witness of C15 (amended): start 10, step 5, interval 10 s, seconds 7 and 25. -/
theorem stepLoad_monotone_witness :
    (0 : Int) < 5 ∧ (7 : Int) ≤ 25 ∧
    (NewStepLoad 10 5 (10 * Second)).RPS 7 ≤ (NewStepLoad 10 5 (10 * Second)).RPS 25 :=
  ⟨by decide, by decide,
   stepLoad_monotone 10 5 10 7 25 (by decide) (by decide) (by decide) (by decide)
     (by decide) (by decide) (by decide)⟩

end Patterns

namespace Http

theorem requestedTokens_succ (pattern : Int → Int) (k : Nat) :
    requestedTokens pattern (k + 1) = requestedTokens pattern k + (pattern (k : Int)).toNat := by
  simp [requestedTokens, List.range_succ]

theorem range_map_ofNat_succ (n : Nat) :
    (List.range (n + 1)).map Int.ofNat = (List.range n).map Int.ofNat ++ [(n : Int)] := by
  simp [List.range_succ]

theorem pacerStep_inv (pattern : Int → Int) (st : PacerState) (ev : PacerEvent)
    (hev : ev ≠ PacerEvent.cancelled)
    (hlen : (st.queried.length : Int) + (if ev = PacerEvent.tick then 1 else 0)
      < 9223372036854775808)
    (h : PacerInv pattern st) : PacerInv pattern (pacerStep pattern st ev) := by
  obtain ⟨cs, mode, queried, admitted, closes⟩ := st
  obtain ⟨hcl, hq, hm⟩ := h
  dsimp only at hcl hq hm hlen
  cases mode with
  | returned => exact hm.elim
  | waiting =>
    obtain ⟨hcs, had⟩ := hm
    cases ev with
    | cancelled => exact absurd rfl hev
    | accepted => exact ⟨hcl, hq, hcs, had⟩
    | tick =>
      simp only [if_true] at hlen
      have hq' : queried ++ [cs]
          = (List.range (queried ++ [cs]).length).map Int.ofNat := by
        rw [List.length_append, List.length_singleton, range_map_ofNat_succ, ← hq, hcs]
      by_cases hr : 0 < pattern cs
      · have e : pacerStep pattern ⟨cs, .waiting, queried, admitted, closes⟩ .tick
            = ⟨cs, .admitting 0 (pattern cs), queried ++ [cs], admitted, closes⟩ := by
          simp [pacerStep, innerLoopHead, hr]
        rw [e]
        refine ⟨hcl, hq', rfl, Int.le_refl 0, hr, (by show 0 ≤ cs; omega), ?_, ?_⟩
        · simp [hcs]
        · simp [had]
      · have e : pacerStep pattern ⟨cs, .waiting, queried, admitted, closes⟩ .tick
            = ⟨wrap64 (cs + 1), .waiting, queried ++ [cs], admitted, closes⟩ := by
          simp [pacerStep, innerLoopHead, hr]
        rw [e]
        refine ⟨hcl, hq', ?_, ?_⟩
        · show wrap64 (cs + 1) = ((queried ++ [cs]).length : Int)
          rw [wrap64_of_range _ (by omega) (by omega)]
          simp [hcs]
        · show admitted = requestedTokens pattern (queried ++ [cs]).length
          rw [List.length_append, List.length_singleton, requestedTokens_succ, ← had, ← hcs]
          have : (pattern cs).toNat = 0 := by omega
          omega
  | admitting i rps =>
    obtain ⟨hrps, hi0, hi, hcs0, hL, had⟩ := hm
    cases ev with
    | cancelled => exact absurd rfl hev
    | tick => exact ⟨hcl, hq, hrps, hi0, hi, hcs0, hL, had⟩
    | accepted =>
      simp only [reduceCtorEq, if_false, Int.add_zero] at hlen
      by_cases hr : i + 1 < rps
      · have e : pacerStep pattern ⟨cs, .admitting i rps, queried, admitted, closes⟩ .accepted
            = ⟨cs, .admitting (i + 1) rps, queried, admitted + 1, closes⟩ := by
          simp [pacerStep, innerLoopHead, hr]
        rw [e]
        refine ⟨hcl, hq, hrps, by omega, hr, hcs0, hL, ?_⟩
        show ((admitted + 1 : Nat) : Int) = _
        push_cast
        omega
      · have e : pacerStep pattern ⟨cs, .admitting i rps, queried, admitted, closes⟩ .accepted
            = ⟨wrap64 (cs + 1), .waiting, queried, admitted + 1, closes⟩ := by
          simp [pacerStep, innerLoopHead, hr]
        rw [e]
        have hLpos : queried.length = (queried.length - 1) + 1 := by omega
        have hcs : cs = ((queried.length - 1 : Nat) : Int) := by omega
        refine ⟨hcl, hq, ?_, ?_⟩
        · show wrap64 (cs + 1) = (queried.length : Int)
          rw [wrap64_of_range _ (by omega) (by omega)]
          omega
        · show admitted + 1 = requestedTokens pattern queried.length
          rw [hLpos, requestedTokens_succ, ← hcs, ← hrps]
          have : (rps.toNat : Int) = rps := Int.toNat_of_nonneg (by omega)
          omega

theorem pacerStep_queried_length (pattern : Int → Int) (st : PacerState) (ev : PacerEvent) :
    (pacerStep pattern st ev).queried.length
      ≤ st.queried.length + (if ev = PacerEvent.tick then 1 else 0) := by
  obtain ⟨cs, mode, queried, admitted, closes⟩ := st
  cases mode <;> cases ev <;> simp [pacerStep, innerLoopHead] <;> split <;> simp

theorem pacerRun_append (pattern : Int → Int) (evs evs' : List PacerEvent) :
    pacerRun pattern (evs ++ evs') = evs'.foldl (pacerStep pattern) (pacerRun pattern evs) := by
  simp [pacerRun, List.foldl_append]

theorem pacerRun_inv (pattern : Int → Int) (events : List PacerEvent) :
    PacerEvent.cancelled ∉ events →
      (events.count PacerEvent.tick : Int) < 9223372036854775808 →
      PacerInv pattern (pacerRun pattern events) ∧
        (pacerRun pattern events).queried.length ≤ events.count PacerEvent.tick := by
  induction events using List.reverseRecOn with
  | nil =>
    intro _ _
    refine ⟨⟨rfl, rfl, rfl, rfl⟩, Nat.le_refl _⟩
  | append_singleton evs ev ih =>
    intro hc hlen
    have hc' : PacerEvent.cancelled ∉ evs := fun h => hc (List.mem_append_left _ h)
    have hev : ev ≠ PacerEvent.cancelled := by
      intro h
      exact hc (by simp [h])
    rw [List.count_append] at hlen
    push_cast at hlen
    obtain ⟨hinv, hle⟩ := ih hc' (by omega)
    have hstep := pacerStep_queried_length pattern (pacerRun pattern evs) ev
    rw [pacerRun_append, List.foldl_cons, List.foldl_nil, List.count_append]
    by_cases ht : ev = PacerEvent.tick
    · subst ht
      simp only [List.count_singleton_self, Nat.cast_one, if_true] at hlen hstep ⊢
      exact ⟨pacerStep_inv pattern _ _ hev (by simp only [if_true]; omega) hinv, by omega⟩
    · rw [if_neg ht] at hstep
      have h0 : [ev].count PacerEvent.tick = 0 := by
        simp [List.count_singleton, ht]
      rw [h0]
      cases ev with
      | tick => exact absurd rfl ht
      | cancelled => exact absurd rfl hev
      | accepted =>
        refine ⟨?_, by omega⟩
        obtain ⟨hcl, hq, hm⟩ := hinv
        cases hmode : (pacerRun pattern evs).mode with
        | returned => rw [hmode] at hm; exact hm.elim
        | waiting =>
          have e : pacerStep pattern (pacerRun pattern evs) .accepted = pacerRun pattern evs := by
            simp [pacerStep, hmode]
          rw [e]
          exact ⟨hcl, hq, hm⟩
        | admitting i rps =>
          rw [hmode] at hm
          have hb : ((pacerRun pattern evs).queried.length : Int)
              + (if PacerEvent.accepted = PacerEvent.tick then 1 else 0)
              < 9223372036854775808 := by
            simp only [reduceCtorEq, if_false, Int.add_zero]
            omega
          exact pacerStep_inv pattern _ _ hev hb ⟨hcl, hq, by rw [hmode]; exact hm⟩

theorem foldl_accepted (pattern : Int → Int) :
    ∀ (m : Nat) (st : PacerState) (i rps : Int), st.mode = PacerMode.admitting i rps →
      i + (m : Int) + 1 = rps →
      ((List.replicate (m + 1) PacerEvent.accepted).foldl (pacerStep pattern) st).mode
          = PacerMode.waiting ∧
      ((List.replicate (m + 1) PacerEvent.accepted).foldl (pacerStep pattern) st).queried
          = st.queried := by
  intro m
  induction m with
  | zero =>
    intro st i rps hmode hsum
    obtain ⟨cs, mode, queried, admitted, closes⟩ := st
    dsimp only at hmode
    subst hmode
    have hr : ¬ i + 1 < rps := by omega
    simp [pacerStep, innerLoopHead, hr]
  | succ m ih =>
    intro st i rps hmode hsum
    obtain ⟨cs, mode, queried, admitted, closes⟩ := st
    dsimp only at hmode
    subst hmode
    have hr : i + 1 < rps := by push_cast at hsum; omega
    rw [List.replicate_succ, List.foldl_cons]
    have e : pacerStep pattern ⟨cs, .admitting i rps, queried, admitted, closes⟩ .accepted
        = ⟨cs, .admitting (i + 1) rps, queried, admitted + 1, closes⟩ := by
      simp [pacerStep, innerLoopHead, hr]
    rw [e]
    exact ih _ (i + 1) rps rfl (by push_cast at hsum; omega)

theorem ticksProcessed_succ (pattern : Int → Int) (k : Nat) :
    ticksProcessed pattern (k + 1) = ticksProcessed pattern k ++
      (PacerEvent.tick :: List.replicate (pattern (k : Int)).toNat PacerEvent.accepted) := by
  simp [ticksProcessed, List.range_succ, List.flatMap_append]

theorem ticksProcessed_count (pattern : Int → Int) (k : Nat) :
    (ticksProcessed pattern k).count PacerEvent.tick = k ∧
      PacerEvent.cancelled ∉ ticksProcessed pattern k := by
  induction k with
  | zero => simp [ticksProcessed]
  | succ k ih =>
    rw [ticksProcessed_succ]
    constructor
    · rw [List.count_append, ih.1]
      simp [List.count_cons, List.count_replicate]
    · intro h
      rcases List.mem_append.1 h with h | h
      · exact ih.2 h
      · rcases List.mem_cons.1 h with h | h
        · cases h
        · have := List.eq_of_mem_replicate h
          cases this

theorem pacerRun_ticksProcessed (pattern : Int → Int) (k : Nat)
    (hk : (k : Int) < 9223372036854775808) :
    (pacerRun pattern (ticksProcessed pattern k)).mode = PacerMode.waiting ∧
      (pacerRun pattern (ticksProcessed pattern k)).queried.length = k := by
  induction k with
  | zero => exact ⟨rfl, rfl⟩
  | succ k ih =>
    have hk' : (k : Int) < 9223372036854775808 := by push_cast at hk; omega
    obtain ⟨hmode, hlen⟩ := ih hk'
    obtain ⟨hcount, hnc⟩ := ticksProcessed_count pattern k
    obtain ⟨⟨_, _, hm⟩, _⟩ := pacerRun_inv pattern (ticksProcessed pattern k) hnc
      (by rw [hcount]; exact hk')
    rw [hmode] at hm
    obtain ⟨hcs, _⟩ := hm
    rw [hlen] at hcs
    rw [ticksProcessed_succ, pacerRun_append, List.foldl_cons]
    generalize pacerRun pattern (ticksProcessed pattern k) = st at hmode hlen hcs
    obtain ⟨cs, mode, queried, admitted, closes⟩ := st
    dsimp only at hmode hlen hcs
    subst hmode hcs
    by_cases hr : 0 < pattern (k : Int)
    · have e : pacerStep pattern ⟨(k : Int), .waiting, queried, admitted, closes⟩ .tick
          = ⟨(k : Int), .admitting 0 (pattern (k : Int)), queried ++ [(k : Int)],
              admitted, closes⟩ := by
        simp [pacerStep, innerLoopHead, hr]
      rw [e]
      obtain ⟨m, hm⟩ : ∃ m : Nat, (pattern (k : Int)).toNat = m + 1 :=
        ⟨(pattern (k : Int)).toNat - 1, by omega⟩
      rw [hm]
      obtain ⟨h1, h2⟩ := foldl_accepted pattern m
        ⟨(k : Int), .admitting 0 (pattern (k : Int)), queried ++ [(k : Int)], admitted, closes⟩
        0 (pattern (k : Int)) rfl (by omega)
      refine ⟨h1, ?_⟩
      rw [h2]
      simp [hlen]
    · have e : pacerStep pattern ⟨(k : Int), .waiting, queried, admitted, closes⟩ .tick
          = ⟨wrap64 ((k : Int) + 1), .waiting, queried ++ [(k : Int)], admitted, closes⟩ := by
        simp [pacerStep, innerLoopHead, hr]
      have h0 : (pattern (k : Int)).toNat = 0 := by omega
      rw [e, h0]
      simp [hlen]

/-- Counterexample to C18 as stated: at the first tick a constant pattern of rate
`-5` is queried at second 0 and asks for `-5` tokens; the pacer admits none and
moves on to second 1. -/
theorem pacer_admits_none_for_negative_rate :
    (pacerRun (Patterns.NewConstantLoad (-5)).RPS [PacerEvent.tick]).queried = [0] ∧
    (pacerRun (Patterns.NewConstantLoad (-5)).RPS [PacerEvent.tick]).admitted = 0 ∧
    (Patterns.NewConstantLoad (-5)).RPS 0 = -5 ∧
    (pacerRun (Patterns.NewConstantLoad (-5)).RPS [PacerEvent.tick]).mode
      = PacerMode.waiting ∧
    (pacerRun (Patterns.NewConstantLoad (-5)).RPS [PacerEvent.tick]).currentSecond = 1 := by
  decide

/-- C18 (amended): the pacer queries the pattern in strict second order and admits
the requested tokens, a negative rate counting as none.  For every pattern and
every run of the pacer without cancellation (fewer than `2^63` ticks): the
pattern has been queried at `0, 1, 2, ...` in this order, the count being that
of the ticks taken up; whenever the pacer waits for the next tick, after `k`
ticks, it stands at second `k` and has admitted exactly the sum of
`max(RPS(i), 0)` for `i < k`; while it admits the tokens of the tick taken up
after `k` earlier ones it has queried `RPS(k)` and admitted that sum plus the
`i < RPS(k)` tokens of the current tick.  And `k` ticks, each followed by
`max(RPS(i), 0)` accepted sends, are `k` processed ticks. -/
theorem pacer_ticks_in_order (pattern : Int → Int) (events : List PacerEvent) (k : Nat)
    (hc : PacerEvent.cancelled ∉ events)
    (ht : (events.count PacerEvent.tick : Int) < 9223372036854775808)
    (hk : (k : Int) < 9223372036854775808) :
    (pacerRun pattern events).queried
      = (List.range (pacerRun pattern events).queried.length).map Int.ofNat ∧
    ((pacerRun pattern events).mode = PacerMode.waiting →
      (pacerRun pattern events).currentSecond = (pacerRun pattern events).queried.length ∧
      (pacerRun pattern events).admitted
        = requestedTokens pattern (pacerRun pattern events).queried.length) ∧
    (∀ i rps, (pacerRun pattern events).mode = PacerMode.admitting i rps →
      rps = pattern (pacerRun pattern events).currentSecond ∧ 0 ≤ i ∧ i < rps ∧
      ((pacerRun pattern events).queried.length : Int)
        = (pacerRun pattern events).currentSecond + 1 ∧
      ((pacerRun pattern events).admitted : Int)
        = (requestedTokens pattern ((pacerRun pattern events).queried.length - 1) : Int) + i) ∧
    ((pacerRun pattern (ticksProcessed pattern k)).mode = PacerMode.waiting ∧
      (pacerRun pattern (ticksProcessed pattern k)).queried
        = (List.range k).map Int.ofNat ∧
      (pacerRun pattern (ticksProcessed pattern k)).currentSecond = k ∧
      (pacerRun pattern (ticksProcessed pattern k)).admitted = requestedTokens pattern k) := by
  obtain ⟨⟨_, hq, hm⟩, _⟩ := pacerRun_inv pattern events hc ht
  refine ⟨hq, ?_, ?_, ?_⟩
  · intro hmode
    rw [hmode] at hm
    exact hm
  · intro i rps hmode
    rw [hmode] at hm
    obtain ⟨h1, h2, h3, _, h5, h6⟩ := hm
    exact ⟨h1, h2, h3, h5, h6⟩
  · obtain ⟨hmode, hlen⟩ := pacerRun_ticksProcessed pattern k hk
    obtain ⟨hcount, hnc⟩ := ticksProcessed_count pattern k
    obtain ⟨⟨_, hq', hm'⟩, _⟩ := pacerRun_inv pattern (ticksProcessed pattern k) hnc
      (by rw [hcount]; exact hk)
    rw [hmode] at hm'
    rw [hlen] at hq' hm'
    exact ⟨hmode, hq', hm'.1, hm'.2⟩

/-- Witness of C18 (amended): a constant pattern of rate 2, three ticks. -/
theorem pacer_ticks_in_order_witness :
    PacerEvent.cancelled ∉ [PacerEvent.tick, PacerEvent.accepted] ∧
    (pacerRun (Patterns.NewConstantLoad 2).RPS
        (ticksProcessed (Patterns.NewConstantLoad 2).RPS 3)).admitted
      = requestedTokens (Patterns.NewConstantLoad 2).RPS 3 :=
  ⟨by decide,
   (pacer_ticks_in_order (Patterns.NewConstantLoad 2).RPS
      [PacerEvent.tick, PacerEvent.accepted] 3 (by decide) (by decide) (by decide)).2.2.2.2.2.2⟩

end Http

namespace Patterns

theorem rampLoad_rps_zero (a b d : Int) (hd : 0 < d) :
    (NewRampLoad a b (d * Second)).RPS 0
      = F64.toInt (F64.Round (F64.nearest (F64.ofInt a))) := by
  have hne : ¬ d = 0 := by omega
  have hlt : ¬ (0 : Int) ≥ d := by omega
  unfold RampLoad.RPS NewRampLoad
  dsimp only
  rw [secondsInt_whole, if_neg hne, if_neg hlt]
  unfold F64.div F64.mul F64.add
  rw [ofInt_zero, zero_div, F64.nearest_zero, mul_zero, F64.nearest_zero, add_zero]

theorem rampLoad_rps_end (a b d s : Int) (hd : 0 < d) (hs : d ≤ s) :
    (NewRampLoad a b (d * Second)).RPS s = b := by
  have hne : ¬ d = 0 := by omega
  unfold RampLoad.RPS NewRampLoad
  dsimp only
  rw [secondsInt_whole, if_neg hne, if_pos (by omega)]

/-- Counterexample to C13 as stated: with the rate `2^53 + 1`, which `float64`
cannot hold, a ramp over 10 s returns `2^53` at second 0, not its minimum
rate. -/
theorem rampLoad_rps_zero_ne_min :
    (NewRampLoad 9007199254740993 9007199254740993 (10 * Second)).RPS 0
      = 9007199254740992 := by
  rw [rampLoad_rps_zero _ _ 10 (by decide), F64.ofInt_two_pow_53_add_one]
  have h : ((9007199254740992 : Int) : ℚ) = 9007199254740992 := by norm_num
  rw [← h, F64.nearest_intCast _ (by decide), F64.Round_intCast,
    F64.toInt_intCast _ (by decide) (by decide)]

/-- C13 (amended): for a ramp with any integer rates and a duration of `d > 0`
whole seconds, `RPS(d) = max`; and `RPS(0) = min` whenever `|min| ≤ 2^53`, the
range in which `float64` holds every integer. -/
theorem rampLoad_rps_endpoints (a b d : Int) (hd : 0 < d) :
    (NewRampLoad a b (d * Second)).RPS d = b ∧
    (|a| ≤ 9007199254740992 → (NewRampLoad a b (d * Second)).RPS 0 = a) := by
  refine ⟨rampLoad_rps_end a b d d hd (Int.le_refl d), fun ha => ?_⟩
  have h := abs_le.1 ha
  rw [rampLoad_rps_zero a b d hd, F64.ofInt_eq a ha, F64.nearest_intCast a ha,
    F64.Round_intCast, F64.toInt_intCast a (by omega) (by omega)]

/-- Witness of C13 (amended): a ramp from 10 to 100 over 30 s. -/
theorem rampLoad_rps_endpoints_witness :
    (0 : Int) < 30 ∧ (NewRampLoad 10 100 (30 * Second)).RPS 30 = 100 ∧
    (NewRampLoad 10 100 (30 * Second)).RPS 0 = 10 :=
  ⟨by decide, (rampLoad_rps_endpoints 10 100 30 (by decide)).1,
   (rampLoad_rps_endpoints 10 100 30 (by decide)).2 (by decide)⟩

theorem waveLoad_rps_zero (sin : ℚ → ℚ) (a b p : Int) :
    (NewWaveLoad a b p).RPS sin 0
      = F64.toInt (F64.Round (F64.nearest (F64.nearest (F64.ofInt (wrap64 (a + b)) / 2)))) := by
  unfold WaveLoad.RPS NewWaveLoad
  dsimp only
  unfold F64.div F64.mul F64.add F64.Sin
  rw [ofInt_zero, mul_zero, F64.nearest_zero, zero_div, F64.nearest_zero, if_pos rfl,
    mul_zero, F64.nearest_zero, add_zero]

/-- Counterexample to C16 as stated: with both rates `2^62` the `int` sum
`min + max` wraps around to `-2^63`, and the wave returns `-2^62` at second 0,
while `round((min + max) / 2)` is `2^62`. -/
theorem waveLoad_rps_zero_ne_mid :
    (NewWaveLoad 4611686018427387904 4611686018427387904 (60 * Second)).RPS (fun _ => 0) 0
      = -4611686018427387904 ∧
    ((4611686018427387904 : Int) + 4611686018427387904 + 1) / 2 = 4611686018427387904 := by
  refine ⟨?_, by decide⟩
  rw [waveLoad_rps_zero]
  have hw : wrap64 (4611686018427387904 + 4611686018427387904) = -9223372036854775808 := by
    decide
  have h1 : F64.ofInt (-9223372036854775808) = -9223372036854775808 := by
    have := F64.nearest_exact (-1) 63 (by decide) (by decide)
    unfold F64.ofInt
    norm_num at this ⊢
    exact this
  have h2 : F64.nearest (-9223372036854775808 / 2) = -4611686018427387904 := by
    have := F64.nearest_exact (-1) 62 (by decide) (by decide)
    norm_num at this ⊢
    exact this
  have h3 : F64.nearest (-4611686018427387904) = -4611686018427387904 := by
    have := F64.nearest_exact (-1) 62 (by decide) (by decide)
    norm_num at this ⊢
    exact this
  rw [hw, h1, h2, h3]
  have h : (-4611686018427387904 : ℚ) = ((-4611686018427387904 : Int) : ℚ) := by norm_num
  rw [h, F64.Round_intCast, F64.toInt_intCast _ (by decide) (by decide)]

/-- C16 (amended): for a wave with integer rates whose sum satisfies
`|min + max| ≤ 2^53` (so that the sum neither overflows nor is rounded by
`float64`), any period and any sine approximation, `RPS(0)` is
`(min + max) / 2` rounded to the nearest integer, halves going away from
zero. -/
theorem waveLoad_rps_zero_eq_mid (sin : ℚ → ℚ) (a b p : Int)
    (h : |a + b| ≤ 9007199254740992) :
    (NewWaveLoad a b p).RPS sin 0
      = (if 0 ≤ a + b then (a + b + 1) / 2 else -((1 - (a + b)) / 2)) ∧
    ((NewWaveLoad a b p).RPS sin 0 : ℚ) = F64.Round (((a + b : Int) : ℚ) / 2) := by
  have hr := abs_le.1 h
  have hval : (NewWaveLoad a b p).RPS sin 0
      = (if 0 ≤ a + b then (a + b + 1) / 2 else -((1 - (a + b)) / 2)) := by
    rw [waveLoad_rps_zero, wrap64_of_range _ (by omega) (by omega), F64.ofInt_eq _ h,
      F64.nearest_half _ h, F64.nearest_half _ h, F64.Round_half]
    apply F64.toInt_intCast
    · split <;> omega
    · split <;> omega
  refine ⟨hval, ?_⟩
  rw [hval, F64.Round_half]

/-- Witness of C16 (amended): a wave between 10 and 21. -/
theorem waveLoad_rps_zero_eq_mid_witness :
    |(10 : Int) + 21| ≤ 9007199254740992 ∧
    (NewWaveLoad 10 21 (60 * Second)).RPS (fun _ => 0) 0
      = (if (0 : Int) ≤ 10 + 21 then (10 + 21 + 1) / 2 else -((1 - (10 + 21)) / 2)) :=
  ⟨by decide, (waveLoad_rps_zero_eq_mid (fun _ => 0) 10 21 (60 * Second) (by decide)).1⟩

/-- C17: a zero time parameter behaves exactly like the fallback: for every
second and all rate parameters, a ramp with duration 0 equals a ramp with
duration 60 s, a spike with period 0 a spike with period 10 s, a step with
interval 0 a step with interval 10 s, and a wave with period 0 a wave with
period 60 s (for every sine approximation); and the divisor each of the four
uses is not zero, whatever the time parameter. -/
theorem zero_parameter_is_fallback (sin : ℚ → ℚ) (a b s d : Int) :
    (NewRampLoad a b 0).RPS s = (NewRampLoad a b (60 * Second)).RPS s ∧
    (NewSpikeLoad a b 0).RPS s = (NewSpikeLoad a b (10 * Second)).RPS s ∧
    (NewStepLoad a b 0).RPS s = (NewStepLoad a b (10 * Second)).RPS s ∧
    (NewWaveLoad a b 0).RPS sin s = (NewWaveLoad a b (60 * Second)).RPS sin s ∧
    (if secondsInt d = 0 then 60 else secondsInt d) ≠ 0 ∧
    (if secondsInt d = 0 then 10 else secondsInt d) ≠ 0 ∧
    (if Seconds d = 0 then 60 else Seconds d) ≠ 0 := by
  have h0 : secondsInt 0 = 0 := by
    have := secondsInt_whole 0
    rwa [Int.zero_mul] at this
  have h60 : secondsInt (60 * Second) = 60 := secondsInt_whole 60
  have h10 : secondsInt (10 * Second) = 10 := secondsInt_whole 10
  have hs60 : Seconds (60 * Second) = 60 := by
    have := seconds_whole 60 (by decide)
    norm_num at this ⊢
    exact this
  refine ⟨?_, ?_, ?_, ?_, ?_, ?_, ?_⟩
  · unfold RampLoad.RPS NewRampLoad
    dsimp only
    rw [h0, h60]
    rfl
  · unfold SpikeLoad.RPS NewSpikeLoad
    dsimp only
    rw [h0, h10]
    rfl
  · unfold StepLoad.RPS NewStepLoad
    dsimp only
    rw [h0, h10]
    rfl
  · unfold WaveLoad.RPS NewWaveLoad
    dsimp only
    rw [seconds_zero, hs60]
    norm_num
  · split
    · decide
    · assumption
  · split
    · decide
    · assumption
  · split
    · norm_num
    · assumption

end Patterns

namespace Patterns

theorem tiny_bound : (0 : ℚ) < (2 : ℚ) ^ (-1075 : Int) ∧
    (2 : ℚ) ^ (-1075 : Int) ≤ 1 / 1152921504606846976 := by
  refine ⟨zpow_pos (by norm_num) _, ?_⟩
  have h : (2 : ℚ) ^ (-1075 : Int) ≤ (2 : ℚ) ^ (-60 : Int) :=
    zpow_le_zpow_right₀ (by norm_num) (by decide)
  have e : (2 : ℚ) ^ (-60 : Int) = 1 / 1152921504606846976 := by norm_num
  rw [e] at h
  exact h

/-- The `float64` value the ramp computes before `math.Round` lies within `2^-28`
of the exact value `min + (max - min) * s / d`, for rates of magnitude at most
`2^20` and a second `0 ≤ s < d`. -/
theorem rampLoad_value_close (a b d s : Int) (ha : |a| ≤ 1048576) (hb : |b| ≤ 1048576)
    (hs : 0 ≤ s) (hsd : s < d) :
    |F64.nearest ((a : ℚ) + F64.nearest (((b - a : Int) : ℚ) * F64.nearest ((s : ℚ) / d)))
        - ((a : ℚ) + ((b : ℚ) - a) * s / d)| ≤ 1 / 268435456 ∧
    |(a : ℚ) + ((b : ℚ) - a) * s / d| ≤ 3145728 := by
  obtain ⟨hη0, hη⟩ := tiny_bound
  have ha' := abs_le.1 ha
  have hb' := abs_le.1 hb
  have haq : |(a : ℚ)| ≤ 1048576 := by exact_mod_cast ha
  have hbq : |(b : ℚ)| ≤ 1048576 := by exact_mod_cast hb
  have hdpos : (0 : ℚ) < d := by exact_mod_cast (lt_of_le_of_lt hs hsd)
  have hsq : (0 : ℚ) ≤ s := by exact_mod_cast hs
  have hsdq : (s : ℚ) < d := by exact_mod_cast hsd
  -- the progress
  have hr0 : (0 : ℚ) ≤ (s : ℚ) / d := div_nonneg hsq (le_of_lt hdpos)
  have hr1 : (s : ℚ) / d ≤ 1 := (div_le_one hdpos).2 (le_of_lt hsdq)
  have hrabs : |(s : ℚ) / d| ≤ 1 := by rw [abs_of_nonneg hr0]; exact hr1
  have hp := F64.nearest_err ((s : ℚ) / d)
  have hp' : |F64.nearest ((s : ℚ) / d) - (s : ℚ) / d|
      ≤ 1 / 9007199254740992 + 1 / 1152921504606846976 := by
    have : |(s : ℚ) / d| / 9007199254740992 ≤ 1 / 9007199254740992 :=
      div_le_div_of_nonneg_right hrabs (by norm_num)
    linarith
  -- the difference of the rates
  have hΔ : |((b - a : Int) : ℚ)| ≤ 2097152 := by
    have : |b - a| ≤ 2097152 := by rw [abs_le]; constructor <;> omega
    exact_mod_cast this
  have hΔe : ((b - a : Int) : ℚ) = (b : ℚ) - a := by push_cast; ring
  generalize hP : F64.nearest ((s : ℚ) / d) = p at hp'
  -- the product
  have h2 : |((b - a : Int) : ℚ) * p - ((b - a : Int) : ℚ) * ((s : ℚ) / d)|
      ≤ 2097152 * (1 / 9007199254740992 + 1 / 1152921504606846976) := by
    rw [← mul_sub, abs_mul]
    exact mul_le_mul hΔ hp' (abs_nonneg _) (by norm_num)
  have h3e : |((b - a : Int) : ℚ) * ((s : ℚ) / d)| ≤ 2097152 := by
    rw [abs_mul]
    calc |((b - a : Int) : ℚ)| * |(s : ℚ) / d| ≤ 2097152 * 1 :=
          mul_le_mul hΔ hrabs (abs_nonneg _) (by norm_num)
      _ = 2097152 := by norm_num
  have h3 : |((b - a : Int) : ℚ) * p| ≤ 4194304 := by
    have := abs_sub_abs_le_abs_sub (((b - a : Int) : ℚ) * p)
      (((b - a : Int) : ℚ) * ((s : ℚ) / d))
    have hnum : (2097152 : ℚ) * (1 / 9007199254740992 + 1 / 1152921504606846976) ≤ 1 := by
      norm_num
    linarith
  have hm := F64.nearest_err (((b - a : Int) : ℚ) * p)
  have hm' : |F64.nearest (((b - a : Int) : ℚ) * p) - ((b - a : Int) : ℚ) * p|
      ≤ 4194304 / 9007199254740992 + 1 / 1152921504606846976 := by
    have : |((b - a : Int) : ℚ) * p| / 9007199254740992 ≤ 4194304 / 9007199254740992 :=
      div_le_div_of_nonneg_right h3 (by norm_num)
    linarith
  generalize hM : F64.nearest (((b - a : Int) : ℚ) * p) = m at hm'
  -- the sum
  have hmabs : |m| ≤ 4194305 := by
    have := abs_sub_abs_le_abs_sub m (((b - a : Int) : ℚ) * p)
    have hnum : (4194304 : ℚ) / 9007199254740992 + 1 / 1152921504606846976 ≤ 1 := by
      norm_num
    linarith
  have hw : |(a : ℚ) + m| ≤ 8388608 := by
    have := abs_add (a : ℚ) m
    linarith
  have hv := F64.nearest_err ((a : ℚ) + m)
  have hv' : |F64.nearest ((a : ℚ) + m) - ((a : ℚ) + m)|
      ≤ 8388608 / 9007199254740992 + 1 / 1152921504606846976 := by
    have : |(a : ℚ) + m| / 9007199254740992 ≤ 8388608 / 9007199254740992 :=
      div_le_div_of_nonneg_right hw (by norm_num)
    linarith
  generalize hV : F64.nearest ((a : ℚ) + m) = v at hv'
  -- the exact value
  have hx : (a : ℚ) + ((b : ℚ) - a) * s / d
      = (a : ℚ) + ((b - a : Int) : ℚ) * ((s : ℚ) / d) := by
    rw [hΔe]; ring
  constructor
  · rw [hx]
    have e : v - ((a : ℚ) + ((b - a : Int) : ℚ) * ((s : ℚ) / d))
        = (v - ((a : ℚ) + m)) + (m - ((b - a : Int) : ℚ) * p)
          + (((b - a : Int) : ℚ) * p - ((b - a : Int) : ℚ) * ((s : ℚ) / d)) := by ring
    rw [e]
    have t1 := abs_add ((v - ((a : ℚ) + m)) + (m - ((b - a : Int) : ℚ) * p))
      (((b - a : Int) : ℚ) * p - ((b - a : Int) : ℚ) * ((s : ℚ) / d))
    have t2 := abs_add (v - ((a : ℚ) + m)) (m - ((b - a : Int) : ℚ) * p)
    have hnum : (8388608 : ℚ) / 9007199254740992 + 1 / 1152921504606846976
        + (4194304 / 9007199254740992 + 1 / 1152921504606846976)
        + 2097152 * (1 / 9007199254740992 + 1 / 1152921504606846976)
        ≤ 1 / 268435456 := by norm_num
    linarith
  · rw [hx]
    have := abs_add (a : ℚ) (((b - a : Int) : ℚ) * ((s : ℚ) / d))
    linarith

theorem rampLoad_rps_unfold (a b d s : Int) (ha : |a| ≤ 1048576) (hb : |b| ≤ 1048576)
    (hd : d ≤ 1048576) (hs : 0 ≤ s) (hsd : s < d) :
    (NewRampLoad a b (d * Second)).RPS s
      = F64.toInt (F64.Round (F64.nearest ((a : ℚ)
          + F64.nearest (((b - a : Int) : ℚ) * F64.nearest ((s : ℚ) / d))))) := by
  have ha' := abs_le.1 ha
  have hb' := abs_le.1 hb
  have hne : ¬ d = 0 := by omega
  have hlt : ¬ s ≥ d := by omega
  unfold RampLoad.RPS NewRampLoad
  dsimp only
  rw [secondsInt_whole, if_neg hne, if_neg hlt, wrap64_of_range _ (by omega) (by omega)]
  unfold F64.div F64.mul F64.add
  rw [F64.ofInt_eq s (by rw [abs_le]; constructor <;> omega),
    F64.ofInt_eq d (by rw [abs_le]; constructor <;> omega),
    F64.ofInt_eq a (by rw [abs_le]; constructor <;> omega),
    F64.ofInt_eq (b - a) (by rw [abs_le]; constructor <;> omega)]

/-- Within the bounds of `rampLoad_value_close` the ramp returns an integer
nearest to the exact value. -/
theorem rampLoad_rps_close (a b d s : Int) (ha : |a| ≤ 1048576) (hb : |b| ≤ 1048576)
    (hd : d ≤ 1048576) (hs : 0 ≤ s) (hsd : s < d) :
    |(((NewRampLoad a b (d * Second)).RPS s : Int) : ℚ)
        - ((a : ℚ) + ((b : ℚ) - a) * s / d)| ≤ 1 / 2 := by
  obtain ⟨hclose, hxabs⟩ := rampLoad_value_close a b d s ha hb hs hsd
  rw [rampLoad_rps_unfold a b d s ha hb hd hs hsd]
  generalize F64.nearest ((a : ℚ)
    + F64.nearest (((b - a : Int) : ℚ) * F64.nearest ((s : ℚ) / d))) = v at hclose
  obtain ⟨n, hn, hnv⟩ := F64.Round_spec v
  set x : ℚ := (a : ℚ) + ((b : ℚ) - a) * s / d with hx
  have hdposI : 0 < d := lt_of_le_of_lt hs hsd
  have hdpos : (0 : ℚ) < d := by exact_mod_cast hdposI
  have hdle : (d : ℚ) ≤ 1048576 := by exact_mod_cast hd
  -- distance of the rounded value from the exact one
  have hnx : |(n : ℚ) - x| ≤ 1 / 2 + 1 / 268435456 := by
    have e : (n : ℚ) - x = ((n : ℚ) - v) + (v - x) := by ring
    rw [e]
    have := abs_add ((n : ℚ) - v) (v - x)
    linarith
  -- twice the distance, scaled by `d`, is an integer
  have hk : ((2 * (n * d - (a * d + (b - a) * s)) : Int) : ℚ) = 2 * d * ((n : ℚ) - x) := by
    rw [hx]
    push_cast
    field_simp
    ring
  have hkabs : |((2 * (n * d - (a * d + (b - a) * s)) : Int) : ℚ)| < (d : ℚ) + 1 := by
    rw [hk, abs_mul, abs_of_pos (by positivity : (0 : ℚ) < 2 * d)]
    have : 2 * (d : ℚ) * |(n : ℚ) - x| ≤ 2 * d * (1 / 2 + 1 / 268435456) :=
      mul_le_mul_of_nonneg_left hnx (by positivity)
    have h2 : 2 * (d : ℚ) * (1 / 2 + 1 / 268435456) = d + d / 134217728 := by ring
    have h3 : (d : ℚ) / 134217728 < 1 := by
      rw [div_lt_one (by norm_num)]
      linarith
    linarith
  have hkI : |2 * (n * d - (a * d + (b - a) * s))| ≤ d := by
    have : ((|2 * (n * d - (a * d + (b - a) * s))| : Int) : ℚ) < ((d + 1 : Int) : ℚ) := by
      rw [Int.cast_abs]
      push_cast at hkabs ⊢
      exact hkabs
    have := Int.cast_lt.1 this
    omega
  have hfinal : |(n : ℚ) - x| ≤ 1 / 2 := by
    have hkq : |((2 * (n * d - (a * d + (b - a) * s)) : Int) : ℚ)| ≤ (d : ℚ) := by
      rw [← Int.cast_abs]
      exact_mod_cast hkI
    rw [hk, abs_mul, abs_of_pos (by positivity : (0 : ℚ) < 2 * d)] at hkq
    by_contra hcon
    have hcon' : 1 / 2 < |(n : ℚ) - x| := not_le.1 hcon
    have : 2 * (d : ℚ) * (1 / 2) < 2 * d * |(n : ℚ) - x| :=
      mul_lt_mul_of_pos_left hcon' (by positivity)
    linarith
  -- the conversion to `int` is exact
  have hnabs : |(n : ℚ)| ≤ 3145729 := by
    have := abs_sub_abs_le_abs_sub (n : ℚ) x
    linarith
  have hnI : |n| ≤ 3145729 := by
    have : ((|n| : Int) : ℚ) ≤ ((3145729 : Int) : ℚ) := by
      rw [Int.cast_abs]
      exact_mod_cast hnabs
    exact Int.cast_le.1 this
  have hnr := abs_le.1 hnI
  rw [hn, F64.toInt_intCast n (by omega) (by omega)]
  exact hfinal

theorem ramp_sample_value :
    F64.nearest ((0 : ℚ) + F64.nearest (((45 - 0 : Int) : ℚ) * F64.nearest ((7 : ℚ) / 10)))
      = 8866461766385663 / 281474976710656 := by
  have h : F64.nearest (8866461766385663 / 281474976710656)
      = 8866461766385663 / 281474976710656 := by
    have := F64.nearest_exact 8866461766385663 (-48) (by decide) (by decide)
    norm_num at this ⊢
    exact this
  have e : ((45 - 0 : Int) : ℚ) = 45 := by norm_num
  rw [F64.nearest_seven_tenths, e, F64.nearest_forty_five_times, zero_add, h]

/-- Counterexample to C12 as stated: a ramp with both rates `2^53 + 1` returns
`2^53` at second 3 of 10, while `min + (max - min) * s / D` rounds to
`2^53 + 1`; and a ramp from 0 to 45 over 10 s returns 31 at second 7, where
`min + (max - min) * s / D` is 31.5 and `math.Round` of it is 32. -/
theorem rampLoad_rps_ne_rounded :
    (NewRampLoad 9007199254740993 9007199254740993 (10 * Second)).RPS 3
      = 9007199254740992 ∧
    F64.Round ((9007199254740993 : ℚ) + (9007199254740993 - 9007199254740993) * 3 / 10)
      = 9007199254740993 ∧
    (NewRampLoad 0 45 (10 * Second)).RPS 7 = 31 ∧
    F64.Round ((0 : ℚ) + (45 - 0) * 7 / 10) = 32 := by
  refine ⟨?_, ?_, ?_, ?_⟩
  · have hw : wrap64 (9007199254740993 - 9007199254740993) = 0 := by decide
    have hlt : ¬ (3 : Int) ≥ 10 := by decide
    unfold RampLoad.RPS NewRampLoad
    dsimp only
    rw [secondsInt_whole, if_neg (by decide : ¬ (10 : Int) = 0), if_neg hlt, hw]
    unfold F64.mul F64.add
    rw [ofInt_zero, zero_mul, F64.nearest_zero, add_zero, F64.ofInt_two_pow_53_add_one]
    have h : ((9007199254740992 : Int) : ℚ) = 9007199254740992 := by norm_num
    rw [← h, F64.nearest_intCast _ (by decide), F64.Round_intCast,
      F64.toInt_intCast _ (by decide) (by decide)]
  · have h : (9007199254740993 : ℚ) + (9007199254740993 - 9007199254740993) * 3 / 10
        = ((9007199254740993 : Int) : ℚ) := by norm_num
    rw [h, F64.Round_intCast]
    norm_num
  · rw [rampLoad_rps_unfold 0 45 10 7 (by decide) (by decide) (by decide) (by decide)
      (by decide)]
    have := ramp_sample_value
    push_cast at this ⊢
    rw [this]
    have hr : F64.Round (8866461766385663 / 281474976710656) = ((31 : Int) : ℚ) := by
      unfold F64.Round
      rw [if_pos (by norm_num)]
      have : ⌊(8866461766385663 : ℚ) / 281474976710656 + 1 / 2⌋ = 31 := by
        rw [Int.floor_eq_iff]; norm_num
      rw [this]
    rw [hr, F64.toInt_intCast _ (by decide) (by decide)]
  · unfold F64.Round
    rw [if_pos (by norm_num)]
    have : ⌊(0 : ℚ) + (45 - 0) * 7 / 10 + 1 / 2⌋ = 32 := by
      rw [Int.floor_eq_iff]; norm_num
    rw [this]
    norm_num

/-- C12 (amended): for a ramp with a duration of `d > 0` whole seconds,
`RPS(s) = max` for every `s ≥ d`; and for rates of magnitude at most `2^20`,
`d ≤ 2^20` and every second `0 ≤ s < d`, `RPS(s)` is an integer nearest to
`min + (max - min) * s / d`: it is at most one half away from that value, so it
is the integer `n` whenever `n` is less than one half away (on an exact half
the `float64` computation may give either neighbour). -/
theorem rampLoad_rps_nearest (a b d s : Int) (hd : 0 < d) :
    (d ≤ s → (NewRampLoad a b (d * Second)).RPS s = b) ∧
    (|a| ≤ 1048576 → |b| ≤ 1048576 → d ≤ 1048576 → 0 ≤ s → s < d →
      |(((NewRampLoad a b (d * Second)).RPS s : Int) : ℚ)
          - ((a : ℚ) + ((b : ℚ) - a) * s / d)| ≤ 1 / 2 ∧
      ∀ n : Int, |(n : ℚ) - ((a : ℚ) + ((b : ℚ) - a) * s / d)| < 1 / 2 →
        (NewRampLoad a b (d * Second)).RPS s = n) := by
  refine ⟨rampLoad_rps_end a b d s hd, fun ha hb hd' hs hsd => ?_⟩
  have hclose := rampLoad_rps_close a b d s ha hb hd' hs hsd
  refine ⟨hclose, fun n hn => ?_⟩
  have h1 : |(((NewRampLoad a b (d * Second)).RPS s : Int) : ℚ) - (n : ℚ)| < 1 := by
    have e : (((NewRampLoad a b (d * Second)).RPS s : Int) : ℚ) - (n : ℚ)
        = ((((NewRampLoad a b (d * Second)).RPS s : Int) : ℚ)
            - ((a : ℚ) + ((b : ℚ) - a) * s / d))
          - ((n : ℚ) - ((a : ℚ) + ((b : ℚ) - a) * s / d)) := by ring
    rw [e]
    have := abs_sub ((((NewRampLoad a b (d * Second)).RPS s : Int) : ℚ)
        - ((a : ℚ) + ((b : ℚ) - a) * s / d)) ((n : ℚ) - ((a : ℚ) + ((b : ℚ) - a) * s / d))
    linarith
  have h2 : |(NewRampLoad a b (d * Second)).RPS s - n| < 1 := by
    have : ((|(NewRampLoad a b (d * Second)).RPS s - n| : Int) : ℚ) < ((1 : Int) : ℚ) := by
      rw [Int.cast_abs]
      push_cast
      exact h1
    exact Int.cast_lt.1 this
  have := abs_lt.1 h2
  omega

/-- Witness of C12 (amended): a ramp from 0 to 100 over 10 s returns 30 at
second 3 and 100 from second 10 on. -/
theorem rampLoad_rps_nearest_witness :
    (0 : Int) < 10 ∧ (NewRampLoad 0 100 (10 * Second)).RPS 12 = 100 ∧
    (NewRampLoad 0 100 (10 * Second)).RPS 3 = 30 :=
  ⟨by decide, (rampLoad_rps_nearest 0 100 10 12 (by decide)).1 (by decide),
   ((rampLoad_rps_nearest 0 100 10 3 (by decide)).2 (by decide) (by decide) (by decide)
      (by decide) (by decide)).2 30 (by norm_num [abs_lt])⟩

end Patterns

namespace Http

/-- Counterexample to C19 as stated: with concurrency 0 `Run` is not rejected and
returns the empty result, whatever requests a worker would have made; with
concurrency `-1` it panics when it creates the queue. -/
theorem run_not_rejected :
    Run (flagDefaults 0) 0 [Call.responded 5 200] = RunResult.returned newResults ∧
    Run (flagDefaults (-1)) 0 [] = RunResult.panicked := by
  decide

/-- C19 (amended): a run configured with concurrency zero is not rejected: `Run`
starts no worker, so no operation is invoked, and it returns the empty result
(counters, latencies, tallies and statistics as `Run` created them) with the
elapsed time. -/
theorem run_zero_concurrency (config : Config) (elapsed : Int) (calls : List Call)
    (h : config.Concurrency = 0) :
    workersStarted config = 0 ∧
    Run config elapsed calls
      = RunResult.returned { newResults with TotalDuration := elapsed } := by
  have hw : workersStarted config = 0 := by
    unfold workersStarted
    rw [h]
    rfl
  refine ⟨hw, ?_⟩
  have h10 : ¬ wrap64 (config.Concurrency * 10) < 0 := by
    rw [h]
    decide
  unfold Run
  rw [if_neg h10]
  dsimp only
  rw [if_pos hw, calculateStatistics_of_nil _ rfl]

/-- Witness of C19 (amended): the default configuration with concurrency 0. -/
theorem run_zero_concurrency_witness :
    (flagDefaults 0).Concurrency = 0 ∧
    Run (flagDefaults 0) 7 [Call.responded 5 200]
      = RunResult.returned { newResults with TotalDuration := 7 } :=
  ⟨rfl, (run_zero_concurrency (flagDefaults 0) 7 [Call.responded 5 200] rfl).2⟩

/-- C20: `FailureRate` returns 0 when the total is 0, in particular on an empty
`Results`, and otherwise the `float64` quotient of the failed and the total
counter; for counters of magnitude at most `2^53` (each is then held exactly)
that quotient is the `float64` nearest to `failed / total`, within `2^-53` of
its magnitude. -/
theorem failureRate_spec (r : Results) :
    (r.TotalRequests = 0 → r.FailureRate = 0) ∧
    newResults.FailureRate = 0 ∧
    (r.TotalRequests ≠ 0 →
      r.FailureRate = F64.div (F64.ofInt r.FailedRequests) (F64.ofInt r.TotalRequests)) ∧
    (0 < r.TotalRequests → r.TotalRequests ≤ 9007199254740992 →
      |r.FailedRequests| ≤ 9007199254740992 →
      r.FailureRate = F64.nearest ((r.FailedRequests : ℚ) / r.TotalRequests) ∧
      |r.FailureRate - (r.FailedRequests : ℚ) / r.TotalRequests|
        ≤ |(r.FailedRequests : ℚ) / r.TotalRequests| / 9007199254740992
          + (2 : ℚ) ^ (-1075 : Int)) := by
  refine ⟨fun h => ?_, rfl, fun h => ?_, fun h1 h2 h3 => ?_⟩
  · unfold Results.FailureRate
    rw [if_pos h]
  · unfold Results.FailureRate
    rw [if_neg h]
  · have hne : ¬ r.TotalRequests = 0 := by omega
    have e : r.FailureRate = F64.nearest ((r.FailedRequests : ℚ) / r.TotalRequests) := by
      unfold Results.FailureRate F64.div
      rw [if_neg hne, F64.ofInt_eq _ h3,
        F64.ofInt_eq _ (by rw [abs_le]; constructor <;> omega)]
    rw [e]
    exact ⟨rfl, F64.nearest_err _⟩

/-- Witness of C20: one failure in four requests. -/
theorem failureRate_spec_witness :
    ({ newResults with TotalRequests := 4, FailedRequests := 1 } : Results).TotalRequests ≠ 0 ∧
    ({ newResults with TotalRequests := 4, FailedRequests := 1 } : Results).FailureRate
      = F64.nearest (((1 : Int) : ℚ) / ((4 : Int) : ℚ)) :=
  ⟨by decide,
   ((failureRate_spec { newResults with TotalRequests := 4, FailedRequests := 1 }).2.2.2
      (by decide) (by decide) (by decide)).1⟩

end Http

namespace Events

/-- C26: `Validate` returns nil exactly when `ID`, `OrderID`, `CustomerID` and
`Type` are all non-empty and `Version >= 1`; otherwise it returns the error of
the first check that fails, the checks being made in the order event ID, order
ID, customer ID, event type, version. -/
theorem validate_spec (e : OrderEvent) :
    (e.Validate = none ↔
      e.ID ≠ "" ∧ e.OrderID ≠ "" ∧ e.CustomerID ≠ "" ∧ e.Type_ ≠ "" ∧ 1 ≤ e.Version) ∧
    (e.ID = "" → e.Validate = some .ErrMissingEventID) ∧
    (e.ID ≠ "" → e.OrderID = "" → e.Validate = some .ErrMissingOrderID) ∧
    (e.ID ≠ "" → e.OrderID ≠ "" → e.CustomerID = "" →
      e.Validate = some .ErrMissingCustomerID) ∧
    (e.ID ≠ "" → e.OrderID ≠ "" → e.CustomerID ≠ "" → e.Type_ = "" →
      e.Validate = some .ErrMissingEventType) ∧
    (e.ID ≠ "" → e.OrderID ≠ "" → e.CustomerID ≠ "" → e.Type_ ≠ "" → e.Version < 1 →
      e.Validate = some .ErrInvalidVersion) := by
  unfold OrderEvent.Validate
  refine ⟨?_, ?_, ?_, ?_, ?_, ?_⟩
  · constructor
    · intro h
      split_ifs at h with h1 h2 h3 h4 h5
      exact ⟨h1, h2, h3, h4, by omega⟩
    · rintro ⟨h1, h2, h3, h4, h5⟩
      rw [if_neg h1, if_neg h2, if_neg h3, if_neg h4, if_neg (by omega)]
  · intro h1
    rw [if_pos h1]
  · intro h1 h2
    rw [if_neg h1, if_pos h2]
  · intro h1 h2 h3
    rw [if_neg h1, if_neg h2, if_pos h3]
  · intro h1 h2 h3 h4
    rw [if_neg h1, if_neg h2, if_neg h3, if_pos h4]
  · intro h1 h2 h3 h4 h5
    rw [if_neg h1, if_neg h2, if_neg h3, if_neg h4, if_pos h5]

end Events

theorem tdiv_between (s n lo hi : Int) (hn : 0 < n) (h1 : n * lo ≤ s) (h2 : s ≤ n * hi) :
    lo ≤ Int.tdiv s n ∧ Int.tdiv s n ≤ hi := by
  rcases le_or_lt 0 s with hs | hs
  · rw [Int.tdiv_eq_ediv hs (Int.le_of_lt hn)]
    constructor
    · rw [Int.le_ediv_iff_mul_le hn]; linarith [Int.mul_comm n lo]
    · have : s / n < hi + 1 := by
        rw [Int.ediv_lt_iff_lt_mul hn]; nlinarith
      omega
  · have hneg : Int.tdiv s n = -((-s) / n) := by
      have := Int.neg_tdiv (-s) n
      rw [Int.neg_neg] at this
      rw [this, Int.tdiv_eq_ediv (by omega) (Int.le_of_lt hn)]
    rw [hneg]
    constructor
    · have : (-s) / n < -lo + 1 := by
        rw [Int.ediv_lt_iff_lt_mul hn]; nlinarith
      omega
    · have : -hi ≤ (-s) / n := by
        rw [Int.le_ediv_iff_mul_le hn]; nlinarith
      omega

theorem sum_between (l : List Int) (lo hi : Int) (h1 : ∀ x ∈ l, lo ≤ x)
    (h2 : ∀ x ∈ l, x ≤ hi) :
    (l.length : Int) * lo ≤ l.sum ∧ l.sum ≤ (l.length : Int) * hi := by
  induction l with
  | nil => simp
  | cons x rest ih =>
    have ih1 := ih (fun y hy => h1 y (List.mem_cons_of_mem _ hy))
      (fun y hy => h2 y (List.mem_cons_of_mem _ hy))
    have hx1 := h1 x (List.mem_cons_self _ _)
    have hx2 := h2 x (List.mem_cons_self _ _)
    simp only [List.length_cons, List.sum_cons, Nat.cast_add, Nat.cast_one]
    constructor
    · nlinarith [ih1.1]
    · nlinarith [ih1.2]

namespace Http

/-- C30: for every non-empty latency slice whose integer sum lies in the `int64`
range, after `calculateStatistics`
`MinLatency ≤ P50Latency ≤ P95Latency ≤ P99Latency ≤ MaxLatency` and
`MinLatency ≤ AvgLatency ≤ MaxLatency`. -/
theorem calculateStatistics_ordered (r : Results) (h : r.Latencies ≠ [])
    (h1 : -9223372036854775808 ≤ r.Latencies.sum)
    (h2 : r.Latencies.sum < 9223372036854775808) :
    (calculateStatistics r).MinLatency ≤ (calculateStatistics r).P50Latency ∧
    (calculateStatistics r).P50Latency ≤ (calculateStatistics r).P95Latency ∧
    (calculateStatistics r).P95Latency ≤ (calculateStatistics r).P99Latency ∧
    (calculateStatistics r).P99Latency ≤ (calculateStatistics r).MaxLatency ∧
    (calculateStatistics r).MinLatency ≤ (calculateStatistics r).AvgLatency ∧
    (calculateStatistics r).AvgLatency ≤ (calculateStatistics r).MaxLatency := by
  have hn : 0 < r.Latencies.length := List.length_pos.2 h
  have hlen := sortLatencies_length r.Latencies
  have hs := sortLatencies_sorted r.Latencies
  have hp := sortLatencies_perm r.Latencies
  have h50 := percentile_index_lt r.Latencies.length 50 hn (by decide)
  have h95 := percentile_index_lt r.Latencies.length 95 hn (by decide)
  have h99 := percentile_index_lt r.Latencies.length 99 hn (by decide)
  have hsum := sum_between (sortLatencies r.Latencies)
    ((sortLatencies r.Latencies).getD 0 0)
    ((sortLatencies r.Latencies).getD (r.Latencies.length - 1) 0)
    (sorted_head_le _ hs)
    (by have := sorted_le_last _ hs; rw [hlen] at this; exact this)
  rw [hp.sum_eq, hlen] at hsum
  have havg := tdiv_between r.Latencies.sum (r.Latencies.length : Int) _ _
    (by exact_mod_cast hn) hsum.1 hsum.2
  rw [calculateStatistics_of_ne r h]
  dsimp only
  rw [wrap64_of_range _ h1 h2]
  refine ⟨?_, ?_, ?_, ?_, havg.1, havg.2⟩
  · exact sorted_getD_le _ hs _ _ (Nat.zero_le _) (by omega)
  · exact sorted_getD_le _ hs _ _ (by omega) (by omega)
  · exact sorted_getD_le _ hs _ _ (by omega) (by omega)
  · exact sorted_getD_le _ hs _ _ (by omega) (by omega)

/-- Witness of C30 on the latencies 30, 10, 20, 40. -/
theorem calculateStatistics_ordered_witness :
    (withLatencies [30, 10, 20, 40]).Latencies ≠ [] ∧
    (calculateStatistics (withLatencies [30, 10, 20, 40])).MinLatency
      ≤ (calculateStatistics (withLatencies [30, 10, 20, 40])).AvgLatency ∧
    (calculateStatistics (withLatencies [30, 10, 20, 40])).AvgLatency
      ≤ (calculateStatistics (withLatencies [30, 10, 20, 40])).MaxLatency :=
  ⟨by decide,
   (calculateStatistics_ordered (withLatencies [30, 10, 20, 40]) (by decide) (by decide)
     (by decide)).2.2.2.2⟩

end Http

theorem grpc_innerLoop_eq (i : Nat) : ∀ (fuel j : Nat) (a : List Int),
    Grpc.innerLoop i fuel j a = Http.innerLoop i fuel j a := by
  intro fuel
  induction fuel with
  | zero => intro j a; rfl
  | succ n ih =>
    intro j a
    simp only [Grpc.innerLoop, Http.innerLoop, Grpc.swapAt, Http.swapAt, ih]

theorem grpc_outerLoop_eq : ∀ (fuel i : Nat) (a : List Int),
    Grpc.outerLoop fuel i a = Http.outerLoop fuel i a := by
  intro fuel
  induction fuel with
  | zero => intro i a; rfl
  | succ n ih =>
    intro i a
    simp only [Grpc.outerLoop, Http.outerLoop, ih, grpc_innerLoop_eq]

theorem grpc_sortLatencies_eq (a : List Int) :
    Grpc.sortLatencies a = Http.sortLatencies a :=
  grpc_outerLoop_eq a.length 0 a

theorem grpc_sumLoop_eq : ∀ (l : List Int) (s : Int), Grpc.sumLoop s l = Http.sumLoop s l := by
  intro l
  induction l with
  | nil => intro s; rfl
  | cons x rest ih => intro s; simp only [Grpc.sumLoop, Http.sumLoop, ih]

theorem grpc_calculateStatistics_eq (r : Grpc.Results) (h : Http.Results)
    (hl : r.Latencies = h.Latencies) (hs : r.stats = h.stats) :
    (Grpc.calculateStatistics r).Latencies = (Http.calculateStatistics h).Latencies ∧
    (Grpc.calculateStatistics r).stats = (Http.calculateStatistics h).stats := by
  unfold Grpc.calculateStatistics Http.calculateStatistics
  rw [hl]
  by_cases h0 : h.Latencies.length = 0
  · rw [if_pos h0, if_pos h0]
    exact ⟨hl, hs⟩
  · rw [if_neg h0, if_neg h0]
    simp only [grpc_sortLatencies_eq, grpc_sumLoop_eq, Grpc.Results.stats, Http.Results.stats,
      and_self]

theorem sql_innerLoop_eq (i : Nat) : ∀ (fuel j : Nat) (a : List Int),
    Sql.innerLoop i fuel j a = Http.innerLoop i fuel j a := by
  intro fuel
  induction fuel with
  | zero => intro j a; rfl
  | succ n ih =>
    intro j a
    simp only [Sql.innerLoop, Http.innerLoop, Sql.swapAt, Http.swapAt, ih]

theorem sql_outerLoop_eq : ∀ (fuel i : Nat) (a : List Int),
    Sql.outerLoop fuel i a = Http.outerLoop fuel i a := by
  intro fuel
  induction fuel with
  | zero => intro i a; rfl
  | succ n ih =>
    intro i a
    simp only [Sql.outerLoop, Http.outerLoop, ih, sql_innerLoop_eq]

theorem sql_sortLatencies_eq (a : List Int) :
    Sql.sortLatencies a = Http.sortLatencies a :=
  sql_outerLoop_eq a.length 0 a

theorem sql_sumLoop_eq : ∀ (l : List Int) (s : Int), Sql.sumLoop s l = Http.sumLoop s l := by
  intro l
  induction l with
  | nil => intro s; rfl
  | cons x rest ih => intro s; simp only [Sql.sumLoop, Http.sumLoop, ih]

theorem sql_calculateStatistics_eq (r : Sql.Results) (h : Http.Results)
    (hl : r.Latencies = h.Latencies) (hs : r.stats = h.stats) :
    (Sql.calculateStatistics r).Latencies = (Http.calculateStatistics h).Latencies ∧
    (Sql.calculateStatistics r).stats = (Http.calculateStatistics h).stats := by
  unfold Sql.calculateStatistics Http.calculateStatistics
  rw [hl]
  by_cases h0 : h.Latencies.length = 0
  · rw [if_pos h0, if_pos h0]
    exact ⟨hl, hs⟩
  · rw [if_neg h0, if_neg h0]
    simp only [sql_sortLatencies_eq, sql_sumLoop_eq, Sql.Results.stats, Http.Results.stats,
      and_self]

theorem redis_innerLoop_eq (i : Nat) : ∀ (fuel j : Nat) (a : List Int),
    Redis.innerLoop i fuel j a = Http.innerLoop i fuel j a := by
  intro fuel
  induction fuel with
  | zero => intro j a; rfl
  | succ n ih =>
    intro j a
    simp only [Redis.innerLoop, Http.innerLoop, Redis.swapAt, Http.swapAt, ih]

theorem redis_outerLoop_eq : ∀ (fuel i : Nat) (a : List Int),
    Redis.outerLoop fuel i a = Http.outerLoop fuel i a := by
  intro fuel
  induction fuel with
  | zero => intro i a; rfl
  | succ n ih =>
    intro i a
    simp only [Redis.outerLoop, Http.outerLoop, ih, redis_innerLoop_eq]

theorem redis_sortLatencies_eq (a : List Int) :
    Redis.sortLatencies a = Http.sortLatencies a :=
  redis_outerLoop_eq a.length 0 a

theorem redis_sumLoop_eq : ∀ (l : List Int) (s : Int), Redis.sumLoop s l = Http.sumLoop s l := by
  intro l
  induction l with
  | nil => intro s; rfl
  | cons x rest ih => intro s; simp only [Redis.sumLoop, Http.sumLoop, ih]

theorem redis_calculateStatistics_eq (r : Redis.Results) (h : Http.Results)
    (hl : r.Latencies = h.Latencies) (hs : r.stats = h.stats) :
    (Redis.calculateStatistics r).Latencies = (Http.calculateStatistics h).Latencies ∧
    (Redis.calculateStatistics r).stats = (Http.calculateStatistics h).stats := by
  unfold Redis.calculateStatistics Http.calculateStatistics
  rw [hl]
  by_cases h0 : h.Latencies.length = 0
  · rw [if_pos h0, if_pos h0]
    exact ⟨hl, hs⟩
  · rw [if_neg h0, if_neg h0]
    simp only [redis_sortLatencies_eq, redis_sumLoop_eq, Redis.Results.stats, Http.Results.stats,
      and_self]

theorem kafka_innerLoop_eq (i : Nat) : ∀ (fuel j : Nat) (a : List Int),
    Kafka.innerLoop i fuel j a = Http.innerLoop i fuel j a := by
  intro fuel
  induction fuel with
  | zero => intro j a; rfl
  | succ n ih =>
    intro j a
    simp only [Kafka.innerLoop, Http.innerLoop, Kafka.swapAt, Http.swapAt, ih]

theorem kafka_outerLoop_eq : ∀ (fuel i : Nat) (a : List Int),
    Kafka.outerLoop fuel i a = Http.outerLoop fuel i a := by
  intro fuel
  induction fuel with
  | zero => intro i a; rfl
  | succ n ih =>
    intro i a
    simp only [Kafka.outerLoop, Http.outerLoop, ih, kafka_innerLoop_eq]

theorem kafka_sortLatencies_eq (a : List Int) :
    Kafka.sortLatencies a = Http.sortLatencies a :=
  kafka_outerLoop_eq a.length 0 a

theorem kafka_sumLoop_eq : ∀ (l : List Int) (s : Int), Kafka.sumLoop s l = Http.sumLoop s l := by
  intro l
  induction l with
  | nil => intro s; rfl
  | cons x rest ih => intro s; simp only [Kafka.sumLoop, Http.sumLoop, ih]

theorem kafka_calculateStatistics_eq (r : Kafka.Results) (h : Http.Results)
    (hl : r.Latencies = h.Latencies) (hs : r.stats = h.stats) :
    (Kafka.calculateStatistics r).Latencies = (Http.calculateStatistics h).Latencies ∧
    (Kafka.calculateStatistics r).stats = (Http.calculateStatistics h).stats := by
  unfold Kafka.calculateStatistics Http.calculateStatistics
  rw [hl]
  by_cases h0 : h.Latencies.length = 0
  · rw [if_pos h0, if_pos h0]
    exact ⟨hl, hs⟩
  · rw [if_neg h0, if_neg h0]
    simp only [kafka_sortLatencies_eq, kafka_sumLoop_eq, Kafka.Results.stats, Http.Results.stats,
      and_self]

/-- C29: the five statistics routines compute the same function of the latency
list: for every latency list `l`, `calculateStatistics` of the gRPC, SQL, Redis
and Kafka generators, applied to a fresh `Results` holding `l`, leaves the same
sorted latency slice and the same `MinLatency`, `MaxLatency`, `AvgLatency`,
`P50Latency`, `P95Latency` and `P99Latency` as the routine of the HTTP
generator does. -/
theorem calculateStatistics_same_function (l : List Int) :
    ((Grpc.calculateStatistics (Grpc.withLatencies l)).Latencies
        = (Http.calculateStatistics (Http.withLatencies l)).Latencies ∧
      (Grpc.calculateStatistics (Grpc.withLatencies l)).stats
        = (Http.calculateStatistics (Http.withLatencies l)).stats) ∧
    ((Sql.calculateStatistics (Sql.withLatencies l)).Latencies
        = (Http.calculateStatistics (Http.withLatencies l)).Latencies ∧
      (Sql.calculateStatistics (Sql.withLatencies l)).stats
        = (Http.calculateStatistics (Http.withLatencies l)).stats) ∧
    ((Redis.calculateStatistics (Redis.withLatencies l)).Latencies
        = (Http.calculateStatistics (Http.withLatencies l)).Latencies ∧
      (Redis.calculateStatistics (Redis.withLatencies l)).stats
        = (Http.calculateStatistics (Http.withLatencies l)).stats) ∧
    ((Kafka.calculateStatistics (Kafka.withLatencies l)).Latencies
        = (Http.calculateStatistics (Http.withLatencies l)).Latencies ∧
      (Kafka.calculateStatistics (Kafka.withLatencies l)).stats
        = (Http.calculateStatistics (Http.withLatencies l)).stats) :=
  ⟨grpc_calculateStatistics_eq _ _ rfl rfl, sql_calculateStatistics_eq _ _ rfl rfl,
   redis_calculateStatistics_eq _ _ rfl rfl, kafka_calculateStatistics_eq _ _ rfl rfl⟩

namespace Http

theorem pacerStep_returned (pattern : Int → Int) (st : PacerState) (ev : PacerEvent)
    (h : st.mode = .returned) : pacerStep pattern st ev = st := by
  obtain ⟨cs, mode, q, a, c⟩ := st
  dsimp only at h
  subst h
  cases ev <;> rfl

theorem foldl_pacerStep_returned (pattern : Int → Int) (events : List PacerEvent) :
    ∀ st : PacerState, st.mode = .returned → events.foldl (pacerStep pattern) st = st := by
  induction events with
  | nil => intro st _; rfl
  | cons ev rest ih =>
    intro st h
    rw [List.foldl_cons, pacerStep_returned pattern st ev h]
    exact ih st h

theorem innerLoopHead_live (st : PacerState) (i rps : Int) :
    (innerLoopHead st i rps).mode ≠ .returned ∧ (innerLoopHead st i rps).closes = st.closes := by
  unfold innerLoopHead
  split_ifs <;> exact ⟨by simp, rfl⟩

theorem pacerStep_live (pattern : Int → Int) (st : PacerState) (ev : PacerEvent)
    (h : st.mode ≠ .returned) (hev : ev ≠ .cancelled) :
    (pacerStep pattern st ev).mode ≠ .returned ∧ (pacerStep pattern st ev).closes = st.closes := by
  obtain ⟨cs, mode, q, a, c⟩ := st
  dsimp only at h
  cases mode with
  | waiting =>
    cases ev with
    | tick => exact innerLoopHead_live _ _ _
    | accepted => exact ⟨by simp [pacerStep], rfl⟩
    | cancelled => exact absurd rfl hev
  | admitting i rps =>
    cases ev with
    | tick => exact ⟨by simp [pacerStep], rfl⟩
    | accepted => exact innerLoopHead_live _ _ _
    | cancelled => exact absurd rfl hev
  | returned => exact absurd rfl h

theorem pacerStep_cancelled (pattern : Int → Int) (st : PacerState)
    (h : st.mode ≠ .returned) :
    pacerStep pattern st .cancelled = { st with mode := .returned, closes := st.closes + 1 } := by
  obtain ⟨cs, mode, q, a, c⟩ := st
  dsimp only at h
  cases mode with
  | waiting => rfl
  | admitting i rps => rfl
  | returned => exact absurd rfl h

theorem pacerRun_live (pattern : Int → Int) (events : List PacerEvent)
    (h : PacerEvent.cancelled ∉ events) :
    (pacerRun pattern events).mode ≠ .returned ∧ (pacerRun pattern events).closes = 0 := by
  induction events using List.reverseRecOn with
  | nil => exact ⟨by simp [pacerRun, pacerStart], rfl⟩
  | append_singleton l ev ih =>
    have hl : PacerEvent.cancelled ∉ l := fun hm => h (List.mem_append_left _ hm)
    have hev : ev ≠ .cancelled := fun he => h (by simp [he])
    have := ih hl
    unfold pacerRun at this ⊢
    rw [List.foldl_append, List.foldl_cons, List.foldl_nil]
    have hstep := pacerStep_live pattern _ ev this.1 hev
    exact ⟨hstep.1, hstep.2.trans this.2⟩

/-- C24: the pacer goroutine closes the queue exactly once, when it sees the
cancellation, and creates no token afterwards.  As long as no `select` of the
pacer has chosen `ctx.Done()` the goroutine has not returned and `close(reqChan)`
has not run; once a `select` chooses it, in the outer `select` (waiting for a
tick) or in the inner one (blocked on a send), the goroutine has returned,
`close(reqChan)` has run exactly once, and whatever happens afterwards the
number of tokens put on the queue and the calls of `pattern.RPS` stay what they
were when the cancellation was seen. -/
theorem pacer_closes_once_on_cancel (pattern : Int → Int) (pre post : List PacerEvent)
    (h : PacerEvent.cancelled ∉ pre) :
    ((pacerRun pattern pre).mode ≠ .returned ∧ (pacerRun pattern pre).closes = 0) ∧
    (pacerRun pattern (pre ++ .cancelled :: post)).mode = .returned ∧
    (pacerRun pattern (pre ++ .cancelled :: post)).closes = 1 ∧
    (pacerRun pattern (pre ++ .cancelled :: post)).admitted = (pacerRun pattern pre).admitted ∧
    (pacerRun pattern (pre ++ .cancelled :: post)).queried = (pacerRun pattern pre).queried := by
  have hlive := pacerRun_live pattern pre h
  have hrun : pacerRun pattern (pre ++ .cancelled :: post)
      = { pacerRun pattern pre with mode := .returned, closes := (pacerRun pattern pre).closes + 1 } := by
    unfold pacerRun at hlive ⊢
    rw [List.foldl_append, List.foldl_cons, pacerStep_cancelled pattern _ hlive.1]
    exact foldl_pacerStep_returned pattern post _ rfl
  rw [hrun]
  exact ⟨hlive, rfl, by dsimp only; rw [hlive.2], rfl, rfl⟩

/-- Witness of C24: at 2 tokens a second the pacer is cancelled while blocked on
the second send of the second tick; three tokens were admitted and none is
after the cancellation, though a send and a tick are offered. -/
theorem pacer_closes_once_on_cancel_witness :
    PacerEvent.cancelled ∉ [PacerEvent.tick, .accepted, .accepted, .tick, .accepted] ∧
    (pacerRun (fun _ => 2)
      ([PacerEvent.tick, .accepted, .accepted, .tick, .accepted]
        ++ .cancelled :: [.accepted, .tick, .cancelled])).closes = 1 ∧
    (pacerRun (fun _ => 2)
      ([PacerEvent.tick, .accepted, .accepted, .tick, .accepted]
        ++ .cancelled :: [.accepted, .tick, .cancelled])).admitted = 3 :=
  ⟨by decide,
   (pacer_closes_once_on_cancel (fun _ => 2)
      [PacerEvent.tick, .accepted, .accepted, .tick, .accepted]
      [.accepted, .tick, .cancelled] (by decide)).2.2.1,
   (pacer_closes_once_on_cancel (fun _ => 2)
      [PacerEvent.tick, .accepted, .accepted, .tick, .accepted]
      [.accepted, .tick, .cancelled] (by decide)).2.2.2.1.trans (by decide)⟩

end Http

namespace Http

theorem makeRequest_total (r : Results) (c : Call) :
    (makeRequest r c).TotalRequests = wrap64 (r.TotalRequests + 1) := by
  cases c with
  | buildFailed err => rfl
  | doFailed latency err => rfl
  | responded latency statusCode =>
    unfold makeRequest
    dsimp only
    split <;> rfl

theorem makeRequest_appended (r : Results) (c : Call) :
    (makeRequest r c).Latencies = r.Latencies ++ c.appended := by
  cases c with
  | buildFailed err => simp [makeRequest, Call.appended]
  | doFailed latency err => rfl
  | responded latency statusCode =>
    unfold makeRequest
    dsimp only
    split <;> rfl

theorem makeRequest_stats (r : Results) (c : Call) : (makeRequest r c).stats = r.stats := by
  cases c with
  | buildFailed err => rfl
  | doFailed latency err => rfl
  | responded latency statusCode =>
    unfold makeRequest
    dsimp only
    split <;> rfl

theorem makeRequest_outcome (r : Results) (c : Call) :
    ((makeRequest r c).SuccessRequests = wrap64 (r.SuccessRequests + 1) ∧
        (makeRequest r c).FailedRequests = r.FailedRequests) ∨
      ((makeRequest r c).SuccessRequests = r.SuccessRequests ∧
        (makeRequest r c).FailedRequests = wrap64 (r.FailedRequests + 1)) := by
  cases c with
  | buildFailed err => exact Or.inr ⟨rfl, rfl⟩
  | doFailed latency err => exact Or.inr ⟨rfl, rfl⟩
  | responded latency statusCode =>
    unfold makeRequest
    dsimp only
    split
    · exact Or.inl ⟨rfl, rfl⟩
    · exact Or.inr ⟨rfl, rfl⟩

/-- Counterexample to C25 as stated: after `calculateStatistics` has run on the
latencies 10 and 20, a `makeRequest` call that sees a response with status 200
after 30 ns is carried out: the total and the success counter go from 0 to 1
and the latency slice becomes 10, 20, 30, while `MaxLatency` stays 20. -/
theorem makeRequest_after_calculateStatistics :
    (calculateStatistics (withLatencies [10, 20])).TotalRequests = 0 ∧
    (makeRequest (calculateStatistics (withLatencies [10, 20]))
      (.responded 30 200)).TotalRequests = 1 ∧
    (makeRequest (calculateStatistics (withLatencies [10, 20]))
      (.responded 30 200)).SuccessRequests = 1 ∧
    (makeRequest (calculateStatistics (withLatencies [10, 20]))
      (.responded 30 200)).Latencies = [10, 20, 30] ∧
    (makeRequest (calculateStatistics (withLatencies [10, 20]))
      (.responded 30 200)).MaxLatency = 20 := by
  decide

/-- C25 (amended): recording into a `Results` on which `calculateStatistics` has
run is not detected: `makeRequest` returns no error and treats it as any other
`Results`.  For every `Results` and every call, `makeRequest` applied after
`calculateStatistics` adds one to `TotalRequests` (in 64 bits), so the result
differs from the finalized value, appends the measured latency when the request
was issued, leaves `MinLatency`, `MaxLatency`, `AvgLatency`, `P50Latency`,
`P95Latency` and `P99Latency` as `calculateStatistics` set them, and adds one
to either the success or the failed counter. -/
theorem makeRequest_not_rejected (r : Results) (c : Call) :
    (makeRequest (calculateStatistics r) c).TotalRequests
      = wrap64 ((calculateStatistics r).TotalRequests + 1) ∧
    makeRequest (calculateStatistics r) c ≠ calculateStatistics r ∧
    (makeRequest (calculateStatistics r) c).Latencies
      = (calculateStatistics r).Latencies ++ c.appended ∧
    (makeRequest (calculateStatistics r) c).stats = (calculateStatistics r).stats ∧
    (((makeRequest (calculateStatistics r) c).SuccessRequests
          = wrap64 ((calculateStatistics r).SuccessRequests + 1) ∧
        (makeRequest (calculateStatistics r) c).FailedRequests
          = (calculateStatistics r).FailedRequests) ∨
      ((makeRequest (calculateStatistics r) c).SuccessRequests
          = (calculateStatistics r).SuccessRequests ∧
        (makeRequest (calculateStatistics r) c).FailedRequests
          = wrap64 ((calculateStatistics r).FailedRequests + 1))) := by
  refine ⟨makeRequest_total _ c, ?_, makeRequest_appended _ c, makeRequest_stats _ c,
    makeRequest_outcome _ c⟩
  intro h
  have := congrArg Results.TotalRequests h
  rw [makeRequest_total] at this
  exact wrap64_succ_ne _ this.symm

/-- Witness of C25 (amended): a failed `client.Do` recorded after
`calculateStatistics` ran on the latencies 10 and 20. -/
theorem makeRequest_not_rejected_witness :
    (makeRequest (calculateStatistics (withLatencies [10, 20]))
      (.doFailed 5 "timeout")).Latencies
      = (calculateStatistics (withLatencies [10, 20])).Latencies ++ [5] :=
  (makeRequest_not_rejected (withLatencies [10, 20]) (.doFailed 5 "timeout")).2.2.1

end Http

namespace Handlers

theorem retryLoop_failures (handler : Nat → Option String) (maxRetries : Int)
    (hmax : maxRetries < 9223372036854775807) (fuel : Nat) :
    ∀ (n k : Nat) (lastErr : Option String),
      (∀ i, k ≤ i → i < k + n → handler i ≠ none) → ((k + n : Nat) : Int) ≤ maxRetries + 1 →
      retryLoop handler maxRetries (fuel + n) (k : Int) k lastErr
        = retryLoop handler maxRetries fuel ((k + n : Nat) : Int) (k + n)
            (if n = 0 then lastErr else handler (k + n - 1)) := by
  intro n
  induction n with
  | zero => intro k lastErr _ _; simp
  | succ n ih =>
    intro k lastErr hfail hle
    have hk : (k : Int) ≤ maxRetries := by push_cast at hle; omega
    have hne := hfail k (Nat.le_refl _) (by omega)
    obtain ⟨e, he⟩ := Option.ne_none_iff_exists'.1 hne
    rw [show fuel + (n + 1) = (fuel + n) + 1 from by omega, retryLoop, if_pos hk, he]
    dsimp only
    rw [wrap64_of_range _ (by omega) (by omega)]
    have := ih (k + 1) (some e) (fun i h1 h2 => hfail i (by omega) (by omega))
      (by push_cast at hle ⊢; omega)
    rw [show ((k : Int) + 1) = ((k + 1 : Nat) : Int) from by push_cast; rfl, this]
    rw [show k + 1 + n = k + (n + 1) from by omega]
    congr 1
    by_cases hn : n = 0
    · subst hn; simp [he]
    · simp [hn]

/-- Counterexample to C28 as stated: with `maxRetries = -2` the loop body never
runs.  A handler that would fail is invoked 0 times, not `maxRetries + 1 = -1`
times, and the returned error wraps no handler error; a handler that would
succeed at once is not invoked either and an error is returned. -/
theorem processMessageWithRetry_negative_maxRetries :
    processMessageWithRetry (fun _ => some "boom") (-2) 1
      = some { calls := 0,
               err := some { text := "failed after -2 retries: %!w(<nil>)", wrapped := none } } ∧
    processMessageWithRetry (fun _ => none) (-2) 1
      = some { calls := 0,
               err := some { text := "failed after -2 retries: %!w(<nil>)", wrapped := none } } := by
  decide

/-- C28 (amended): for `0 ≤ maxRetries` below the largest `int`,
`processMessageWithRetry` invokes the handler until its first success and at
most `maxRetries + 1` times.  If the handler first succeeds on its invocation
number `j ≤ maxRetries + 1` (counted from 1) it is invoked exactly `j` times and
nil is returned; if its first `maxRetries + 1` invocations all fail it is invoked
exactly `maxRetries + 1` times and the returned error reads
`failed after <maxRetries> retries: ` followed by the message of the last handler
error, which it wraps.  For a negative `maxRetries` the handler is not invoked
at all and the returned error wraps nothing.  In each case the loop ends within
`maxRetries + 2` tests of its condition. -/
theorem processMessageWithRetry_spec (handler : Nat → Option String) (maxRetries : Int)
    (fuel : Nat) (hmax : maxRetries < 9223372036854775807) (h1 : 1 ≤ fuel)
    (hfuel : maxRetries + 2 ≤ (fuel : Int)) :
    (∀ j : Nat, 1 ≤ j → (j : Int) ≤ maxRetries + 1 → (∀ i, i < j - 1 → handler i ≠ none) →
      handler (j - 1) = none →
      processMessageWithRetry handler maxRetries fuel = some { calls := j, err := none }) ∧
    (0 ≤ maxRetries → ∀ e : String, (∀ i : Nat, (i : Int) ≤ maxRetries → handler i ≠ none) →
      handler maxRetries.toNat = some e →
      processMessageWithRetry handler maxRetries fuel
        = some { calls := (maxRetries + 1).toNat,
                 err := some { text := "failed after " ++ toString maxRetries
                                 ++ " retries: " ++ e,
                               wrapped := some e } }) ∧
    (maxRetries < 0 →
      processMessageWithRetry handler maxRetries fuel
        = some { calls := 0, err := some (failedAfter maxRetries none) }) := by
  refine ⟨?_, ?_, ?_⟩
  · intro j hj1 hj hfail hsucc
    obtain ⟨m, rfl⟩ : ∃ m, j = m + 1 := ⟨j - 1, by omega⟩
    obtain ⟨f, rfl⟩ : ∃ f, fuel = (f + 1) + m := ⟨fuel - 1 - m, by omega⟩
    have := retryLoop_failures handler maxRetries hmax (f + 1) m 0 none
      (fun i _ h2 => hfail i (by omega)) (by push_cast at hj ⊢; omega)
    unfold processMessageWithRetry
    rw [show ((0 : Int)) = ((0 : Nat) : Int) from rfl, this]
    simp only [Nat.zero_add, Nat.add_sub_cancel] at hsucc ⊢
    rw [retryLoop, if_pos (by push_cast at hj; omega), hsucc]
  · intro h0 e hfail hlast
    obtain ⟨N, rfl⟩ : ∃ N : Nat, maxRetries = (N : Int) := ⟨maxRetries.toNat, by omega⟩
    obtain ⟨f, rfl⟩ : ∃ f, fuel = (f + 1) + (N + 1) := ⟨fuel - 1 - (N + 1), by omega⟩
    have := retryLoop_failures handler (N : Int) hmax (f + 1) (N + 1) 0 none
      (fun i _ h2 => hfail i (by omega)) (by push_cast; omega)
    unfold processMessageWithRetry
    rw [show ((0 : Int)) = ((0 : Nat) : Int) from rfl, this]
    simp only [Nat.zero_add, Nat.add_sub_cancel, Int.toNat_ofNat] at hlast ⊢
    rw [retryLoop, if_neg (by push_cast; omega)]
    simp only [Nat.add_one_ne_zero, if_false, hlast, failedAfter]
    congr 2
  · intro hneg
    obtain ⟨f, rfl⟩ : ∃ f, fuel = f + 1 := ⟨fuel - 1, by omega⟩
    unfold processMessageWithRetry
    rw [retryLoop, if_neg (by omega)]

/-- Witness of C28 (amended), on the cases of the repository's tests: with
`maxRetries = 3` a handler that fails twice and then succeeds is invoked 3
times and nil is returned; with `maxRetries = 2` a handler that always fails is
invoked 3 times and the error reads `failed after 2 retries: persistent error`. -/
theorem processMessageWithRetry_spec_witness :
    processMessageWithRetry (fun k => if k < 2 then some "temporary error" else none) 3 5
      = some { calls := 3, err := none } ∧
    processMessageWithRetry (fun _ => some "persistent error") 2 4
      = some { calls := 3,
               err := some { text := "failed after 2 retries: persistent error",
                             wrapped := some "persistent error" } } :=
  ⟨(processMessageWithRetry_spec (fun k => if k < 2 then some "temporary error" else none)
      3 5 (by decide) (by decide) (by decide)).1 3 (by decide) (by decide)
      (fun i hi => by have h2 : i < 2 := hi; simp [h2]) (by decide),
   ((processMessageWithRetry_spec (fun _ => some "persistent error")
      2 4 (by decide) (by decide) (by decide)).2.1 (by decide) "persistent error"
      (fun _ _ => by simp) rfl).trans (by decide)⟩

end Handlers

namespace Store

/-- Counterexample to C27 as stated: on a store holding one product,
`List(limit, offset)` with `limit = 2^63 - 1` and `offset = 1` panics, whether
`make` accepts capacities up to `2^48 / 112` (a 112-byte `Product` and the
allocation limit `2^48` of 64-bit Linux) or any capacity at all: in the first
case in `make([]models.Product, 0, limit)`, in the second because
`start + limit` wraps around to a negative `end` and `allProducts[start:end]` is
out of range.  The claim has it return no error and no product. -/
theorem list_panics_on_large_limit :
    MemoryStore.List { products := [("a", Product.named "p")] }
        2513169434916 9223372036854775807 1 = .panicked ∧
    MemoryStore.List { products := [("a", Product.named "p")] }
        9223372036854775807 9223372036854775807 1 = .panicked := by
  decide

/-- C27 (amended): `List` paginates over the whole store when `make` accepts the
requested capacities.  For every store holding `n` products, every
`0 ≤ limit ≤ maxCap` with `n ≤ maxCap` and `n + limit < 2^63`, and every
`offset ≥ 0`, `List(limit, offset)` returns no error, `total = n`, and exactly
`min(limit, max(0, n - offset))` products, each of which is in the store: the
products at the positions `offset, ..., offset + limit - 1` of the order in which
this call ranges over the map.  For a `limit` above `maxCap` the call panics. -/
theorem list_paginates (s : MemoryStore) (maxCap limit offset : Int)
    (hl0 : 0 ≤ limit) (ho : 0 ≤ offset) (hn : (s.products.length : Int) ≤ maxCap)
    (hsum : (s.products.length : Int) + limit < 9223372036854775808) :
    (limit ≤ maxCap →
      ∃ products : List Product,
        s.List maxCap limit offset = .returned products (s.products.length : Int) none ∧
        (products.length : Int)
          = min limit (max 0 ((s.products.length : Int) - offset)) ∧
        products = (s.allProducts.drop offset.toNat).take limit.toNat ∧
        ∀ p ∈ products, p ∈ s.allProducts) ∧
    (maxCap < limit → s.List maxCap limit offset = .panicked) := by
  have hlen : s.allProducts.length = s.products.length := by
    simp [MemoryStore.allProducts]
  constructor
  · intro hl
    refine ⟨(s.allProducts.drop offset.toNat).take limit.toNat, ?_, ?_, rfl, ?_⟩
    · unfold MemoryStore.List
      rw [if_neg (by omega), if_neg (by omega)]
      dsimp only
      rw [hlen]
      by_cases hoff : offset > (s.products.length : Int)
      · rw [if_pos hoff, wrap64_of_range _ (by omega) (by omega)]
        have hval : (if (s.products.length : Int) + limit > (s.products.length : Int)
            then (s.products.length : Int) else (s.products.length : Int) + limit)
            = (s.products.length : Int) := by
          split_ifs <;> omega
        rw [hval]
        unfold sliceExpr
        rw [if_pos (by rw [hlen]; omega)]
        dsimp only
        have h1 : List.drop (s.products.length : Int).toNat s.allProducts = [] := by
          apply List.drop_of_length_le
          rw [hlen]; omega
        have h2 : List.drop offset.toNat s.allProducts = [] := by
          apply List.drop_of_length_le
          rw [hlen]; omega
        rw [h1, h2]
        simp
      · rw [if_neg hoff, wrap64_of_range _ (by omega) (by omega)]
        by_cases hend : offset + limit > (s.products.length : Int)
        · rw [if_pos hend]
          unfold sliceExpr
          rw [if_pos (by rw [hlen]; omega)]
          dsimp only
          congr 1
          rw [List.take_of_length_le (by rw [List.length_drop, hlen]; omega),
            List.take_of_length_le (by rw [List.length_drop, hlen]; omega)]
        · rw [if_neg hend]
          unfold sliceExpr
          rw [if_pos (by rw [hlen]; omega)]
          dsimp only
          rw [show offset + limit - offset = limit from by omega]
    · rw [List.length_take, List.length_drop, hlen]
      omega
    · intro p hp
      exact List.mem_of_mem_drop (List.mem_of_mem_take hp)
  · intro hl
    unfold MemoryStore.List
    rw [if_pos (Or.inr hl)]

/-- Witness of C27 (amended): the second page of two products out of three. -/
theorem list_paginates_witness :
    ∃ products : List Product,
      MemoryStore.List
          { products := [("a", Product.named "p"), ("b", Product.named "q"),
              ("c", Product.named "r")] } 100 2 2
        = .returned products 3 none ∧
      (products.length : Int) = 1 :=
  match (list_paginates
      { products := [("a", Product.named "p"), ("b", Product.named "q"),
          ("c", Product.named "r")] } 100 2 2
      (by decide) (by decide) (by decide) (by decide)).1 (by decide) with
  | ⟨products, h1, h2, _, _⟩ => ⟨products, h1, h2.trans (by decide)⟩

end Store

namespace Http

/-- The atomic updates of a call, performed without interruption, are the call. -/
theorem foldl_applyStep_steps (r : Results) (c : Call) :
    c.steps.foldl applyStep r = makeRequest r c := by
  cases c with
  | buildFailed err => rfl
  | doFailed latency err => rfl
  | responded latency statusCode =>
    unfold makeRequest Call.steps
    by_cases h : statusCode ≥ 200 ∧ statusCode < 300
    · simp only [h, and_self, if_true]; rfl
    · simp only [h, if_false]; rfl

theorem foldl_applyStep_counts (steps : List Step) :
    ∀ (r : Results) (t a b : Nat), r.TotalRequests = wrap64 t → r.SuccessRequests = wrap64 a →
      r.FailedRequests = wrap64 b →
      (steps.foldl applyStep r).TotalRequests = wrap64 ((t + steps.count .addTotal : Nat) : Int) ∧
      (steps.foldl applyStep r).SuccessRequests
        = wrap64 ((a + steps.count .addSuccess : Nat) : Int) ∧
      (steps.foldl applyStep r).FailedRequests
        = wrap64 ((b + steps.count .addFailed : Nat) : Int) ∧
      (steps.foldl applyStep r).Latencies.length
        = r.Latencies.length + steps.countP Step.isAppend := by
  induction steps with
  | nil => intro r t a b ht ha hb; exact ⟨ht, ha, hb, rfl⟩
  | cons s rest ih =>
    intro r t a b ht ha hb
    rw [List.foldl_cons]
    cases s with
    | addTotal =>
      have := ih (applyStep r .addTotal) (t + 1) a b
        (by show wrap64 (r.TotalRequests + 1) = _; rw [ht, wrap64_add_left]; push_cast; rfl)
        ha hb
      simp only [List.count_cons_self, List.count_cons_of_ne, ne_eq, reduceCtorEq,
        not_false_eq_true, List.countP_cons, Step.isAppend] at this ⊢
      rw [show t + (List.count Step.addTotal rest + 1) = t + 1 + List.count Step.addTotal rest
        from by omega]
      exact this
    | addSuccess =>
      have := ih (applyStep r .addSuccess) t (a + 1) b ht
        (by show wrap64 (r.SuccessRequests + 1) = _; rw [ha, wrap64_add_left]; push_cast; rfl)
        hb
      simp only [List.count_cons_self, List.count_cons_of_ne, ne_eq, reduceCtorEq,
        not_false_eq_true, List.countP_cons, Step.isAppend] at this ⊢
      rw [show a + (List.count Step.addSuccess rest + 1)
        = a + 1 + List.count Step.addSuccess rest from by omega]
      exact this
    | addFailed =>
      have := ih (applyStep r .addFailed) t a (b + 1) ht ha
        (by show wrap64 (r.FailedRequests + 1) = _; rw [hb, wrap64_add_left]; push_cast; rfl)
      simp only [List.count_cons_self, List.count_cons_of_ne, ne_eq, reduceCtorEq,
        not_false_eq_true, List.countP_cons, Step.isAppend] at this ⊢
      rw [show b + (List.count Step.addFailed rest + 1)
        = b + 1 + List.count Step.addFailed rest from by omega]
      exact this
    | appendLatency latency =>
      have := ih (applyStep r (.appendLatency latency)) t a b ht ha hb
      simp only [List.count_cons_of_ne, ne_eq, reduceCtorEq,
        not_false_eq_true, List.countP_cons, Step.isAppend] at this ⊢
      refine ⟨this.1, this.2.1, this.2.2.1, ?_⟩
      rw [this.2.2.2]
      simp [applyStep]
      omega
    | tallyError err =>
      have := ih (applyStep r (.tallyError err)) t a b ht ha hb
      simp only [List.count_cons_of_ne, ne_eq, reduceCtorEq,
        not_false_eq_true, List.countP_cons, Step.isAppend] at this ⊢
      exact this
    | tallyStatus statusCode =>
      have := ih (applyStep r (.tallyStatus statusCode)) t a b ht ha hb
      simp only [List.count_cons_of_ne, ne_eq, reduceCtorEq,
        not_false_eq_true, List.countP_cons, Step.isAppend] at this ⊢
      exact this

theorem flatten_set_perm : ∀ (ws : List (List Step)) (i : Nat) (s : Step) (rest : List Step),
    ws.getD i [] = s :: rest → ws.flatten.Perm (s :: (ws.set i rest).flatten) := by
  intro ws
  induction ws with
  | nil => intro i s rest h; simp at h
  | cons w ws ih =>
    intro i s rest h
    cases i with
    | zero =>
      simp only [List.getD_cons_zero] at h
      subst h
      simp
    | succ j =>
      simp only [List.getD_cons_succ] at h
      have := ih j s rest h
      simp only [List.flatten_cons, List.set_cons_succ]
      exact (List.Perm.append_left w this).trans List.perm_middle

theorem foldl_step_trace (schedule : List Nat) :
    ∀ st : Shared, ∃ trace : List Step,
      (schedule.foldl Shared.step st).results = trace.foldl applyStep st.results ∧
      (trace ++ (schedule.foldl Shared.step st).pending.flatten).Perm st.pending.flatten := by
  induction schedule with
  | nil => intro st; exact ⟨[], rfl, List.Perm.refl _⟩
  | cons i rest ih =>
    intro st
    rw [List.foldl_cons]
    obtain ⟨trace, h1, h2⟩ := ih (st.step i)
    cases hget : st.pending.getD i [] with
    | nil =>
      have hst : st.step i = st := by unfold Shared.step; rw [hget]
      rw [hst] at h1 h2 ⊢
      exact ⟨trace, h1, h2⟩
    | cons s tl =>
      have hst : st.step i
          = { pending := st.pending.set i tl, results := applyStep st.results s } := by
        unfold Shared.step; rw [hget]
      rw [hst] at h1 h2 ⊢
      refine ⟨s :: trace, h1, ?_⟩
      exact (List.Perm.cons s h2).trans (flatten_set_perm _ i s tl hget).symm

theorem finished_flatten (st : Shared) (h : st.finished = true) : st.pending.flatten = [] := by
  unfold Shared.finished at h
  rw [List.all_eq_true] at h
  rw [List.flatten_eq_nil_iff]
  intro l hl
  exact List.isEmpty_iff.1 (h l hl)

theorem steps_count_total (c : Call) : c.steps.count .addTotal = 1 := by
  cases c with
  | buildFailed err => rfl
  | doFailed latency err => rfl
  | responded latency statusCode =>
    by_cases h : statusCode ≥ 200 ∧ statusCode < 300 <;>
      simp [Call.steps, h, Step.isAppend, Call.notIssued]

theorem steps_count_outcome (c : Call) :
    c.steps.count .addSuccess + c.steps.count .addFailed = 1 := by
  cases c with
  | buildFailed err => rfl
  | doFailed latency err => rfl
  | responded latency statusCode =>
    by_cases h : statusCode ≥ 200 ∧ statusCode < 300 <;>
      simp [Call.steps, h, Step.isAppend, Call.notIssued]

theorem steps_countP_append (c : Call) :
    c.steps.countP Step.isAppend + (if c.notIssued then 1 else 0) = 1 := by
  cases c with
  | buildFailed err => rfl
  | doFailed latency err => rfl
  | responded latency statusCode =>
    by_cases h : statusCode ≥ 200 ∧ statusCode < 300 <;>
      simp [Call.steps, h, Step.isAppend, Call.notIssued]

theorem workerSteps_counts (calls : List Call) :
    (workerSteps calls).count .addTotal = calls.length ∧
    (workerSteps calls).count .addSuccess + (workerSteps calls).count .addFailed
      = calls.length ∧
    (workerSteps calls).countP Step.isAppend + calls.countP Call.notIssued = calls.length := by
  induction calls with
  | nil => exact ⟨rfl, rfl, rfl⟩
  | cons c rest ih =>
    have h1 := steps_count_total c
    have h2 := steps_count_outcome c
    have h3 := steps_countP_append c
    unfold workerSteps at ih ⊢
    simp only [List.flatMap_cons, List.count_append, List.countP_append, List.length_cons,
      List.countP_cons]
    refine ⟨by omega, by omega, ?_⟩
    by_cases hn : c.notIssued = true
    · simp only [hn, if_true] at h3 ⊢; omega
    · simp only [hn, Bool.false_eq_true, if_false] at h3 ⊢
      omega

theorem allSteps_counts (workers : List (List Call)) :
    ((workers.map workerSteps).flatten).count .addTotal = totalCalls workers ∧
    ((workers.map workerSteps).flatten).count .addSuccess
        + ((workers.map workerSteps).flatten).count .addFailed = totalCalls workers ∧
    ((workers.map workerSteps).flatten).countP Step.isAppend
        + workers.flatten.countP Call.notIssued = totalCalls workers := by
  unfold totalCalls
  induction workers with
  | nil => exact ⟨rfl, rfl, rfl⟩
  | cons w rest ih =>
    have hw := workerSteps_counts w
    simp only [List.map_cons, List.flatten_cons, List.count_append, List.countP_append,
      List.length_append]
    refine ⟨by omega, by omega, by omega⟩

/-- Counterexample to C23 as stated: one worker makes one call whose request
cannot be constructed.  When the worker has performed all its updates the total
counter is 1 and no latency has been recorded. -/
theorem concurrent_latencies_ne_total :
    (runWorkers [[Call.buildFailed "invalid method"]] [0, 0, 0]).finished = true ∧
    (runWorkers [[Call.buildFailed "invalid method"]] [0, 0, 0]).results.TotalRequests = 1 ∧
    (runWorkers [[Call.buildFailed "invalid method"]] [0, 0, 0]).results.Latencies.length
      = 0 := by
  decide

/-- C23 (amended): no update is lost, and a latency is recorded for every call
whose request was issued.  For any number of workers making `M` calls of
`makeRequest` in total, and for every interleaving of their atomic updates in
which every worker completes its calls, the final total counter is `M` (in 64
bits), the total equals succeeded plus failed, and, for `M < 2^63`, the counters
are the integers `total = M` and `succeeded + failed = M` and the length of
`Latencies` is `M` minus the number of calls whose request could not be
constructed. -/
theorem concurrent_record (workers : List (List Call)) (schedule : List Nat)
    (hfin : (runWorkers workers schedule).finished = true) :
    (runWorkers workers schedule).results.TotalRequests = wrap64 (totalCalls workers) ∧
    Balanced (totalCalls workers) (runWorkers workers schedule).results.TotalRequests
      (runWorkers workers schedule).results.SuccessRequests
      (runWorkers workers schedule).results.FailedRequests ∧
    (totalCalls workers < 9223372036854775808 →
      (runWorkers workers schedule).results.TotalRequests = totalCalls workers ∧
      (runWorkers workers schedule).results.SuccessRequests
          + (runWorkers workers schedule).results.FailedRequests = totalCalls workers ∧
      ((runWorkers workers schedule).results.Latencies.length : Int)
          + (workers.flatten.countP Call.notIssued : Int) = totalCalls workers) := by
  obtain ⟨trace, h1, h2⟩ := foldl_step_trace schedule
    { pending := workers.map workerSteps, results := newResults }
  have hflat := finished_flatten _ hfin
  unfold runWorkers at hflat ⊢
  rw [hflat, List.append_nil] at h2
  dsimp only at h1 h2
  have hc := foldl_applyStep_counts trace newResults 0 0 0 (by decide) (by decide) (by decide)
  rw [← h1] at hc
  obtain ⟨c1, c2, c3⟩ := allSteps_counts workers
  rw [← h2.count_eq] at c1
  rw [← h2.count_eq .addSuccess, ← h2.count_eq .addFailed] at c2
  rw [← h2.countP_eq] at c3
  simp only [Nat.zero_add] at hc
  have hinv : CounterInv (totalCalls workers)
      (List.foldl Shared.step { pending := workers.map workerSteps, results := newResults }
        schedule).results.TotalRequests
      (List.foldl Shared.step { pending := workers.map workerSteps, results := newResults }
        schedule).results.SuccessRequests
      (List.foldl Shared.step { pending := workers.map workerSteps, results := newResults }
        schedule).results.FailedRequests :=
    ⟨trace.count .addSuccess, trace.count .addFailed, c2, by rw [hc.1, c1],
      by rw [hc.2.1], by rw [hc.2.2.1]⟩
  have hbal := counterInv_balanced hinv
  refine ⟨by rw [hc.1, c1], hbal, ?_⟩
  intro hM
  have ht := counterInv_total hinv hM
  refine ⟨ht, ?_, ?_⟩
  · rw [← hbal.2 hM, ht]
  · rw [hc.2.2.2]
    simp only [newResults, List.length_nil, Nat.zero_add]
    exact_mod_cast c3

/-- Witness of C23 (amended): two workers, one making one call that sees a
response, the other making a call whose request cannot be constructed and a
call that ends in a transport error, their updates interleaved. -/
theorem concurrent_record_witness :
    (runWorkers [[Call.responded 9 200], [Call.buildFailed "invalid method",
        Call.doFailed 7 "EOF"]] [0, 1, 1, 0, 1, 0, 1, 1, 0, 1, 1]).finished = true ∧
    (runWorkers [[Call.responded 9 200], [Call.buildFailed "invalid method",
        Call.doFailed 7 "EOF"]] [0, 1, 1, 0, 1, 0, 1, 1, 0, 1, 1]).results.TotalRequests
      = wrap64 (totalCalls [[Call.responded 9 200], [Call.buildFailed "invalid method",
        Call.doFailed 7 "EOF"]]) :=
  ⟨by decide,
   (concurrent_record [[Call.responded 9 200], [Call.buildFailed "invalid method",
        Call.doFailed 7 "EOF"]] [0, 1, 1, 0, 1, 0, 1, 1, 0, 1, 1] (by decide)).1⟩

end Http

/-- Counterexample to C21 as stated: the structured report of the SQL generator
has none of the keys `total_requests`, `success_requests`, `failed_requests`
and `rps`; it names them `total_transactions`, `success_transactions`,
`failed_transactions` and `tps`. -/
theorem sql_toJSON_keys_differ :
    Report.jsonKeys Sql.newResults.ToJSON
      = ["total_transactions", "success_transactions", "failed_transactions",
         "duration_seconds", "tps", "latency", "latency.min_ms", "latency.max_ms",
         "latency.avg_ms", "latency.p50_ms", "latency.p95_ms", "latency.p99_ms"] ∧
    "total_requests" ∉ Report.jsonKeys Sql.newResults.ToJSON ∧
    "rps" ∉ Report.jsonKeys Sql.newResults.ToJSON := by
  decide

/-- C21 (amended): each generator's structured report has fixed keys, the same
for every `Results`, but the counters and the rate are named after the
generator's unit of work.  `ToJSON` of the HTTP and of the gRPC generator emits
exactly `total_requests`, `success_requests`, `failed_requests`,
`duration_seconds`, `rps` and a `latency` object with `min_ms`, `max_ms`,
`avg_ms`, `p50_ms`, `p95_ms`, `p99_ms`.  The SQL generator emits
`total_transactions`, `success_transactions`, `failed_transactions` and `tps` in
their place, the Redis generator `total_operations`, `success_operations`,
`failed_operations` and `ops`, and the Kafka generator `total_messages`,
`success_messages`, `failed_messages` and `mps` together with `total_bytes` and
`throughput_mbps`; `duration_seconds` and the `latency` object are common to
all five. -/
theorem toJSON_keys (h : Http.Results) (g : Grpc.Results) (s : Sql.Results)
    (r : Redis.Results) (k : Kafka.Results) :
    Report.jsonKeys h.ToJSON
      = ["total_requests", "success_requests", "failed_requests",
         "duration_seconds", "rps", "latency", "latency.min_ms", "latency.max_ms",
         "latency.avg_ms", "latency.p50_ms", "latency.p95_ms", "latency.p99_ms"] ∧
    Report.jsonKeys g.ToJSON
      = ["total_requests", "success_requests", "failed_requests",
         "duration_seconds", "rps", "latency", "latency.min_ms", "latency.max_ms",
         "latency.avg_ms", "latency.p50_ms", "latency.p95_ms", "latency.p99_ms"] ∧
    Report.jsonKeys s.ToJSON
      = ["total_transactions", "success_transactions", "failed_transactions",
         "duration_seconds", "tps", "latency", "latency.min_ms", "latency.max_ms",
         "latency.avg_ms", "latency.p50_ms", "latency.p95_ms", "latency.p99_ms"] ∧
    Report.jsonKeys r.ToJSON
      = ["total_operations", "success_operations", "failed_operations",
         "duration_seconds", "ops", "latency", "latency.min_ms", "latency.max_ms",
         "latency.avg_ms", "latency.p50_ms", "latency.p95_ms", "latency.p99_ms"] ∧
    Report.jsonKeys k.ToJSON
      = ["total_messages", "success_messages", "failed_messages", "total_bytes",
         "duration_seconds", "mps", "throughput_mbps", "latency", "latency.min_ms",
         "latency.max_ms", "latency.avg_ms", "latency.p50_ms", "latency.p95_ms",
         "latency.p99_ms"] := by
  exact ⟨rfl, rfl, rfl, rfl, rfl⟩

/-- Witness of C21 (amended): the keys of the report of a fresh HTTP `Results`. -/
theorem toJSON_keys_witness :
    Report.jsonKeys Http.newResults.ToJSON
      = ["total_requests", "success_requests", "failed_requests",
         "duration_seconds", "rps", "latency", "latency.min_ms", "latency.max_ms",
         "latency.avg_ms", "latency.p50_ms", "latency.p95_ms", "latency.p99_ms"] :=
  (toJSON_keys Http.newResults Grpc.newResults Sql.newResults Redis.newResults
    Kafka.newResults).1

namespace F64

theorem roundHalfEven_of_close (y : ℚ) (n : Int) (h : |y - n| < 1 / 2) :
    roundHalfEven y = n := by
  have h1 := abs_le.1 (roundHalfEven_err y)
  have h2 := abs_lt.1 h
  have h3 : ((roundHalfEven y - n : Int) : ℚ) < 1 := by push_cast; linarith [h1.2, h2.1]
  have h4 : (-1 : ℚ) < ((roundHalfEven y - n : Int) : ℚ) := by
    push_cast; linarith [h1.1, h2.2]
  have h5 : roundHalfEven y - n < 1 := by exact_mod_cast h3
  have h6 : -1 < roundHalfEven y - n := by exact_mod_cast h4
  omega

end F64

namespace Report

theorem fixed2_finite (x : ℚ) :
    fixed2 (.finite x) = .fixed2 (F64.roundHalfEven (x * 100)) := rfl

/-- A latency of `k` hundredths of a millisecond is displayed as `k / 100`. -/
theorem ms_of_multiple (k : Int) (hk : |k| ≤ 922337203685477) :
    ms (10000 * k) = .fixed2 k := by
  have hmicro : Microseconds (10000 * k) = 10 * k := by
    unfold Microseconds
    rw [show 10000 * k = (10 * k) * 1000 from by ring]
    exact Int.mul_tdiv_cancel _ (by decide)
  unfold ms
  rw [hmicro, fixed2_finite]
  congr 1
  apply F64.roundHalfEven_of_close
  obtain ⟨e0, e1⟩ := Patterns.tiny_bound
  have hkq : |(k : ℚ)| ≤ 922337203685477 := by exact_mod_cast hk
  obtain ⟨k1, k2⟩ := abs_le.1 hkq
  have ha := F64.nearest_err ((10 * k : Int) : ℚ)
  have h10 : |((10 * k : Int) : ℚ)| ≤ 9223372036854770 := by
    rw [abs_le]; push_cast; constructor <;> linarith
  have ha' : |F64.nearest ((10 * k : Int) : ℚ) - ((10 * k : Int) : ℚ)| ≤ 103 / 100 := by
    refine ha.trans ?_
    have : |((10 * k : Int) : ℚ)| / 9007199254740992 ≤ 9223372036854770 / 9007199254740992 :=
      div_le_div_of_nonneg_right h10 (by norm_num)
    have c : (9223372036854770 : ℚ) / 9007199254740992 ≤ 1025 / 1000 := by norm_num
    linarith
  obtain ⟨a1, a2⟩ := abs_le.1 ha'
  obtain ⟨b1, b2⟩ := abs_le.1 h10
  have habs : |F64.nearest ((10 * k : Int) : ℚ) / 1000| ≤ 9223372036855 := by
    rw [abs_le]; constructor <;> linarith
  have hF := F64.nearest_err (F64.nearest ((10 * k : Int) : ℚ) / 1000)
  have hF' : |F64.nearest (F64.nearest ((10 * k : Int) : ℚ) / 1000)
      - F64.nearest ((10 * k : Int) : ℚ) / 1000| ≤ 103 / 100000 := by
    refine hF.trans ?_
    have : |F64.nearest ((10 * k : Int) : ℚ) / 1000| / 9007199254740992
        ≤ 9223372036855 / 9007199254740992 :=
      div_le_div_of_nonneg_right habs (by norm_num)
    have c : (9223372036855 : ℚ) / 9007199254740992 ≤ 1025 / 1000000 := by norm_num
    linarith
  obtain ⟨f1, f2⟩ := abs_le.1 hF'
  unfold F64.div F64.ofInt
  rw [abs_lt]
  push_cast at a1 a2 f1 f2 ⊢
  constructor <;> linarith

theorem ms_of_small : ms 999 = .fixed2 0 := by
  have hmicro : Microseconds 999 = 0 := by decide
  unfold ms
  rw [hmicro, fixed2_finite]
  unfold F64.div F64.ofInt
  rw [Int.cast_zero, F64.nearest_zero, zero_div, F64.nearest_zero, zero_mul]
  exact congrArg Shown.fixed2 (F64.roundHalfEven_intCast 0)

/-- A duration of `k` hundredths of a second is displayed as `k / 100`. -/
theorem seconds_of_multiple (k : Int) (h0 : 0 ≤ k) (hk : k ≤ 922337203685) :
    fixed2 (.finite (Patterns.Seconds (10000000 * k))) = .fixed2 k := by
  have hsec : Int.tdiv (10000000 * k) Second = k / 100 := by
    unfold Second
    rw [Int.tdiv_eq_ediv (by omega) (by decide)]
    omega
  have hnsec : Int.tmod (10000000 * k) Second = 10000000 * (k % 100) := by
    unfold Second
    rw [Int.tmod_eq_emod (by omega) (by decide)]
    omega
  have hs0 : 0 ≤ k / 100 := by omega
  have hs1 : k / 100 ≤ 9223372036 := by omega
  have hm0 : 0 ≤ k % 100 := by omega
  have hm1 : k % 100 < 100 := by omega
  have hk100 : (k : ℚ) = 100 * ((k / 100 : Int) : ℚ) + ((k % 100 : Int) : ℚ) := by
    have : k = 100 * (k / 100) + k % 100 := by omega
    exact_mod_cast this
  rw [fixed2_finite]
  congr 1
  apply F64.roundHalfEven_of_close
  unfold Patterns.Seconds F64.add F64.div
  rw [hsec, hnsec, F64.ofInt_eq _ (by rw [abs_le]; constructor <;> omega),
    F64.ofInt_eq _ (by rw [abs_le]; constructor <;> omega)]
  obtain ⟨e0, e1⟩ := Patterns.tiny_bound
  have s0 : (0 : ℚ) ≤ ((k / 100 : Int) : ℚ) := by exact_mod_cast hs0
  have s1 : ((k / 100 : Int) : ℚ) ≤ 9223372036 := by exact_mod_cast hs1
  have m0 : (0 : ℚ) ≤ ((k % 100 : Int) : ℚ) := by exact_mod_cast hm0
  have m1 : ((k % 100 : Int) : ℚ) < 100 := by exact_mod_cast hm1
  have hq : ((10000000 * (k % 100) : Int) : ℚ) / 1000000000 = ((k % 100 : Int) : ℚ) / 100 := by
    push_cast; ring
  rw [hq]
  have hqa : |((k % 100 : Int) : ℚ) / 100| ≤ 1 := by
    rw [abs_le]; constructor <;> linarith
  have ht := F64.nearest_err (((k % 100 : Int) : ℚ) / 100)
  have ht' : |F64.nearest (((k % 100 : Int) : ℚ) / 100) - ((k % 100 : Int) : ℚ) / 100|
      ≤ 1 / 1000000000 := by
    refine ht.trans ?_
    have : |((k % 100 : Int) : ℚ) / 100| / 9007199254740992 ≤ 1 / 9007199254740992 :=
      div_le_div_of_nonneg_right hqa (by norm_num)
    linarith
  obtain ⟨t1, t2⟩ := abs_le.1 ht'
  have hsum : |((k / 100 : Int) : ℚ) + F64.nearest (((k % 100 : Int) : ℚ) / 100)|
      ≤ 9223372038 := by
    rw [abs_le]; constructor <;> linarith
  have hS := F64.nearest_err
    (((k / 100 : Int) : ℚ) + F64.nearest (((k % 100 : Int) : ℚ) / 100))
  have hS' : |F64.nearest (((k / 100 : Int) : ℚ) + F64.nearest (((k % 100 : Int) : ℚ) / 100))
      - (((k / 100 : Int) : ℚ) + F64.nearest (((k % 100 : Int) : ℚ) / 100))|
      ≤ 2 / 1000000 := by
    refine hS.trans ?_
    have : |((k / 100 : Int) : ℚ) + F64.nearest (((k % 100 : Int) : ℚ) / 100)|
        / 9007199254740992 ≤ 9223372038 / 9007199254740992 :=
      div_le_div_of_nonneg_right hsum (by norm_num)
    have c : (9223372038 : ℚ) / 9007199254740992 ≤ 11 / 10000000 := by norm_num
    linarith
  obtain ⟨u1, u2⟩ := abs_le.1 hS'
  rw [abs_lt, hk100]
  constructor <;> linarith

end Report

namespace Http

theorem text_latency (r : Results) :
    r.text .min = some (.duration r.MinLatency) ∧ r.text .max = some (.duration r.MaxLatency) ∧
    r.text .avg = some (.duration r.AvgLatency) ∧ r.text .p50 = some (.duration r.P50Latency) ∧
    r.text .p95 = some (.duration r.P95Latency) ∧
    r.text .p99 = some (.duration r.P99Latency) :=
  ⟨rfl, rfl, rfl, rfl, rfl, rfl⟩

theorem json_latency (r : Results) :
    r.json .min = some (Report.ms r.MinLatency) ∧ r.json .max = some (Report.ms r.MaxLatency) ∧
    r.json .avg = some (Report.ms r.AvgLatency) ∧ r.json .p50 = some (Report.ms r.P50Latency) ∧
    r.json .p95 = some (Report.ms r.P95Latency) ∧
    r.json .p99 = some (Report.ms r.P99Latency) :=
  ⟨rfl, rfl, rfl, rfl, rfl, rfl⟩

theorem quantity_ms (k : Int) :
    Report.Shown.quantity 1000000 (.fixed2 k) = Report.Shown.quantity 1 (.duration (10000 * k)) := by
  simp only [Report.Shown.quantity]
  congr 1
  push_cast
  ring

theorem quantity_seconds (k : Int) :
    Report.Shown.quantity 1000000000 (.fixed2 k)
      = Report.Shown.quantity 1 (.duration (10000000 * k)) := by
  simp only [Report.Shown.quantity]
  congr 1
  push_cast
  ring

/-- Counterexample to C22 as stated: for the `Results` finalized from the single
latency of 999 ns the text report displays a minimum latency of 999 ns and the
structured report one of 0.00 ms. -/
theorem report_latency_differs :
    (calculateStatistics (withLatencies [999])).textQuantity .min = some 999 ∧
    (calculateStatistics (withLatencies [999])).jsonQuantity .min = some 0 := by
  have hmin : (calculateStatistics (withLatencies [999])).MinLatency = 999 := by decide
  constructor
  · unfold Results.textQuantity
    rw [(text_latency _).1, hmin]
    simp [Report.Shown.quantity]
  · unfold Results.jsonQuantity
    rw [(json_latency _).1, hmin, Report.ms_of_small]
    simp [Report.Shown.quantity]

/-- C22 (amended): the two reports display the same values for the counters and
the rate, and the same times up to the precision of the structured report.  For
every `Results`: the total, success and failed counters and the rate are
displayed alike by `ToString` and `ToJSON`; each latency (min, max, avg, p50,
p95, p99) is displayed exactly by `ToString` and by `ToJSON` as its whole
microseconds divided by 1000 in `float64`, rounded to two decimals, which is the
same time when the latency is a multiple of 10 µs in the `int64` range; the
duration is displayed exactly by `ToString` and by `ToJSON` as its `float64`
seconds rounded to two decimals, which is the same time when the duration is a
non-negative multiple of 10 ms. -/
theorem report_values (r : Results) :
    (∀ f ∈ [Field.total, Field.success, Field.failed, Field.rate],
      r.text f = r.json f ∧ (r.text f).isSome = true) ∧
    (∀ p ∈ [(Field.min, r.MinLatency), (Field.max, r.MaxLatency), (Field.avg, r.AvgLatency),
        (Field.p50, r.P50Latency), (Field.p95, r.P95Latency), (Field.p99, r.P99Latency)],
      r.text p.1 = some (.duration p.2) ∧ r.json p.1 = some (Report.ms p.2) ∧
      ∀ k : Int, |k| ≤ 922337203685477 → p.2 = 10000 * k →
        r.json p.1 = some (.fixed2 k) ∧ r.textQuantity p.1 = r.jsonQuantity p.1) ∧
    r.text .duration = some (.duration r.TotalDuration) ∧
    r.json .duration
      = some (Report.fixed2 (.finite (Patterns.Seconds r.TotalDuration))) ∧
    (∀ k : Int, 0 ≤ k → k ≤ 922337203685 → r.TotalDuration = 10000000 * k →
      r.json .duration = some (.fixed2 k) ∧
      r.textQuantity .duration = r.jsonQuantity .duration) := by
  have ht := text_latency r
  have hj := json_latency r
  have key : ∀ (f : Field) (d : Int), f.unit = 1000000 → r.text f = some (.duration d) →
      r.json f = some (Report.ms d) →
      ∀ k : Int, |k| ≤ 922337203685477 → d = 10000 * k →
        r.json f = some (.fixed2 k) ∧ r.textQuantity f = r.jsonQuantity f := by
    intro f d hu h1 h2 k hk hd
    have h3 : r.json f = some (.fixed2 k) := by rw [h2, hd, Report.ms_of_multiple k hk]
    refine ⟨h3, ?_⟩
    unfold Results.textQuantity Results.jsonQuantity
    rw [h1, h3, hu, hd, Option.some_bind, Option.some_bind]
    exact (quantity_ms k).symm
  refine ⟨?_, ?_, rfl, rfl, ?_⟩
  · intro f hf
    simp only [List.mem_cons, List.mem_singleton, List.not_mem_nil, or_false] at hf
    rcases hf with rfl | rfl | rfl | rfl <;> exact ⟨rfl, rfl⟩
  · intro p hp
    simp only [List.mem_cons, List.mem_singleton, List.not_mem_nil, or_false] at hp
    rcases hp with rfl | rfl | rfl | rfl | rfl | rfl
    · exact ⟨ht.1, hj.1, key _ _ rfl ht.1 hj.1⟩
    · exact ⟨ht.2.1, hj.2.1, key _ _ rfl ht.2.1 hj.2.1⟩
    · exact ⟨ht.2.2.1, hj.2.2.1, key _ _ rfl ht.2.2.1 hj.2.2.1⟩
    · exact ⟨ht.2.2.2.1, hj.2.2.2.1, key _ _ rfl ht.2.2.2.1 hj.2.2.2.1⟩
    · exact ⟨ht.2.2.2.2.1, hj.2.2.2.2.1, key _ _ rfl ht.2.2.2.2.1 hj.2.2.2.2.1⟩
    · exact ⟨ht.2.2.2.2.2, hj.2.2.2.2.2, key _ _ rfl ht.2.2.2.2.2 hj.2.2.2.2.2⟩
  · intro k h0 hk hd
    have h1 : r.text .duration = some (.duration r.TotalDuration) := rfl
    have h2 : r.json .duration
        = some (Report.fixed2 (.finite (Patterns.Seconds r.TotalDuration))) := rfl
    have h3 : r.json .duration = some (.fixed2 k) := by
      rw [h2, hd, Report.seconds_of_multiple k h0 hk]
    refine ⟨h3, ?_⟩
    unfold Results.textQuantity Results.jsonQuantity
    rw [h1, h3, hd, Option.some_bind, Option.some_bind]
    exact (quantity_seconds k).symm

/-- Witness of C22 (amended): a `Results` with a minimum latency of 1.25 ms; both
reports display 1.25 ms. -/
theorem report_values_witness :
    ({ newResults with MinLatency := 1250000 } : Results).json .min = some (.fixed2 125) ∧
    ({ newResults with MinLatency := 1250000 } : Results).textQuantity .min
      = ({ newResults with MinLatency := 1250000 } : Results).jsonQuantity .min :=
  ((report_values { newResults with MinLatency := 1250000 }).2.1
    (Field.min, 1250000) (List.mem_cons_self _ _)).2.2 125 (by decide) (by decide)

end Http

namespace F64

theorem roundHalfEven_even_of_tie (y : ℚ) (h : |(roundHalfEven y : ℚ) - y| = 1 / 2) :
    roundHalfEven y % 2 = 0 := by
  have h1 : (⌊y⌋ : ℚ) ≤ y := Int.floor_le y
  have h2 : y < (⌊y⌋ : ℚ) + 1 := Int.lt_floor_add_one y
  unfold roundHalfEven at h ⊢
  split_ifs at h ⊢ with ha hb hc
  · rw [abs_sub_comm, abs_of_nonneg (by linarith)] at h
    linarith
  · push_cast at h
    rw [abs_of_nonneg (by linarith)] at h
    linarith
  · exact hc
  · omega

theorem roundHalfEven_mono {y₁ y₂ : ℚ} (h : y₁ ≤ y₂) : roundHalfEven y₁ ≤ roundHalfEven y₂ := by
  by_contra hlt
  have hlt' : roundHalfEven y₂ + 1 ≤ roundHalfEven y₁ := by omega
  have hq : ((roundHalfEven y₂ : Int) : ℚ) + 1 ≤ (roundHalfEven y₁ : ℚ) := by exact_mod_cast hlt'
  have e1 := abs_le.1 (roundHalfEven_err y₁)
  have e2 := abs_le.1 (roundHalfEven_err y₂)
  have t1 : |(roundHalfEven y₁ : ℚ) - y₁| = 1 / 2 := by
    rw [abs_of_nonneg (by linarith)]; linarith
  have t2 : |(roundHalfEven y₂ : ℚ) - y₂| = 1 / 2 := by
    rw [abs_of_nonpos (by linarith)]; linarith
  have p1 := roundHalfEven_even_of_tie y₁ t1
  have p2 := roundHalfEven_even_of_tie y₂ t2
  have hle : (roundHalfEven y₁ : ℚ) ≤ (roundHalfEven y₂ : ℚ) + 1 := by linarith
  have hle' : roundHalfEven y₁ ≤ roundHalfEven y₂ + 1 := by exact_mod_cast hle
  omega

theorem roundHalfEven_unique (y : ℚ) (n : Int) (h1 : |(n : ℚ) - y| ≤ 1 / 2)
    (h2 : |(n : ℚ) - y| = 1 / 2 → n % 2 = 0) : roundHalfEven y = n := by
  have e1 := abs_le.1 (roundHalfEven_err y)
  have e2 := abs_le.1 h1
  have hu : (roundHalfEven y : ℚ) ≤ (n : ℚ) + 1 := by linarith
  have hl : (n : ℚ) ≤ (roundHalfEven y : ℚ) + 1 := by linarith
  have hu' : roundHalfEven y ≤ n + 1 := by exact_mod_cast hu
  have hl' : n ≤ roundHalfEven y + 1 := by exact_mod_cast hl
  by_contra hne
  rcases (by omega : roundHalfEven y = n + 1 ∨ n = roundHalfEven y + 1) with hc | hc
  · have hq : (roundHalfEven y : ℚ) = (n : ℚ) + 1 := by exact_mod_cast hc
    have t1 : |(roundHalfEven y : ℚ) - y| = 1 / 2 := by
      rw [abs_of_nonneg (by linarith)]; linarith
    have t2 : |(n : ℚ) - y| = 1 / 2 := by
      rw [abs_of_nonpos (by linarith)]; linarith
    have p1 := roundHalfEven_even_of_tie y t1
    have p2 := h2 t2
    omega
  · have hq : (n : ℚ) = (roundHalfEven y : ℚ) + 1 := by exact_mod_cast hc
    have t1 : |(roundHalfEven y : ℚ) - y| = 1 / 2 := by
      rw [abs_of_nonpos (by linarith)]; linarith
    have t2 : |(n : ℚ) - y| = 1 / 2 := by
      rw [abs_of_nonneg (by linarith)]; linarith
    have p1 := roundHalfEven_even_of_tie y t1
    have p2 := h2 t2
    omega

theorem roundHalfEven_neg (y : ℚ) : roundHalfEven (-y) = -roundHalfEven y := by
  apply roundHalfEven_unique
  · have := roundHalfEven_err y
    rw [show ((-roundHalfEven y : Int) : ℚ) - -y = -((roundHalfEven y : ℚ) - y) by push_cast; ring,
      abs_neg]
    exact this
  · intro h
    rw [show ((-roundHalfEven y : Int) : ℚ) - -y = -((roundHalfEven y : ℚ) - y) by push_cast; ring,
      abs_neg] at h
    have := roundHalfEven_even_of_tie y h
    omega

theorem nearest_neg (q : ℚ) : nearest (-q) = -nearest q := by
  unfold nearest ulp exponent
  rw [abs_neg, neg_div, roundHalfEven_neg]
  push_cast
  ring

theorem nearest_nonneg {q : ℚ} (h : 0 ≤ q) : 0 ≤ nearest q := by
  unfold nearest
  have hu := ulp_pos q
  have h1 : (0 : ℚ) ≤ q / ulp q := div_nonneg h (le_of_lt hu)
  have h2 := roundHalfEven_mono h1
  rw [show (0 : ℚ) = ((0 : Int) : ℚ) by norm_num, roundHalfEven_intCast] at h2
  have h3 : (0 : ℚ) ≤ (roundHalfEven (q / ulp q) : ℚ) := by exact_mod_cast h2
  exact mul_nonneg h3 (le_of_lt hu)

theorem nearest_nonpos {q : ℚ} (h : q ≤ 0) : nearest q ≤ 0 := by
  have := nearest_nonneg (neg_nonneg.2 h)
  rw [nearest_neg] at this
  linarith

theorem nearest_le_pow {q : ℚ} (hq : 0 < q) :
    nearest q ≤ (2 : ℚ) ^ (max (exponent q) (-1022) + 1) := by
  have hu : (0 : ℚ) < (2 : ℚ) ^ (max (exponent q) (-1022) - 52) := zpow_pos (by norm_num) _
  obtain ⟨_, h2⟩ := exponent_spec q (ne_of_gt hq)
  rw [abs_of_pos hq] at h2
  have hle : (2 : ℚ) ^ (exponent q + 1) ≤ (2 : ℚ) ^ (max (exponent q) (-1022) + 1) :=
    zpow_le_zpow_right₀ (by norm_num) (by omega)
  have hsplit : (2 : ℚ) ^ (max (exponent q) (-1022) + 1)
      = 9007199254740992 * (2 : ℚ) ^ (max (exponent q) (-1022) - 52) := by
    rw [show max (exponent q) (-1022) + 1 = 53 + (max (exponent q) (-1022) - 52) by ring,
      zpow_add₀ (by norm_num)]
    norm_num
  have hdiv : q / (2 : ℚ) ^ (max (exponent q) (-1022) - 52) ≤ ((9007199254740992 : Int) : ℚ) := by
    rw [div_le_iff₀ hu]
    push_cast
    linarith
  have hr := roundHalfEven_mono hdiv
  rw [roundHalfEven_intCast] at hr
  have hr' : (roundHalfEven (q / (2 : ℚ) ^ (max (exponent q) (-1022) - 52)) : ℚ)
      ≤ 9007199254740992 := by exact_mod_cast hr
  unfold nearest ulp
  rw [hsplit]
  exact mul_le_mul_of_nonneg_right hr' (le_of_lt hu)

theorem pow_le_nearest {q : ℚ} (hq : 0 < q) (he : -1022 ≤ exponent q) :
    (2 : ℚ) ^ (exponent q) ≤ nearest q := by
  have hmax : max (exponent q) (-1022) = exponent q := max_eq_left he
  have hu : (0 : ℚ) < (2 : ℚ) ^ (exponent q - 52) := zpow_pos (by norm_num) _
  obtain ⟨h1, _⟩ := exponent_spec q (ne_of_gt hq)
  rw [abs_of_pos hq] at h1
  have hsplit : (2 : ℚ) ^ (exponent q) = 4503599627370496 * (2 : ℚ) ^ (exponent q - 52) := by
    rw [show exponent q = 52 + (exponent q - 52) by ring, zpow_add₀ (by norm_num)]
    norm_num
  have hdiv : ((4503599627370496 : Int) : ℚ) ≤ q / (2 : ℚ) ^ (exponent q - 52) := by
    rw [le_div_iff₀ hu]
    push_cast
    linarith
  have hr := roundHalfEven_mono hdiv
  rw [roundHalfEven_intCast] at hr
  have hr' : (4503599627370496 : ℚ) ≤ (roundHalfEven (q / (2 : ℚ) ^ (exponent q - 52)) : ℚ) := by
    exact_mod_cast hr
  unfold nearest ulp
  rw [hmax]
  nth_rewrite 1 [hsplit]
  exact mul_le_mul_of_nonneg_right hr' (le_of_lt hu)

theorem nearest_mono_pos {q₁ q₂ : ℚ} (h1 : 0 < q₁) (h : q₁ ≤ q₂) : nearest q₁ ≤ nearest q₂ := by
  have h2 : 0 < q₂ := lt_of_lt_of_le h1 h
  have he : exponent q₁ ≤ exponent q₂ := by
    unfold exponent
    rw [abs_of_pos h1, abs_of_pos h2]
    exact Int.log_mono_right h1 h
  rcases lt_or_eq_of_le (max_le_max he (le_refl (-1022 : Int))) with hlt | heq
  · have he2 : -1022 ≤ exponent q₂ := by
      rcases le_total (exponent q₂) (-1022) with hc | hc
      · rw [max_eq_right hc] at hlt
        have := le_max_right (exponent q₁) (-1022)
        omega
      · exact hc
    have hmax : max (exponent q₂) (-1022) = exponent q₂ := max_eq_left he2
    rw [hmax] at hlt
    calc nearest q₁ ≤ (2 : ℚ) ^ (max (exponent q₁) (-1022) + 1) := nearest_le_pow h1
      _ ≤ (2 : ℚ) ^ (exponent q₂) := zpow_le_zpow_right₀ (by norm_num) (by omega)
      _ ≤ nearest q₂ := pow_le_nearest h2 he2
  · have hu : ulp q₁ = ulp q₂ := by unfold ulp; rw [heq]
    unfold nearest
    rw [hu]
    have hpos := ulp_pos q₂
    have hdiv : q₁ / ulp q₂ ≤ q₂ / ulp q₂ := div_le_div_of_nonneg_right h (le_of_lt hpos)
    have hr := roundHalfEven_mono hdiv
    have hr' : (roundHalfEven (q₁ / ulp q₂) : ℚ) ≤ (roundHalfEven (q₂ / ulp q₂) : ℚ) := by
      exact_mod_cast hr
    exact mul_le_mul_of_nonneg_right hr' (le_of_lt hpos)

/-- Rounding to `float64` is monotone. -/
theorem nearest_mono {q₁ q₂ : ℚ} (h : q₁ ≤ q₂) : nearest q₁ ≤ nearest q₂ := by
  rcases lt_trichotomy 0 q₁ with h1 | h1 | h1
  · exact nearest_mono_pos h1 h
  · subst h1
    rw [nearest_zero]
    exact nearest_nonneg h
  · rcases le_or_lt 0 q₂ with h2 | h2
    · exact le_trans (nearest_nonpos (le_of_lt h1)) (nearest_nonneg h2)
    · have := nearest_mono_pos (neg_pos.2 h2) (neg_le_neg h)
      rw [nearest_neg, nearest_neg] at this
      linarith

/-- A `float64` value rounds to itself. -/
theorem nearest_idem (q : ℚ) : nearest (nearest q) = nearest q := by
  have key : ∀ x : ℚ, 0 < x → nearest (nearest x) = nearest x := by
    intro x hx
    have hu : (0 : ℚ) < (2 : ℚ) ^ (max (exponent x) (-1022) - 52) := zpow_pos (by norm_num) _
    have hj : -1074 ≤ max (exponent x) (-1022) - 52 := by
      have := le_max_right (exponent x) (-1022)
      omega
    have hm0 : 0 ≤ roundHalfEven (x / (2 : ℚ) ^ (max (exponent x) (-1022) - 52)) := by
      have h0 : ((0 : Int) : ℚ) ≤ x / (2 : ℚ) ^ (max (exponent x) (-1022) - 52) := by
        push_cast
        exact div_nonneg (le_of_lt hx) (le_of_lt hu)
      have := roundHalfEven_mono h0
      rwa [roundHalfEven_intCast] at this
    have hm1 : roundHalfEven (x / (2 : ℚ) ^ (max (exponent x) (-1022) - 52))
        ≤ 9007199254740992 := by
      obtain ⟨_, h2⟩ := exponent_spec x (ne_of_gt hx)
      rw [abs_of_pos hx] at h2
      have hle : (2 : ℚ) ^ (exponent x + 1) ≤ (2 : ℚ) ^ (max (exponent x) (-1022) + 1) :=
        zpow_le_zpow_right₀ (by norm_num) (by omega)
      have hsplit : (2 : ℚ) ^ (max (exponent x) (-1022) + 1)
          = 9007199254740992 * (2 : ℚ) ^ (max (exponent x) (-1022) - 52) := by
        rw [show max (exponent x) (-1022) + 1 = 53 + (max (exponent x) (-1022) - 52) by ring,
          zpow_add₀ (by norm_num)]
        norm_num
      have hdiv : x / (2 : ℚ) ^ (max (exponent x) (-1022) - 52)
          ≤ ((9007199254740992 : Int) : ℚ) := by
        rw [div_le_iff₀ hu]
        push_cast
        linarith
      have := roundHalfEven_mono hdiv
      rwa [roundHalfEven_intCast] at this
    have hx' : nearest x = (roundHalfEven (x / (2 : ℚ) ^ (max (exponent x) (-1022) - 52)) : ℚ)
        * (2 : ℚ) ^ (max (exponent x) (-1022) - 52) := rfl
    rw [hx']
    rcases lt_or_eq_of_le hm1 with hlt | heq
    · exact nearest_exact _ _ (by rw [abs_lt]; constructor <;> omega) hj
    · rw [heq]
      have := nearest_exact 4503599627370496 (max (exponent x) (-1022) - 52 + 1) (by decide)
        (by omega)
      have e : ((9007199254740992 : Int) : ℚ) * (2 : ℚ) ^ (max (exponent x) (-1022) - 52)
          = ((4503599627370496 : Int) : ℚ) * (2 : ℚ) ^ (max (exponent x) (-1022) - 52 + 1) := by
        rw [zpow_add₀ (by norm_num)]
        push_cast
        ring
      rw [e]
      exact this
  rcases lt_trichotomy 0 q with h | h | h
  · exact key q h
  · subst h
    rw [nearest_zero, nearest_zero]
  · have := key (-q) (neg_pos.2 h)
    rw [nearest_neg, nearest_neg] at this
    exact neg_injective this

theorem nearest_two_pow_61 : nearest 2305843009213693952 = 2305843009213693952 := by
  have := nearest_exact 1 61 (by decide) (by decide)
  norm_num at this ⊢
  exact this

theorem nearest_two_pow_62 : nearest 4611686018427387904 = 4611686018427387904 := by
  have := nearest_exact 1 62 (by decide) (by decide)
  norm_num at this ⊢
  exact this

theorem nearest_one : nearest 1 = 1 := by
  have := nearest_intCast 1 (by decide)
  norm_num at this ⊢
  exact this

/-- The conversion to `int` of the rounding of a value between 0 and `2^62` is not
negative. -/
theorem toInt_Round_nonneg (x : ℚ) (h0 : 0 ≤ x) (h1 : x ≤ 4611686018427387904) :
    0 ≤ toInt (Round x) := by
  have hf0 : 0 ≤ ⌊x + 1 / 2⌋ := Int.floor_nonneg.2 (by linarith)
  have hf1 : ⌊x + 1 / 2⌋ ≤ 4611686018427387904 := by
    have : ⌊x + 1 / 2⌋ < 4611686018427387904 + 1 := by
      rw [Int.floor_lt]
      push_cast
      linarith
    omega
  have hR : Round x = ((⌊x + 1 / 2⌋ : Int) : ℚ) := by
    unfold Round
    rw [if_pos h0]
  rw [hR, toInt_intCast _ (by omega) (by omega)]
  exact hf0

/-- The value a ramp computes for rates between 0 and `2^61` at a second before
its end lies between 0 and `2^62`. -/
theorem ramp_value_bounds (a b s t : Int) (ha : 0 ≤ a) (ha' : a ≤ 2305843009213693952)
    (hb : 0 ≤ b) (hb' : b ≤ 2305843009213693952) (hs : 0 ≤ s) (hst : s < t) :
    0 ≤ add (ofInt a) (mul (ofInt (wrap64 (b - a))) (div (ofInt s) (ofInt t))) ∧
    add (ofInt a) (mul (ofInt (wrap64 (b - a))) (div (ofInt s) (ofInt t)))
      ≤ 4611686018427387904 := by
  rw [wrap64_of_range _ (by omega) (by omega)]
  unfold add mul div ofInt
  have hsq : (0 : ℚ) ≤ (s : ℚ) := by exact_mod_cast hs
  have hstq : (s : ℚ) ≤ (t : ℚ) := by exact_mod_cast (le_of_lt hst)
  have htq : (1 : ℚ) ≤ (t : ℚ) := by exact_mod_cast (by omega : (1 : Int) ≤ t)
  have fs0 : 0 ≤ nearest (s : ℚ) := nearest_nonneg hsq
  have fst : nearest (s : ℚ) ≤ nearest (t : ℚ) := nearest_mono hstq
  have ft1 : 1 ≤ nearest (t : ℚ) := by
    have := nearest_mono htq
    rwa [nearest_one] at this
  have ftpos : 0 < nearest (t : ℚ) := by linarith
  have r0 : 0 ≤ nearest (s : ℚ) / nearest (t : ℚ) := div_nonneg fs0 (le_of_lt ftpos)
  have r1 : nearest (s : ℚ) / nearest (t : ℚ) ≤ 1 := (div_le_one ftpos).2 fst
  have p0 : 0 ≤ nearest (nearest (s : ℚ) / nearest (t : ℚ)) := nearest_nonneg r0
  have p1 : nearest (nearest (s : ℚ) / nearest (t : ℚ)) ≤ 1 := by
    have := nearest_mono r1
    rwa [nearest_one] at this
  have haq : (0 : ℚ) ≤ (a : ℚ) := by exact_mod_cast ha
  have haq' : (a : ℚ) ≤ 2305843009213693952 := by exact_mod_cast ha'
  have hbq : (0 : ℚ) ≤ (b : ℚ) := by exact_mod_cast hb
  have hbq' : (b : ℚ) ≤ 2305843009213693952 := by exact_mod_cast hb'
  have A0 : 0 ≤ nearest (a : ℚ) := nearest_nonneg haq
  have A1 : nearest (a : ℚ) ≤ 2305843009213693952 := by
    have := nearest_mono haq'
    rwa [nearest_two_pow_61] at this
  generalize hp : nearest (nearest (s : ℚ) / nearest (t : ℚ)) = p at p0 p1 ⊢
  rcases le_total a b with hab | hab
  · have hc0 : (0 : ℚ) ≤ ((b - a : Int) : ℚ) := by exact_mod_cast (by omega : (0 : Int) ≤ b - a)
    have hc1 : ((b - a : Int) : ℚ) ≤ 2305843009213693952 := by
      exact_mod_cast (by omega : b - a ≤ 2305843009213693952)
    have c0 : 0 ≤ nearest ((b - a : Int) : ℚ) := nearest_nonneg hc0
    have c1 : nearest ((b - a : Int) : ℚ) ≤ 2305843009213693952 := by
      have := nearest_mono hc1
      rwa [nearest_two_pow_61] at this
    have m0 : 0 ≤ nearest ((b - a : Int) : ℚ) * p := mul_nonneg c0 p0
    have m1 : nearest ((b - a : Int) : ℚ) * p ≤ nearest ((b - a : Int) : ℚ) := by
      nlinarith
    have pr0 : 0 ≤ nearest (nearest ((b - a : Int) : ℚ) * p) := nearest_nonneg m0
    have pr1 : nearest (nearest ((b - a : Int) : ℚ) * p) ≤ nearest ((b - a : Int) : ℚ) := by
      have := nearest_mono m1
      rwa [nearest_idem] at this
    constructor
    · exact nearest_nonneg (by linarith)
    · have := nearest_mono (by linarith :
        nearest (a : ℚ) + nearest (nearest ((b - a : Int) : ℚ) * p) ≤ 4611686018427387904)
      rwa [nearest_two_pow_62] at this
  · have hneg : ((b - a : Int) : ℚ) = -((a - b : Int) : ℚ) := by push_cast; ring
    have hd0 : (0 : ℚ) ≤ ((a - b : Int) : ℚ) := by exact_mod_cast (by omega : (0 : Int) ≤ a - b)
    have hd1 : ((a - b : Int) : ℚ) ≤ (a : ℚ) := by exact_mod_cast (by omega : a - b ≤ a)
    have d0 : 0 ≤ nearest ((a - b : Int) : ℚ) := nearest_nonneg hd0
    have d1 : nearest ((a - b : Int) : ℚ) ≤ nearest (a : ℚ) := nearest_mono hd1
    rw [hneg, nearest_neg]
    have m0 : -nearest ((a - b : Int) : ℚ) * p ≤ 0 := by nlinarith
    have m1 : -nearest ((a - b : Int) : ℚ) ≤ -nearest ((a - b : Int) : ℚ) * p := by nlinarith
    have pr0 : nearest (-nearest ((a - b : Int) : ℚ) * p) ≤ 0 := nearest_nonpos m0
    have pr1 : -nearest ((a - b : Int) : ℚ) ≤ nearest (-nearest ((a - b : Int) : ℚ) * p) := by
      have := nearest_mono m1
      rwa [nearest_neg, nearest_idem] at this
    constructor
    · exact nearest_nonneg (by linarith)
    · have := nearest_mono (by linarith :
        nearest (a : ℚ) + nearest (-nearest ((a - b : Int) : ℚ) * p) ≤ 4611686018427387904)
      rwa [nearest_two_pow_62] at this

/-- The value a wave computes for rates between 0 and `2^61` and a sine value
between -1 and 1 lies between 0 and `2^62`. -/
theorem wave_value_bounds (a b : Int) (σ : ℚ) (ha : 0 ≤ a) (ha' : a ≤ 2305843009213693952)
    (hb : 0 ≤ b) (hb' : b ≤ 2305843009213693952) (hσ : |σ| ≤ 1) :
    0 ≤ add (div (ofInt (wrap64 (a + b))) 2) (mul (div (ofInt (wrap64 (b - a))) 2) σ) ∧
    add (div (ofInt (wrap64 (a + b))) 2) (mul (div (ofInt (wrap64 (b - a))) 2) σ)
      ≤ 4611686018427387904 := by
  rw [wrap64_of_range (a + b) (by omega) (by omega),
    wrap64_of_range (b - a) (by omega) (by omega)]
  unfold add mul div ofInt
  obtain ⟨s1, s2⟩ := abs_le.1 hσ
  have hm0 : (0 : ℚ) ≤ ((a + b : Int) : ℚ) := by exact_mod_cast (by omega : (0 : Int) ≤ a + b)
  have hm1 : ((a + b : Int) : ℚ) ≤ 4611686018427387904 := by
    exact_mod_cast (by omega : a + b ≤ 4611686018427387904)
  have hd1 : ((b - a : Int) : ℚ) ≤ ((a + b : Int) : ℚ) := by
    exact_mod_cast (by omega : b - a ≤ a + b)
  have hd0 : -((a + b : Int) : ℚ) ≤ ((b - a : Int) : ℚ) := by
    have : ((-(a + b) : Int) : ℚ) ≤ ((b - a : Int) : ℚ) := by
      exact_mod_cast (by omega : -(a + b) ≤ b - a)
    push_cast at this ⊢
    linarith
  have fm0 : 0 ≤ nearest ((a + b : Int) : ℚ) := nearest_nonneg hm0
  have fm1 : nearest ((a + b : Int) : ℚ) ≤ 4611686018427387904 := by
    have := nearest_mono hm1
    rwa [nearest_two_pow_62] at this
  have fd1 : nearest ((b - a : Int) : ℚ) ≤ nearest ((a + b : Int) : ℚ) := nearest_mono hd1
  have fd0 : -nearest ((a + b : Int) : ℚ) ≤ nearest ((b - a : Int) : ℚ) := by
    have := nearest_mono hd0
    rwa [nearest_neg] at this
  generalize nearest ((a + b : Int) : ℚ) = fm at fm0 fm1 fd0 fd1 ⊢
  generalize nearest ((b - a : Int) : ℚ) = fd at fd0 fd1 ⊢
  have mid0 : 0 ≤ nearest (fm / 2) := nearest_nonneg (by linarith)
  have mid1 : nearest (fm / 2) ≤ 2305843009213693952 := by
    have := nearest_mono (by linarith : fm / 2 ≤ 2305843009213693952)
    rwa [nearest_two_pow_61] at this
  have amp1 : nearest (fd / 2) ≤ nearest (fm / 2) := nearest_mono (by linarith)
  have amp0 : -nearest (fm / 2) ≤ nearest (fd / 2) := by
    have := nearest_mono (by linarith : -(fm / 2) ≤ fd / 2)
    rwa [nearest_neg] at this
  have hmidem : nearest (nearest (fm / 2)) = nearest (fm / 2) := nearest_idem _
  generalize nearest (fm / 2) = mid at mid0 mid1 amp0 amp1 hmidem ⊢
  generalize nearest (fd / 2) = amp at amp0 amp1 ⊢
  have q1 : amp * σ ≤ mid := by
    rcases le_total 0 amp with h | h
    · nlinarith
    · nlinarith
  have q0 : -mid ≤ amp * σ := by
    rcases le_total 0 amp with h | h
    · nlinarith
    · nlinarith
  have pr1 : nearest (amp * σ) ≤ mid := by
    have := nearest_mono q1
    rwa [hmidem] at this
  have pr0 : -mid ≤ nearest (amp * σ) := by
    have := nearest_mono q0
    rwa [nearest_neg, hmidem] at this
  constructor
  · exact nearest_nonneg (by linarith)
  · have := nearest_mono (by linarith : mid + nearest (amp * σ) ≤ 4611686018427387904)
    rwa [nearest_two_pow_62] at this

end F64

namespace Patterns

/-- The whole seconds of a duration that is not negative are not negative. -/
theorem secondsInt_nonneg (d : Int) (h : 0 ≤ d) : 0 ≤ secondsInt d := by
  unfold secondsInt
  split_ifs with hr
  · have hsec0 : 0 ≤ Int.tdiv d Second := by
      unfold Second
      rw [Int.tdiv_eq_ediv h (by decide)]
      omega
    have hsec1 : Int.tdiv d Second ≤ 9223372036 := by
      unfold Second
      rw [Int.tdiv_eq_ediv h (by decide)]
      omega
    have hn0 : 0 ≤ Int.tmod d Second := by
      unfold Second
      rw [Int.tmod_eq_emod h (by decide)]
      omega
    have hn1 : Int.tmod d Second < 1000000000 := by
      unfold Second
      rw [Int.tmod_eq_emod h (by decide)]
      omega
    have hx0 : 0 ≤ Seconds d := by
      unfold Seconds F64.add F64.div F64.ofInt
      apply F64.nearest_nonneg
      have a0 : (0 : ℚ) ≤ F64.nearest ((Int.tdiv d Second : Int) : ℚ) :=
        F64.nearest_nonneg (by exact_mod_cast hsec0)
      have b0 : (0 : ℚ) ≤ F64.nearest ((Int.tmod d Second : Int) : ℚ) :=
        F64.nearest_nonneg (by exact_mod_cast hn0)
      have c0 : (0 : ℚ) ≤ F64.nearest (F64.nearest ((Int.tmod d Second : Int) : ℚ) / 1000000000) :=
        F64.nearest_nonneg (div_nonneg b0 (by norm_num))
      linarith
    have hx1 : Seconds d ≤ 9223372037 := by
      unfold Seconds F64.add F64.div
      rw [F64.ofInt_eq _ (by rw [abs_le]; constructor <;> omega),
        F64.ofInt_eq _ (by rw [abs_le]; constructor <;> omega)]
      have a1 : ((Int.tdiv d Second : Int) : ℚ) ≤ 9223372036 := by exact_mod_cast hsec1
      have b0 : (0 : ℚ) ≤ ((Int.tmod d Second : Int) : ℚ) := by exact_mod_cast hn0
      have b1 : ((Int.tmod d Second : Int) : ℚ) ≤ 1000000000 := by
        exact_mod_cast (le_of_lt hn1)
      have c1 : F64.nearest (((Int.tmod d Second : Int) : ℚ) / 1000000000) ≤ 1 := by
        have := F64.nearest_mono
          (by rw [div_le_one (by norm_num)]; exact b1 :
            ((Int.tmod d Second : Int) : ℚ) / 1000000000 ≤ 1)
        rwa [F64.nearest_one] at this
      have := F64.nearest_mono (by linarith :
        ((Int.tdiv d Second : Int) : ℚ)
          + F64.nearest (((Int.tmod d Second : Int) : ℚ) / 1000000000)
          ≤ ((9223372037 : Int) : ℚ))
      rw [F64.nearest_intCast _ (by decide)] at this
      exact_mod_cast this
    have hf0 : 0 ≤ ⌊Seconds d⌋ := Int.floor_nonneg.2 hx0
    have hf1 : ⌊Seconds d⌋ ≤ 9223372037 := by
      have : ⌊Seconds d⌋ < 9223372037 + 1 := by
        rw [Int.floor_lt]
        push_cast
        linarith
      omega
    unfold F64.toInt
    dsimp only
    rw [if_pos hx0, if_pos ⟨by omega, by omega⟩]
    exact hf0
  · rw [Int.tdiv_eq_ediv h (by decide)]
    omega

theorem sin_le_one (sin : ℚ → ℚ) (hsin : ∀ x, |sin x| ≤ 1) (x : ℚ) : |F64.Sin sin x| ≤ 1 := by
  unfold F64.Sin
  split_ifs
  · simp
  · exact hsin x

theorem rampLoad_rps_nonneg (a b d s : Int) (ha : 0 ≤ a) (ha' : a ≤ 2305843009213693952)
    (hb : 0 ≤ b) (hb' : b ≤ 2305843009213693952) (hs : 0 ≤ s) :
    0 ≤ (NewRampLoad a b d).RPS s := by
  unfold RampLoad.RPS NewRampLoad
  dsimp only
  split_ifs with h0 h1 h1
  · exact hb
  · have := F64.ramp_value_bounds a b s 60 ha ha' hb hb' hs (by omega)
    exact F64.toInt_Round_nonneg _ this.1 this.2
  · exact hb
  · have := F64.ramp_value_bounds a b s (secondsInt d) ha ha' hb hb' hs (by omega)
    exact F64.toInt_Round_nonneg _ this.1 this.2

theorem waveLoad_rps_nonneg (sin : ℚ → ℚ) (hsin : ∀ x, |sin x| ≤ 1) (a b p s : Int)
    (ha : 0 ≤ a) (ha' : a ≤ 2305843009213693952) (hb : 0 ≤ b)
    (hb' : b ≤ 2305843009213693952) :
    0 ≤ (NewWaveLoad a b p).RPS sin s := by
  unfold WaveLoad.RPS NewWaveLoad
  dsimp only
  have := F64.wave_value_bounds a b
    (F64.Sin sin (F64.div (F64.mul F64.twoPi (F64.ofInt s))
      (if Seconds p = 0 then 60 else Seconds p))) ha ha' hb hb' (sin_le_one sin hsin _)
  exact F64.toInt_Round_nonneg _ this.1 this.2

theorem stepLoad_rps_value (a k d s : Int) (ha : 0 ≤ a) (hk : 0 ≤ k) (hd : 0 ≤ d)
    (hs : 0 ≤ s) (hs64 : s < 9223372036854775808)
    (hfit : a + Int.tdiv s (if secondsInt d = 0 then 10 else secondsInt d) * k
      < 9223372036854775808) :
    0 ≤ (NewStepLoad a k d).RPS s ∧
    (NewStepLoad a k d).RPS s
      = a + Int.tdiv s (if secondsInt d = 0 then 10 else secondsInt d) * k := by
  have hsec := secondsInt_nonneg d hd
  have hpos : 0 < (if secondsInt d = 0 then 10 else secondsInt d) := by
    split
    · decide
    · omega
  obtain ⟨h1, h2⟩ := tdiv_bounds s _ hs hpos
  have hmul : 0 ≤ Int.tdiv s (if secondsInt d = 0 then 10 else secondsInt d) * k :=
    Int.mul_nonneg h1 hk
  have hval : (NewStepLoad a k d).RPS s
      = a + Int.tdiv s (if secondsInt d = 0 then 10 else secondsInt d) * k := by
    unfold StepLoad.RPS NewStepLoad
    dsimp only
    rw [wrap64_of_range (Int.tdiv s _) (by omega) (by omega),
      wrap64_of_range (_ * k) (by omega) (by omega),
      wrap64_of_range _ (by omega) (by omega)]
  rw [hval]
  exact ⟨by omega, rfl⟩

theorem ofInt_max_int : F64.ofInt 9223372036854775807 = 9223372036854775808 := by
  unfold F64.ofInt
  rw [F64.nearest_eval _ 62 9007199254740992 (by decide) (by norm_num [abs_of_pos])
    (by norm_num [abs_of_pos])]
  · norm_num
  · apply F64.roundHalfEven_of_close
    norm_num [abs_lt]

theorem toInt_two_pow_63 : F64.toInt 9223372036854775808 = -9223372036854775808 := by
  have hf : ⌊(9223372036854775808 : ℚ)⌋ = 9223372036854775808 := by
    rw [Int.floor_eq_iff]; norm_num
  have h0 : (0 : ℚ) ≤ 9223372036854775808 := by norm_num
  unfold F64.toInt
  simp only [h0, if_true, hf]
  decide

/-- Counterexample to C10 as stated: no variant clamps its result.  With negative
rates each of the five patterns returns a negative rate at second 0: Constant
`-5` gives `-5`, Spike with rates `-5` and `-1` gives `-1`, Step from `-5` gives
`-5`, Ramp from `-5` to 10 gives `-5`, Wave between `-10` and `-10` gives `-10`.
With rates that are not negative the arithmetic can still produce a negative
rate: Step from `2^62` by `2^62` gives `-2^63` at second 1 (the `int` sum wraps
around), Step from 0 by 10 with an interval of minus one second gives `-50` at
second 5, Wave between `2^62` and `2^62` gives `-2^62` (`min + max` wraps
around), and Ramp from `2^63 - 1` to `2^63 - 1` gives `-2^63` (the `float64`
value `2^63` is outside the `int` range). -/
theorem patterns_return_negative_rates :
    (NewConstantLoad (-5)).RPS 0 = -5 ∧
    (NewSpikeLoad (-5) (-1) (10 * Second)).RPS 0 = -1 ∧
    (NewStepLoad (-5) 1 (10 * Second)).RPS 0 = -5 ∧
    (NewRampLoad (-5) 10 (60 * Second)).RPS 0 = -5 ∧
    (NewWaveLoad (-10) (-10) (60 * Second)).RPS (fun _ => 0) 0 = -10 ∧
    (NewStepLoad 4611686018427387904 4611686018427387904 (1 * Second)).RPS 1
      = -9223372036854775808 ∧
    (NewStepLoad 0 10 (-1 * Second)).RPS 5 = -50 ∧
    (NewWaveLoad 4611686018427387904 4611686018427387904 (60 * Second)).RPS (fun _ => 0) 0
      = -4611686018427387904 ∧
    (NewRampLoad 9223372036854775807 9223372036854775807 (60 * Second)).RPS 0
      = -9223372036854775808 := by
  refine ⟨by decide, ?_, ?_, ?_, ?_, ?_, ?_, ?_, ?_⟩
  · unfold SpikeLoad.RPS NewSpikeLoad
    simp only [secondsInt_whole]
    decide
  · unfold StepLoad.RPS NewStepLoad
    simp only [secondsInt_whole]
    decide
  · rw [rampLoad_rps_zero _ _ 60 (by decide), F64.ofInt_eq _ (by decide),
      F64.nearest_intCast _ (by decide), F64.Round_intCast,
      F64.toInt_intCast _ (by decide) (by decide)]
  · rw [waveLoad_rps_zero]
    have hw : wrap64 (-10 + -10) = -20 := by decide
    have h2 : F64.nearest (((-20 : Int) : ℚ) / 2) = ((-10 : Int) : ℚ) := by
      have := F64.nearest_intCast (-10) (by decide)
      norm_num at this ⊢
      exact this
    rw [hw, F64.ofInt_eq _ (by decide), h2, F64.nearest_intCast _ (by decide),
      F64.Round_intCast, F64.toInt_intCast _ (by decide) (by decide)]
  · unfold StepLoad.RPS NewStepLoad
    simp only [secondsInt_whole]
    decide
  · unfold StepLoad.RPS NewStepLoad
    simp only [secondsInt_whole]
    decide
  · rw [waveLoad_rps_zero]
    have hw : wrap64 (4611686018427387904 + 4611686018427387904) = -9223372036854775808 := by
      decide
    have h1 : F64.ofInt (-9223372036854775808) = -9223372036854775808 := by
      have := F64.nearest_exact (-1) 63 (by decide) (by decide)
      unfold F64.ofInt
      norm_num at this ⊢
      exact this
    have h2 : F64.nearest (-9223372036854775808 / 2) = -4611686018427387904 := by
      have := F64.nearest_exact (-1) 62 (by decide) (by decide)
      norm_num at this ⊢
      exact this
    have h3 : F64.nearest (-4611686018427387904) = -4611686018427387904 := by
      have := F64.nearest_exact (-1) 62 (by decide) (by decide)
      norm_num at this ⊢
      exact this
    rw [hw, h1, h2, h3]
    have h : (-4611686018427387904 : ℚ) = ((-4611686018427387904 : Int) : ℚ) := by norm_num
    rw [h, F64.Round_intCast, F64.toInt_intCast _ (by decide) (by decide)]
  · rw [rampLoad_rps_zero _ _ 60 (by decide), ofInt_max_int]
    have h3 : F64.nearest 9223372036854775808 = 9223372036854775808 := by
      have := F64.nearest_exact 1 63 (by decide) (by decide)
      norm_num at this ⊢
      exact this
    have h : (9223372036854775808 : ℚ) = ((9223372036854775808 : Int) : ℚ) := by norm_num
    rw [h3, h, F64.Round_intCast, ← h, toInt_two_pow_63]

/-- C10 (amended): no pattern clamps its result; the rate is not negative when
the parameters are not negative and stay in range.  For every second `s ≥ 0`: a
constant pattern returns its `rps`, so a rate `≥ 0` when `rps ≥ 0`; a spike
pattern with base and spike rates `≥ 0` returns a rate `≥ 0`, whatever its
period; a step pattern with start rate and step size `≥ 0` and an interval
`≥ 0` returns, when `start + (s / E) * step` stays below `2^63` (`E` the whole
seconds of the interval, 0 standing for 10), exactly that value, which is
`≥ 0`; a ramp with `0 ≤ min, max ≤ 2^61` returns a rate `≥ 0`, whatever its
duration; and a wave with `0 ≤ min, max ≤ 2^61` returns a rate `≥ 0`, whatever
its period, for every sine approximation with values between -1 and 1. -/
theorem rps_nonneg_of_nonneg_parameters (sin : ℚ → ℚ) (hsin : ∀ x, |sin x| ≤ 1)
    (rps base spike start step a b d s : Int) (hs : 0 ≤ s) :
    (NewConstantLoad rps).RPS s = rps ∧
    (0 ≤ rps → 0 ≤ (NewConstantLoad rps).RPS s) ∧
    (0 ≤ base → 0 ≤ spike → 0 ≤ (NewSpikeLoad base spike d).RPS s) ∧
    (0 ≤ start → 0 ≤ step → 0 ≤ d → s < 9223372036854775808 →
      start + Int.tdiv s (if secondsInt d = 0 then 10 else secondsInt d) * step
        < 9223372036854775808 →
      0 ≤ (NewStepLoad start step d).RPS s ∧
      (NewStepLoad start step d).RPS s
        = start + Int.tdiv s (if secondsInt d = 0 then 10 else secondsInt d) * step) ∧
    (0 ≤ a → a ≤ 2305843009213693952 → 0 ≤ b → b ≤ 2305843009213693952 →
      0 ≤ (NewRampLoad a b d).RPS s) ∧
    (0 ≤ a → a ≤ 2305843009213693952 → 0 ≤ b → b ≤ 2305843009213693952 →
      0 ≤ (NewWaveLoad a b d).RPS sin s) := by
  refine ⟨rfl, fun hrps => hrps, ?_, ?_, ?_, ?_⟩
  · intro hbase hspike
    unfold SpikeLoad.RPS NewSpikeLoad
    dsimp only
    split_ifs <;> assumption
  · intro hstart hstep hd hs64 hfit
    exact stepLoad_rps_value start step d s hstart hstep hd hs hs64 hfit
  · intro ha ha' hb hb'
    exact rampLoad_rps_nonneg a b d s ha ha' hb hb' hs
  · intro ha ha' hb hb'
    exact waveLoad_rps_nonneg sin hsin a b d s ha ha' hb hb'

/-- Witness of C10 (amended): at second 25 a ramp from 10 to 100 over 30 s, a
wave between 10 and 21 with a period of 60 s, a step pattern from 10 by 5 every
10 s, a spike pattern and a constant pattern all return a rate that is not
negative. -/
theorem rps_nonneg_of_nonneg_parameters_witness :
    0 ≤ (NewRampLoad 10 100 (30 * Second)).RPS 25 ∧
    0 ≤ (NewWaveLoad 10 100 (30 * Second)).RPS (fun _ => 0) 25 ∧
    0 ≤ (NewStepLoad 10 5 (30 * Second)).RPS 25 ∧
    0 ≤ (NewSpikeLoad 10 5 (30 * Second)).RPS 25 ∧
    0 ≤ (NewConstantLoad 7).RPS 25 :=
  ⟨(rps_nonneg_of_nonneg_parameters (fun _ => 0) (fun _ => by simp) 7 10 5 10 5 10 100
      (30 * Second) 25 (by decide)).2.2.2.2.1 (by decide) (by decide) (by decide) (by decide),
   (rps_nonneg_of_nonneg_parameters (fun _ => 0) (fun _ => by simp) 7 10 5 10 5 10 100
      (30 * Second) 25 (by decide)).2.2.2.2.2 (by decide) (by decide) (by decide) (by decide),
   ((rps_nonneg_of_nonneg_parameters (fun _ => 0) (fun _ => by simp) 7 10 5 10 5 10 100
      (30 * Second) 25 (by decide)).2.2.2.1 (by decide) (by decide) (by decide) (by decide)
      (by simp only [secondsInt_whole]; decide)).1,
   (rps_nonneg_of_nonneg_parameters (fun _ => 0) (fun _ => by simp) 7 10 5 10 5 10 100
      (30 * Second) 25 (by decide)).2.2.1 (by decide) (by decide),
   (rps_nonneg_of_nonneg_parameters (fun _ => 0) (fun _ => by simp) 7 10 5 10 5 10 100
      (30 * Second) 25 (by decide)).2.1 (by decide)⟩

end Patterns

end Mop
